import Mathlib

/-!
Verification of the anti-truncation proxy core (marker protocol, retry loops,
streaming reassembly engine) against its natural-language specification.

Texts are modelled as `List Char` (the worker operates on JS strings; chunk
boundaries are taken at character granularity, which is what the streaming
`TextDecoder(…, {stream:true})` guarantees at the byte level).

Source files embedded here:
  * `src/constants.js` — marker token literals;
  * `src/core.js` — `isFormalResponseStarted`, `isResponseComplete`,
    `cleanFinalText`, `buildRetryRequest`, `parseParts`;
  * `src/handlers.js` — the non-streaming retry loop
    (`handleNonStreamingRequest`) and the streaming reassembly engine
    (`handleStreamingRequest`).
-/

namespace AntiTrunc

/-- Texts are lists of characters. -/
abbrev Str := List Char

/-- The begin marker literal `[RESPONSE_BEGIN]` (constants.js `BEGIN_TOKEN`). -/
def BEGIN_TOKEN : Str := "[RESPONSE_BEGIN]".data

/-- The finish marker literal `[RESPONSE_FINISHED]` (constants.js `FINISHED_TOKEN`). -/
def FINISHED_TOKEN : Str := "[RESPONSE_FINISHED]".data

/-- The incomplete marker literal `[RESPONSE_NOT_FINISHED]` (constants.js `INCOMPLETE_TOKEN`). -/
def INCOMPLETE_TOKEN : Str := "[RESPONSE_NOT_FINISHED]".data

/-- Characters matched by the JavaScript regex class `\s` (also the
characters trimmed by `String.prototype.trim`). -/
def isJsWs (c : Char) : Bool :=
  c = ' ' || c = '\t' || c = '\n' || c = '\r' ||
  c = Char.ofNat 0x0b || c = Char.ofNat 0x0c ||
  c = Char.ofNat 0xa0 || c = Char.ofNat 0x1680 ||
  (0x2000 ≤ c.toNat && c.toNat ≤ 0x200a) ||
  c = Char.ofNat 0x2028 || c = Char.ofNat 0x2029 ||
  c = Char.ofNat 0x202f || c = Char.ofNat 0x205f ||
  c = Char.ofNat 0x3000 || c = Char.ofNat 0xfeff

/-- Drop trailing JS-whitespace characters (the effect of anchoring `\s*$`). -/
def rstripWs (t : Str) : Str :=
  (t.reverse.dropWhile isJsWs).reverse

/-- Drop leading JS-whitespace characters. -/
def lstripWs (t : Str) : Str := t.dropWhile isJsWs

/-- JS `String.prototype.trim`. -/
def jsTrim (t : Str) : Str := rstripWs (lstripWs t)

/-- Drop at most one leading JS-whitespace character (the effect of a
leading greedy `\s?` in a matched pattern). -/
def dropOneWsLeft (t : Str) : Str :=
  match t with
  | [] => []
  | c :: r => if isJsWs c then r else c :: r

/-- Drop at most one trailing JS-whitespace character. -/
def dropOneWsRight (t : Str) : Str :=
  (dropOneWsLeft t.reverse).reverse

/-- core.js `isResponseComplete`: the regex test
`new RegExp(escapedFinishedToken + "\\s*$").test(text)`, i.e. the text,
after discarding trailing whitespace, ends with the finish marker. -/
def isResponseComplete (text : Str) : Bool :=
  FINISHED_TOKEN.isSuffixOf (rstripWs text)

/-- The character class excluded after the begin marker in
core.js `isFormalResponseStarted`: the regex is
`^BEGIN($|[^X. ])` where `X` is the backtick character, so the marker must be
followed by end-of-string or by a character that is not a backtick, not a
period and not a space. -/
def isExcludedAfterBegin (c : Char) : Bool :=
  c = Char.ofNat 0x60 || c = '.' || c = ' '

/-- core.js `isFormalResponseStarted`: the regex test
`new RegExp("^" + escapedBeginToken + "($|[^X\\. ])").test(text)` with `X`
the backtick; true iff the text starts with the begin marker and the marker
is followed by end-of-string or a character outside the excluded set. -/
def isFormalResponseStarted (text : Str) : Bool :=
  BEGIN_TOKEN.isPrefixOf text &&
    (match text.drop BEGIN_TOKEN.length with
     | [] => true
     | c :: _ => !isExcludedAfterBegin c)

/-- The begin-marker half of core.js `cleanFinalText`:
`text.replace(new RegExp("^\\s?" + escapedBeginToken + "\\s?"), "")`.
The anchored pattern consumes one optional whitespace character, the begin
marker, then one optional whitespace character; if the first character is
whitespace but the marker does not follow it, backtracking retries with the
empty `\s?`, which then fails because the marker starts with `[`. -/
def cleanBeginToken (text : Str) : Str :=
  match text with
  | [] => []
  | c :: rest =>
    if isJsWs c then
      if BEGIN_TOKEN.isPrefixOf rest then
        dropOneWsLeft (rest.drop BEGIN_TOKEN.length)
      else text
    else
      if BEGIN_TOKEN.isPrefixOf text then
        dropOneWsLeft (text.drop BEGIN_TOKEN.length)
      else text

/-- The finish-marker half of core.js `cleanFinalText`:
`text.replace(new RegExp("\\s?" + escapedFinishedToken + "\\s*$"), "")`.
A match exists iff the text, after trailing whitespace is discarded, ends
with the finish marker; the leftmost such match removes the terminal marker
occurrence, at most one whitespace character immediately before it, and all
trailing whitespace after it.  (An earlier marker occurrence cannot match
because `\s*$` would require everything after it — including the terminal
marker, which starts with `[` — to be whitespace.) -/
def cleanFinishToken (text : Str) : Str :=
  let r := rstripWs text
  if FINISHED_TOKEN.isSuffixOf r then
    dropOneWsRight (r.take (r.length - FINISHED_TOKEN.length))
  else text

/-- core.js `cleanFinalText(text, cleanBeginToken = true, cleanFinishToken = true)`. -/
def cleanFinalText (text : Str) (cleanBegin : Bool := true) (cleanFinish : Bool := true) : Str :=
  let t1 := if cleanBegin then cleanBeginToken text else text
  if cleanFinish then cleanFinishToken t1 else t1

end AntiTrunc

namespace AntiTrunc

/-! Helper lemmas about the text predicates. -/

lemma isPrefixOf_append_self (l s : Str) : l.isPrefixOf (l ++ s) = true := by
  simp [List.isPrefixOf_iff_prefix]

lemma cleanBeginToken_begin (s : Str) :
    cleanBeginToken (BEGIN_TOKEN ++ s) = dropOneWsLeft s := by
  have h : BEGIN_TOKEN ++ s = '[' :: ("RESPONSE_BEGIN]".data ++ s) := rfl
  rw [h]
  simp only [cleanBeginToken]
  rw [if_neg (by decide : ¬ isJsWs '[' = true)]
  rw [← h, if_pos (isPrefixOf_append_self BEGIN_TOKEN s), List.drop_left]

lemma cleanBeginToken_ws_begin (c : Char) (hc : isJsWs c = true) (s : Str) :
    cleanBeginToken (c :: (BEGIN_TOKEN ++ s)) = dropOneWsLeft s := by
  simp only [cleanBeginToken]
  rw [if_pos hc, if_pos (isPrefixOf_append_self BEGIN_TOKEN s), List.drop_left]

lemma dropOneWsLeft_ws_cons (c : Char) (hc : isJsWs c = true) (s : Str) :
    dropOneWsLeft (c :: s) = s := by
  simp [dropOneWsLeft, hc]

lemma dropOneWsLeft_not_ws (s : Str)
    (hs : ∀ c, s.head? = some c → isJsWs c = false) : dropOneWsLeft s = s := by
  cases s with
  | nil => rfl
  | cons c r => simp [dropOneWsLeft, hs c rfl]

lemma rstripWs_append_all_ws (y w : Str) (hw : ∀ c ∈ w, isJsWs c = true) :
    rstripWs (y ++ w) = rstripWs y := by
  unfold rstripWs
  rw [List.reverse_append, List.dropWhile_append]
  rw [List.dropWhile_eq_nil_iff.2 (by intro x hx; exact hw x (List.mem_reverse.1 hx))]
  simp

lemma rstripWs_eq_self_of_last_not_ws (l : Str)
    (h : ∀ c, l.getLast? = some c → isJsWs c = false) : rstripWs l = l := by
  unfold rstripWs
  cases hrev : l.reverse with
  | nil => simp_all
  | cons c r =>
    have hc : l.getLast? = some c := by
      rw [← List.head?_reverse, hrev]; rfl
    rw [List.dropWhile_cons_of_neg (by simp [h c hc]), ← hrev, List.reverse_reverse]

lemma finished_getLast : ∀ c, FINISHED_TOKEN.getLast? = some c → isJsWs c = false := by
  intro c hc
  have : c = ']' := by
    have : FINISHED_TOKEN.getLast? = some ']' := by decide
    rw [this] at hc; exact (Option.some_inj.1 hc).symm
  rw [this]; decide

lemma rstripWs_finish (x w : Str) (hw : ∀ c ∈ w, isJsWs c = true) :
    rstripWs ((x ++ FINISHED_TOKEN) ++ w) = x ++ FINISHED_TOKEN := by
  rw [rstripWs_append_all_ws _ _ hw]
  apply rstripWs_eq_self_of_last_not_ws
  intro c hc
  rw [List.getLast?_append] at hc
  rw [show FINISHED_TOKEN.getLast? = some ']' from by decide] at hc
  have : c = ']' := by
    simpa [Option.or] using hc.symm
  rw [this]; decide

lemma cleanFinishToken_finish (x w : Str) (hw : ∀ c ∈ w, isJsWs c = true) :
    cleanFinishToken ((x ++ FINISHED_TOKEN) ++ w) = dropOneWsRight x := by
  unfold cleanFinishToken
  rw [rstripWs_finish x w hw]
  rw [if_pos (by simp [List.isSuffixOf_iff_suffix])]
  have hlen : (x ++ FINISHED_TOKEN).length - FINISHED_TOKEN.length = x.length := by
    simp
  rw [hlen, List.take_left]

lemma dropOneWsRight_ws_snoc (x : Str) (c : Char) (hc : isJsWs c = true) :
    dropOneWsRight (x ++ [c]) = x := by
  unfold dropOneWsRight
  rw [List.reverse_append]
  simp [dropOneWsLeft, hc]

lemma dropOneWsRight_not_ws (x : Str)
    (hx : ∀ c, x.getLast? = some c → isJsWs c = false) : dropOneWsRight x = x := by
  unfold dropOneWsRight
  rw [dropOneWsLeft_not_ws]
  · exact x.reverse_reverse
  · intro c hc
    exact hx c (by rw [← List.head?_reverse]; exact hc)

/-! Claim C2: behaviour of `isFormalResponseStarted` (spec name `hasAnswerStarted`). -/

/-- C2 counterexample: the claim asserts that `hasAnswerStarted` returns true
for the begin-marker followed by `" Hello"`, but the regex's excluded
character class `[^X. ]` (with `X` the backtick) also excludes the space, so
the code returns false on that input. -/
theorem isFormalResponseStarted_space_counterexample :
    isFormalResponseStarted ("[RESPONSE_BEGIN] Hello".data) = false := by decide

/-- C2 (amended): `isFormalResponseStarted` returns true for the begin-marker
alone, false for the begin-marker followed by `" Hello"` (a space is in the
excluded character set), false for the begin-marker followed by `". ok"`, and
false for every text that does not start with the begin-marker. -/
theorem isFormalResponseStarted_spec :
    isFormalResponseStarted ("[RESPONSE_BEGIN]".data) = true ∧
    isFormalResponseStarted ("[RESPONSE_BEGIN] Hello".data) = false ∧
    isFormalResponseStarted ("[RESPONSE_BEGIN]. ok".data) = false ∧
    (∀ t : Str, BEGIN_TOKEN.isPrefixOf t = false →
      isFormalResponseStarted t = false) := by
  refine ⟨by decide, by decide, by decide, ?_⟩
  intro t h
  unfold isFormalResponseStarted
  rw [h]
  rfl

/-- C2 witness: the general clause of `isFormalResponseStarted_spec` applied
at a concrete text that does not start with the begin-marker. -/
theorem isFormalResponseStarted_spec_witness :
    isFormalResponseStarted ("hello world".data) = false :=
  isFormalResponseStarted_spec.2.2.2 ("hello world".data) (by decide)

/-! Claim C7: marker stripping round-trips marker injection. -/

/-- C7 counterexample: for the marker-free text `" a"` (which starts with a
space), injecting the markers with no extra whitespace and stripping them
does not return the original text — the begin-marker strip also consumes the
text's own leading space, yielding `"a"`. -/
theorem cleanFinalText_roundtrip_counterexample :
    cleanFinalText (BEGIN_TOKEN ++ (" a".data ++ FINISHED_TOKEN)) ≠ " a".data := by
  decide

/-- A whitespace affix of length at most one. -/
def wsOpt (w : Str) : Prop := w = [] ∨ ∃ c, isJsWs c = true ∧ w = [c]

/-- C7 (amended): for every text that does not contain the begin- or
finish-marker and neither starts nor ends with a whitespace character,
stripping markers (cleanFinalText with both flags true) after injection —
with or without a single whitespace character adjacent to each marker, and
with arbitrary trailing whitespace after the finish-marker — yields back
exactly the original text.  (The whitespace conditions on the text are
forced: the strip regexes consume one adjacent whitespace character, which
would otherwise eat the text's own leading or trailing whitespace.) -/
lemma cleanFinishToken_nil_case (w4 : Str) (hw4 : ∀ c ∈ w4, isJsWs c = true) :
    cleanFinishToken (FINISHED_TOKEN ++ w4) = [] := by
  rw [show FINISHED_TOKEN ++ w4 = (([] : Str) ++ FINISHED_TOKEN) ++ w4 from by simp]
  rw [cleanFinishToken_finish [] w4 hw4]
  rfl

lemma cleanFinishToken_main (t w3 w4 : Str) (hw3 : wsOpt w3)
    (hw4 : ∀ c ∈ w4, isJsWs c = true)
    (htl : ∀ c, t.getLast? = some c → isJsWs c = false) :
    cleanFinishToken (t ++ (w3 ++ (FINISHED_TOKEN ++ w4))) = t := by
  rw [show t ++ (w3 ++ (FINISHED_TOKEN ++ w4)) = ((t ++ w3) ++ FINISHED_TOKEN) ++ w4
      from by simp]
  rw [cleanFinishToken_finish (t ++ w3) w4 hw4]
  rcases hw3 with h3 | ⟨c3, hc3, h3⟩
  · subst h3
    rw [List.append_nil]
    exact dropOneWsRight_not_ws t htl
  · subst h3
    exact dropOneWsRight_ws_snoc t c3 hc3

lemma cleanFinishToken_dropOne_main (t w2 w3 w4 : Str) (hw2 : wsOpt w2)
    (hw3 : wsOpt w3) (hw4 : ∀ c ∈ w4, isJsWs c = true)
    (hth : ∀ c, t.head? = some c → isJsWs c = false)
    (htl : ∀ c, t.getLast? = some c → isJsWs c = false) :
    cleanFinishToken (dropOneWsLeft (w2 ++ (t ++ (w3 ++ (FINISHED_TOKEN ++ w4))))) = t := by
  rcases hw2 with h2 | ⟨c2, hc2, h2⟩
  · subst h2
    rw [List.nil_append]
    cases t with
    | nil =>
      rw [List.nil_append]
      rcases hw3 with h3 | ⟨c3, hc3, h3⟩
      · subst h3
        rw [List.nil_append]
        rw [show dropOneWsLeft (FINISHED_TOKEN ++ w4) = FINISHED_TOKEN ++ w4 from by
          rw [show FINISHED_TOKEN ++ w4 = '[' :: ("RESPONSE_FINISHED]".data ++ w4) from rfl]
          simp [dropOneWsLeft, show isJsWs '[' = false from by decide]]
        exact cleanFinishToken_nil_case w4 hw4
      · subst h3
        rw [List.singleton_append, dropOneWsLeft_ws_cons c3 hc3]
        exact cleanFinishToken_nil_case w4 hw4
    | cons c0 t' =>
      rw [List.cons_append]
      have hc0 : isJsWs c0 = false := hth c0 rfl
      rw [show dropOneWsLeft (c0 :: (t' ++ (w3 ++ (FINISHED_TOKEN ++ w4))))
          = c0 :: (t' ++ (w3 ++ (FINISHED_TOKEN ++ w4))) from by simp [dropOneWsLeft, hc0]]
      rw [← List.cons_append]
      exact cleanFinishToken_main (c0 :: t') w3 w4 hw3 hw4 htl
  · subst h2
    rw [List.singleton_append, dropOneWsLeft_ws_cons c2 hc2]
    exact cleanFinishToken_main t w3 w4 hw3 hw4 htl

theorem cleanFinalText_roundtrip (t w1 w2 w3 w4 : Str)
    (hw1 : wsOpt w1) (hw2 : wsOpt w2) (hw3 : wsOpt w3)
    (hw4 : ∀ c ∈ w4, isJsWs c = true)
    (hth : ∀ c, t.head? = some c → isJsWs c = false)
    (htl : ∀ c, t.getLast? = some c → isJsWs c = false)
    (hbt : ¬ BEGIN_TOKEN <:+: t) (hft : ¬ FINISHED_TOKEN <:+: t) :
    cleanFinalText (w1 ++ BEGIN_TOKEN ++ w2 ++ t ++ w3 ++ FINISHED_TOKEN ++ w4) = t := by
  clear hbt hft
  rw [show w1 ++ BEGIN_TOKEN ++ w2 ++ t ++ w3 ++ FINISHED_TOKEN ++ w4
      = w1 ++ (BEGIN_TOKEN ++ (w2 ++ (t ++ (w3 ++ (FINISHED_TOKEN ++ w4)))))
      from by simp [List.append_assoc]]
  have hclean : cleanBeginToken (w1 ++ (BEGIN_TOKEN ++ (w2 ++ (t ++ (w3 ++ (FINISHED_TOKEN ++ w4))))))
      = dropOneWsLeft (w2 ++ (t ++ (w3 ++ (FINISHED_TOKEN ++ w4)))) := by
    rcases hw1 with h | ⟨c, hc, h⟩
    · subst h
      rw [List.nil_append]
      exact cleanBeginToken_begin _
    · subst h
      rw [List.singleton_append]
      exact cleanBeginToken_ws_begin c hc _
  simp only [cleanFinalText, if_pos]
  rw [hclean]
  exact cleanFinishToken_dropOne_main t w2 w3 w4 hw2 hw3 hw4 hth htl

/-- C7 witness: the round-trip theorem applied at the concrete text
`"hello"` with a single space after the begin-marker, no whitespace around
the finish-marker, and a trailing newline. -/
theorem cleanFinalText_roundtrip_witness :
    cleanFinalText ([] ++ BEGIN_TOKEN ++ [' '] ++ "hello".data ++ [] ++
      FINISHED_TOKEN ++ "\n".data) = "hello".data := by
  apply cleanFinalText_roundtrip "hello".data [] [' '] [] "\n".data
  · exact Or.inl rfl
  · exact Or.inr ⟨' ', by decide, rfl⟩
  · exact Or.inl rfl
  · intro c hc
    rw [show ("\n".data) = ['\n'] from rfl, List.mem_singleton] at hc
    subst hc
    decide
  · intro c hc
    have h2 : some 'h' = some c := hc
    cases Option.some.inj h2
    decide
  · intro c hc
    have h2 : some 'o' = some c := hc
    cases Option.some.inj h2
    decide
  · intro h
    have : BEGIN_TOKEN.length ≤ ("hello".data).length := h.length_le
    simp [BEGIN_TOKEN] at this
  · intro h
    have : FINISHED_TOKEN.length ≤ ("hello".data).length := h.length_le
    simp [FINISHED_TOKEN] at this

/-! Request-body data model (the Conversation Request shape of the Gemini
API, as accessed by core.js).  A `Part` record models a JS part object:
`text := none` models a part without a `text` property (the
`hasOwnProperty` check in `buildRetryRequest`), and JS truthiness of
`part.text` is `text = some s` with `s` nonempty. -/

structure Part where
  text : Option Str := none
  thought : Bool := false
  functionCall : Bool := false
deriving DecidableEq

/-- JS truthiness of an optional string property. -/
def textTruthy : Option Str → Bool
  | some s => !s.isEmpty
  | none => false

/-- A content entry: a role and an optional parts array (`parts := none`
models a missing or non-array `parts` property). -/
structure Content where
  role : Str
  parts : Option (List Part) := none
deriving DecidableEq

/-- A system instruction holds a parts array of the same shape. -/
structure SystemInstruction where
  parts : Option (List Part) := none
deriving DecidableEq

/-- A request body: contents list, the canonical and legacy system
instruction spellings (`none` models an absent property). -/
structure RequestBody where
  contents : Option (List Content) := none
  systemInstruction : Option SystemInstruction := none
  system_instruction : Option SystemInstruction := none
deriving DecidableEq

/-- core.js `normalizeSystemInstruction`: if both spellings are present the
legacy one is deleted; if only the legacy one is present it is renamed to
the canonical spelling. -/
def normalizeSystemInstruction (body : RequestBody) : RequestBody :=
  if body.systemInstruction.isSome && body.system_instruction.isSome then
    { body with system_instruction := none }
  else if !body.systemInstruction.isSome && body.system_instruction.isSome then
    { body with systemInstruction := body.system_instruction, system_instruction := none }
  else body

/-- Index of the last part owning a `text` property (the downward search at
core.js `buildRetryRequest`, `for (let i = parts.length - 1; …)`). -/
def findLastTextPartIdx : List Part → Option Nat
  | [] => none
  | p :: ps =>
    match findLastTextPartIdx ps with
    | some i => some (i + 1)
    | none => if p.text.isSome then some 0 else none

/-- Append `t` to the `text` property of the part at index `i`
(`lastTextPart.text = (lastTextPart.text || "") + newResponseText`; the
truthiness fallback makes an empty existing text behave like `""`). -/
def appendTextAt (ps : List Part) (i : Nat) (t : Str) : List Part :=
  match ps[i]? with
  | some p => ps.set i { p with text := some (p.text.getD [] ++ t) }
  | none => ps

/-- The fresh model-role content entry pushed by `buildRetryRequest`. -/
def newModelContent (t : Str) : Content :=
  { role := "model".data, parts := some [{ text := some t }] }

/-- core.js `buildRetryRequest(currentBody, newResponseText)`: deep-copies
(identity in this value semantics) and normalizes the body, ensures the
contents list exists, then appends the new text to the last content entry if
it is model-role (to its last text-owning part, or as a fresh part, or as a
fresh parts array), else pushes a new model-role entry. -/
def buildRetryRequest (currentBody : RequestBody) (newResponseText : Str) : RequestBody :=
  let newBody := normalizeSystemInstruction currentBody
  let contents := newBody.contents.getD []
  match contents.getLast? with
  | some lastContent =>
    if lastContent.role = "model".data then
      let newLast : Content :=
        match lastContent.parts with
        | none => { lastContent with parts := some [{ text := some newResponseText }] }
        | some ps =>
          if ps.isEmpty then
            { lastContent with parts := some [{ text := some newResponseText }] }
          else
            match findLastTextPartIdx ps with
            | some i => { lastContent with parts := some (appendTextAt ps i newResponseText) }
            | none => { lastContent with parts := some (ps ++ [{ text := some newResponseText }]) }
      { newBody with contents := some (contents.dropLast ++ [newLast]) }
    else
      { newBody with contents := some (contents ++ [newModelContent newResponseText]) }
  | none =>
    { newBody with contents := some (contents ++ [newModelContent newResponseText]) }

/-! Claim C8: behaviour of `buildRetryRequest` (spec name `buildContinuation`). -/

lemma normalizeSystemInstruction_contents (b : RequestBody) :
    (normalizeSystemInstruction b).contents = b.contents := by
  unfold normalizeSystemInstruction
  split
  · rfl
  · split <;> rfl

lemma findLastTextPartIdx_lt (ps : List Part) (i : Nat)
    (h : findLastTextPartIdx ps = some i) : i < ps.length := by
  induction ps generalizing i with
  | nil => simp [findLastTextPartIdx] at h
  | cons p ps ih =>
    unfold findLastTextPartIdx at h
    cases hrec : findLastTextPartIdx ps with
    | some j =>
      rw [hrec] at h
      cases Option.some.inj h
      simpa using Nat.succ_lt_succ (ih j hrec)
    | none =>
      rw [hrec] at h
      by_cases hp : p.text.isSome
      · rw [if_pos hp] at h
        cases Option.some.inj h
        simp
      · rw [if_neg hp] at h
        cases h

lemma appendTextAt_length (ps : List Part) (i : Nat) (t : Str) :
    (appendTextAt ps i t).length = ps.length := by
  unfold appendTextAt
  cases h : ps[i]? with
  | some p => simp
  | none => rfl

lemma appendTextAt_get_eq (ps : List Part) (i : Nat) (t : Str) (p : Part)
    (h : ps[i]? = some p) :
    (appendTextAt ps i t)[i]? = some { p with text := some (p.text.getD [] ++ t) } := by
  unfold appendTextAt
  rw [h]
  exact List.getElem?_set_eq (by
    have := List.getElem?_eq_some.1 h
    exact this.1)

lemma appendTextAt_get_ne (ps : List Part) (i : Nat) (t : Str) (j : Nat)
    (h : j ≠ i) : (appendTextAt ps i t)[j]? = ps[j]? := by
  unfold appendTextAt
  cases hp : ps[i]? with
  | some p => exact List.getElem?_set_ne (fun he => h he.symm)
  | none => rfl

lemma buildRetryRequest_contents_push (body : RequestBody) (t : Str)
    (h : ∀ c, (body.contents.getD []).getLast? = some c → ¬ c.role = "model".data) :
    (buildRetryRequest body t).contents =
      some (body.contents.getD [] ++ [newModelContent t]) := by
  unfold buildRetryRequest
  simp only [normalizeSystemInstruction_contents]
  cases hl : (body.contents.getD []).getLast? with
  | none => rfl
  | some c =>
    simp only [hl]
    rw [if_neg (h c hl)]

lemma buildRetryRequest_contents_model (body : RequestBody) (t : Str)
    (c : Content) (ps : List Part) (i : Nat)
    (hl : (body.contents.getD []).getLast? = some c)
    (hrole : c.role = "model".data) (hparts : c.parts = some ps)
    (hidx : findLastTextPartIdx ps = some i) (hne : ps.isEmpty = false) :
    (buildRetryRequest body t).contents =
      some ((body.contents.getD []).dropLast ++
        [{ c with parts := some (appendTextAt ps i t) }]) := by
  unfold buildRetryRequest
  simp only [normalizeSystemInstruction_contents, hl]
  rw [if_pos hrole]
  simp only [hparts, hne, hidx]
  rfl

/-- C8: for every request body, `buildRetryRequest` (spec name
`buildContinuation`) with new text `t` appends a new model-role content
entry holding `t` when the last content entry is not model-role (or the
content list is empty or missing); and when the last content entry is
model-role with at least one text-owning part, it appends `t` to that
entry's last text-owning part instead of creating a new part, leaving the
part count of that entry — and every other part — unchanged. -/
theorem buildRetryRequest_spec (body : RequestBody) (t : Str) :
    ((∀ c, (body.contents.getD []).getLast? = some c → ¬ c.role = "model".data) →
      (buildRetryRequest body t).contents =
        some (body.contents.getD [] ++ [newModelContent t])) ∧
    (∀ lastC ps i, (body.contents.getD []).getLast? = some lastC →
      lastC.role = "model".data → lastC.parts = some ps →
      findLastTextPartIdx ps = some i →
      (buildRetryRequest body t).contents =
        some ((body.contents.getD []).dropLast ++
          [{ lastC with parts := some (appendTextAt ps i t) }]) ∧
      (appendTextAt ps i t).length = ps.length ∧
      (∃ p, ps[i]? = some p ∧
        (appendTextAt ps i t)[i]? = some { p with text := some (p.text.getD [] ++ t) }) ∧
      (∀ j, j ≠ i → (appendTextAt ps i t)[j]? = ps[j]?)) := by
  constructor
  · exact buildRetryRequest_contents_push body t
  · intro lastC ps i hl hrole hparts hidx
    have hlt : i < ps.length := findLastTextPartIdx_lt ps i hidx
    have hne : ps.isEmpty = false := by
      cases ps with
      | nil => simp [findLastTextPartIdx] at hidx
      | cons p ps' => rfl
    refine ⟨buildRetryRequest_contents_model body t lastC ps i hl hrole hparts hidx hne,
      appendTextAt_length ps i t, ?_, fun j hj => appendTextAt_get_ne ps i t j hj⟩
    obtain ⟨p, hp⟩ : ∃ p, ps[i]? = some p := by
      rw [List.getElem?_eq_getElem hlt]
      exact ⟨_, rfl⟩
    exact ⟨p, hp, appendTextAt_get_eq ps i t p hp⟩

/-- C8 witness: the theorem applied at a concrete two-entry body whose last
content entry is model-role with a text part; the new text is appended to
that part and the part count stays 1. -/
theorem buildRetryRequest_spec_witness :
    (buildRetryRequest
      { contents := some [⟨"user".data, some [{ text := some "hi".data }]⟩,
                          ⟨"model".data, some [{ text := some "partial".data }]⟩] }
      "-more".data).contents =
      some [⟨"user".data, some [{ text := some "hi".data }]⟩,
            ⟨"model".data, some [{ text := some "partial-more".data }]⟩] := by
  have h := (buildRetryRequest_spec
    { contents := some [⟨"user".data, some [{ text := some "hi".data }]⟩,
                        ⟨"model".data, some [{ text := some "partial".data }]⟩] }
    "-more".data).2
    ⟨"model".data, some [{ text := some "partial".data }]⟩
    [{ text := some "partial".data }] 0 (by decide) (by decide) (by decide) (by decide)
  rw [h.1]
  decide

/-! Non-streaming retry loop (handlers.js `handleNonStreamingRequest`),
modelled as a function of the per-attempt upstream results.  The loop
`while (attempts <= config.maxRetries)` makes at most `maxRetries + 1`
attempts; the accumulators and the thought-finished flag persist across
attempts. -/

/-- constants.js `RETRYABLE_STATUS_CODES`. -/
def RETRYABLE_STATUS_CODES : List Nat := [503, 403, 429]

/-- constants.js `FATAL_STATUS_CODES`. -/
def FATAL_STATUS_CODES : List Nat := [500]

/-- constants.js `MAX_FETCH_RETRIES`. -/
def MAX_FETCH_RETRIES : Nat := 3

/-- constants.js `MAX_NON_RETRYABLE_STATUS_RETRIES`. -/
def MAX_NON_RETRYABLE_STATUS_RETRIES : Nat := 3

/-- Worker configuration fields used by the retry loops (utils.js
`parseConfig`). -/
structure Config where
  maxRetries : Nat
  startOfThought : Str
deriving DecidableEq

/-- Result of one upstream fetch: an HTTP-ok JSON response (its
`candidates[0].content.parts`), a non-ok HTTP status with its body text, or
a transport-level fetch error. -/
inductive UpstreamResult where
  | ok (parts : List Part)
  | httpError (status : Nat) (body : Str)
  | fetchError (msg : Str)
deriving DecidableEq

/-- The per-request accumulation state of the non-streaming loop
(`thoughtAccumulatedText`, `formalAccumulatedText`, `isThoughtFinished`). -/
structure NSAccum where
  thoughtAcc : Str
  formalAcc : Str
  isThoughtFinished : Bool
deriving DecidableEq

/-- Processing of one part inside the `for (const part of parts)` loop of
`handleNonStreamingRequest` (lines 173-190): parts whose `text` is truthy
and whose `thought` flag is falsy either mark the thought→formal transition
(via `isFormalResponseStarted`), accumulate into the thought text, or
accumulate into the formal text; every other part is skipped. -/
def processPart (s : NSAccum) (p : Part) : NSAccum :=
  if textTruthy p.text && !p.thought then
    let t := p.text.getD []
    if !s.isThoughtFinished then
      if isFormalResponseStarted t then
        { s with isThoughtFinished := true, formalAcc := s.formalAcc ++ t }
      else { s with thoughtAcc := s.thoughtAcc ++ t }
    else { s with formalAcc := s.formalAcc ++ t }
  else s

/-- The function-call detection loop over the response parts. -/
def hasFunctionCallPart (parts : List Part) : Bool :=
  parts.any (fun p => p.functionCall)

/-- Terminal outcome of the non-streaming loop. -/
inductive NSOutcome where
  | functionCallPassthrough (parts : List Part)
  | complete (thought formal : Str)
  | fatal (status : Nat) (body : Str)
  | httpErrorAfterRetries (status : Nat) (body : Str)
  | fetchErrorAfterRetries (msg : Str)
  | exhausted (thought formal : Str)
deriving DecidableEq

/-- Outcome of the non-streaming handler together with the number of
upstream fetches that were made. -/
structure NSResult where
  outcome : NSOutcome
  calls : Nat
deriving DecidableEq

/-- The retry loop of `handleNonStreamingRequest`, by remaining fuel
(`maxRetries + 1` iterations at most) and the attempts counter. -/
def runNonStreamingAux (cfg : Config) (up : Nat → UpstreamResult) :
    Nat → Nat → RequestBody → NSAccum → NSResult
  | 0, attempts, _, st => ⟨.exhausted st.thoughtAcc st.formalAcc, attempts⟩
  | fuel + 1, attempts, body, st =>
    let attempt := attempts + 1
    match up attempt with
    | .ok parts =>
      if hasFunctionCallPart parts then ⟨.functionCallPassthrough parts, attempt⟩
      else
        let st2 := parts.foldl processPart st
        if st2.isThoughtFinished && isResponseComplete st2.formalAcc then
          ⟨.complete st2.thoughtAcc st2.formalAcc, attempt⟩
        else
          runNonStreamingAux cfg up fuel attempt
            (buildRetryRequest body (st2.thoughtAcc ++ st2.formalAcc)) st2
    | .httpError status sbody =>
      if status ∈ FATAL_STATUS_CODES then ⟨.fatal status sbody, attempt⟩
      else
        let cap := if status ∈ RETRYABLE_STATUS_CODES then cfg.maxRetries
                   else MAX_NON_RETRYABLE_STATUS_RETRIES
        if attempt > cap then ⟨.httpErrorAfterRetries status sbody, attempt⟩
        else runNonStreamingAux cfg up fuel attempt body st
    | .fetchError msg =>
      if attempt > MAX_FETCH_RETRIES then ⟨.fetchErrorAfterRetries msg, attempt⟩
      else runNonStreamingAux cfg up fuel attempt body st

/-- The initial accumulation state: the seed phrase is pre-loaded into the
thought text and the thought phase is active, unless begin-marker injection
was suppressed (`thinkingBudget === 0`). -/
def nsInitAccum (cfg : Config) (injectBeginTokenPrompt : Bool) : NSAccum :=
  { thoughtAcc := if injectBeginTokenPrompt then cfg.startOfThought else []
    formalAcc := []
    isThoughtFinished := !injectBeginTokenPrompt }

/-- handlers.js `handleNonStreamingRequest` for a target-model,
non-structured-output request, as a function of the upstream results per
attempt (1-indexed). -/
def runNonStreaming (cfg : Config) (up : Nat → UpstreamResult)
    (body0 : RequestBody) (injectBeginTokenPrompt : Bool) : NSResult :=
  runNonStreamingAux cfg up (cfg.maxRetries + 1) 0 body0
    (nsInitAccum cfg injectBeginTokenPrompt)

/-- HTTP status of the response the handler returns for each outcome. -/
def nsStatus : NSOutcome → Nat
  | .functionCallPassthrough _ => 200
  | .complete _ _ => 200
  | .fatal s _ => s
  | .httpErrorAfterRetries s _ => s
  | .fetchErrorAfterRetries _ => 500
  | .exhausted _ _ => 200

/-- The `candidates[0].content.parts` array of the final response, for the
outcomes that rebuild it (`complete` pushes the thought part
unconditionally; `exhausted` pushes it only when the accumulated thought
text is truthy and suffixes the cleaned formal text with a newline and the
incomplete marker).  The function-call passthrough and the error envelopes
do not rebuild parts and give `none` here. -/
def nsFinalParts : NSOutcome → Option (List Part)
  | .complete th fo =>
    some [{ text := some th, thought := true }, { text := some (cleanFinalText fo) }]
  | .exhausted th fo =>
    some ((if th.isEmpty then [] else [{ text := some th, thought := true }]) ++
      [{ text := some (cleanFinalText fo ++ '\n' :: INCOMPLETE_TOKEN) }])
  | _ => none

/-- The completion reason the handler itself writes into the final JSON:
only the retries-exhausted outcome sets one (`finishReason: "MAX_RETRIES"`);
all other outcomes keep whatever the upstream response carried. -/
def nsFinishReason : NSOutcome → Option Str
  | .exhausted _ _ => some "MAX_RETRIES".data
  | _ => none

/-- The texts of the rebuilt final response parts. -/
def nsOutputTexts (o : NSOutcome) : List Str :=
  ((nsFinalParts o).getD []).filterMap Part.text

/-! Claim C6: `maxRetries = 0` exhaustion behaviour. -/

/-- C6: with `maxRetries = 0` and a first upstream response that is HTTP-ok,
carries no function call and does not satisfy completion, exactly one
upstream attempt is made and the terminal response is the best-effort
exhausted outcome: HTTP 200, completion reason `MAX_RETRIES`, and the
cleaned formal text suffixed with a newline and the incomplete marker
`[RESPONSE_NOT_FINISHED]`; in general the exhausted outcome always carries
success status 200. -/
theorem nonStreaming_maxRetriesZero (cfg : Config) (up : Nat → UpstreamResult)
    (body0 : RequestBody) (inject : Bool) (parts : List Part)
    (hmr : cfg.maxRetries = 0)
    (h1 : up 1 = .ok parts)
    (hfc : hasFunctionCallPart parts = false)
    (hnc : ((parts.foldl processPart (nsInitAccum cfg inject)).isThoughtFinished &&
        isResponseComplete (parts.foldl processPart (nsInitAccum cfg inject)).formalAcc)
        = false) :
    runNonStreaming cfg up body0 inject =
      ⟨.exhausted (parts.foldl processPart (nsInitAccum cfg inject)).thoughtAcc
        (parts.foldl processPart (nsInitAccum cfg inject)).formalAcc, 1⟩ ∧
    nsStatus (runNonStreaming cfg up body0 inject).outcome = 200 ∧
    nsFinishReason (runNonStreaming cfg up body0 inject).outcome = some "MAX_RETRIES".data ∧
    INCOMPLETE_TOKEN.isSuffixOf
      (cleanFinalText (parts.foldl processPart (nsInitAccum cfg inject)).formalAcc ++
        '\n' :: INCOMPLETE_TOKEN) = true ∧
    (∀ th fo, nsStatus (.exhausted th fo) = 200) := by
  have hrun : runNonStreaming cfg up body0 inject =
      ⟨.exhausted (parts.foldl processPart (nsInitAccum cfg inject)).thoughtAcc
        (parts.foldl processPart (nsInitAccum cfg inject)).formalAcc, 1⟩ := by
    unfold runNonStreaming
    rw [hmr]
    show runNonStreamingAux cfg up (0 + 1) 0 body0 (nsInitAccum cfg inject) = _
    simp only [runNonStreamingAux, Nat.zero_add, h1, hfc, hnc, Bool.false_eq_true,
      if_false]
  refine ⟨hrun, ?_, ?_, ?_, fun th fo => rfl⟩
  · rw [hrun]; rfl
  · rw [hrun]; rfl
  · rw [List.isSuffixOf_iff_suffix]
    exact (List.suffix_cons '\n' INCOMPLETE_TOKEN).trans (List.suffix_append _ _)

/-- C6 witness: the theorem applied to a concrete one-part thought-only
upstream response with `maxRetries = 0`. -/
theorem nonStreaming_maxRetriesZero_witness :
    runNonStreaming ⟨0, "Seed".data⟩
      (fun _ => .ok [{ text := some "thinking".data }]) {} true =
      ⟨.exhausted ("Seed".data ++ "thinking".data) [], 1⟩ := by
  have h := (nonStreaming_maxRetriesZero ⟨0, "Seed".data⟩
    (fun _ => .ok [{ text := some "thinking".data }]) {} true
    [{ text := some "thinking".data }] rfl rfl (by decide) (by decide)).1
  rw [h]
  decide

/-! Claim C10: thought-flagged upstream parts are skipped entirely in the
non-streaming loop. -/

/-- Erasure of the text carried by thought-flagged parts. -/
def stripThoughtText (p : Part) : Part :=
  if p.thought then { p with text := none } else p

/-- Erasure lifted to an upstream result. -/
def stripThoughtTextsUpstream : UpstreamResult → UpstreamResult
  | .ok parts => .ok (parts.map stripThoughtText)
  | r => r

/-- The caller-observable view of a non-streaming result: number of
upstream calls, HTTP status, rebuilt final parts and engine-set completion
reason.  (The raw parts carried by the function-call passthrough are the
upstream's own and are not rebuilt by the engine.) -/
def nsView (r : NSResult) : Nat × Nat × Option (List Part) × Option Str :=
  (r.calls, nsStatus r.outcome, nsFinalParts r.outcome, nsFinishReason r.outcome)

lemma processPart_thought (s : NSAccum) (p : Part) (h : p.thought = true) :
    processPart s p = s := by
  simp [processPart, h]

lemma processPart_strip (s : NSAccum) (p : Part) :
    processPart s (stripThoughtText p) = processPart s p := by
  by_cases h : p.thought
  · rw [processPart_thought s p h]
    simp [stripThoughtText, h, processPart, textTruthy]
  · simp [stripThoughtText, h]

lemma foldl_processPart_strip (parts : List Part) (s : NSAccum) :
    (parts.map stripThoughtText).foldl processPart s = parts.foldl processPart s := by
  induction parts generalizing s with
  | nil => rfl
  | cons p ps ih =>
    simp only [List.map_cons, List.foldl_cons, processPart_strip]
    exact ih (processPart s p)

lemma hasFunctionCallPart_strip (parts : List Part) :
    hasFunctionCallPart (parts.map stripThoughtText) = hasFunctionCallPart parts := by
  induction parts with
  | nil => rfl
  | cons p ps ih =>
    simp only [hasFunctionCallPart, List.map_cons, List.any_cons] at *
    rw [ih]
    congr 1
    unfold stripThoughtText
    split <;> rfl

lemma runNonStreamingAux_strip (cfg : Config) (up : Nat → UpstreamResult)
    (fuel : Nat) : ∀ (attempts : Nat) (body : RequestBody) (st : NSAccum),
    nsView (runNonStreamingAux cfg (fun n => stripThoughtTextsUpstream (up n))
      fuel attempts body st) =
    nsView (runNonStreamingAux cfg up fuel attempts body st) := by
  induction fuel with
  | zero => intro attempts body st; rfl
  | succ fuel ih =>
    intro attempts body st
    cases h : up (attempts + 1) with
    | ok parts =>
      simp only [runNonStreamingAux, h, stripThoughtTextsUpstream,
        hasFunctionCallPart_strip, foldl_processPart_strip]
      by_cases hfc : hasFunctionCallPart parts = true
      · simp [hfc, nsView, nsStatus, nsFinalParts, nsFinishReason]
      · simp only [Bool.not_eq_true] at hfc
        simp only [hfc, Bool.false_eq_true, if_false]
        by_cases hcomp : ((parts.foldl processPart st).isThoughtFinished &&
            isResponseComplete (parts.foldl processPart st).formalAcc) = true
        · simp [hcomp]
        · simp only [Bool.not_eq_true] at hcomp
          simp only [hcomp, Bool.false_eq_true, if_false]
          exact ih (attempts + 1) _ _
    | httpError status sbody =>
      simp only [runNonStreamingAux, h, stripThoughtTextsUpstream]
      by_cases hf : status ∈ FATAL_STATUS_CODES
      · simp [hf]
      · simp only [hf, if_false]
        by_cases hcap : attempts + 1 >
            (if status ∈ RETRYABLE_STATUS_CODES then cfg.maxRetries
             else MAX_NON_RETRYABLE_STATUS_RETRIES)
        · simp [hcap]
        · simp only [if_neg hcap]
          exact ih (attempts + 1) body st
    | fetchError msg =>
      simp only [runNonStreamingAux, h, stripThoughtTextsUpstream]
      by_cases hcap : attempts + 1 > MAX_FETCH_RETRIES
      · simp [hcap]
      · simp only [if_neg hcap]
        exact ih (attempts + 1) body st

/-- C10: in the non-streaming retry loop every part whose thought flag is
truthy is skipped entirely — its text is accumulated neither into the
thought text nor into the formal text — so erasing the text of every
thought-flagged upstream part leaves the number of upstream calls, the HTTP
status, the rebuilt final response parts and the engine-set completion
reason of the whole run unchanged. -/
theorem nonStreaming_thought_parts_skipped :
    (∀ (s : NSAccum) (p : Part), p.thought = true → processPart s p = s) ∧
    (∀ (cfg : Config) (up : Nat → UpstreamResult) (body0 : RequestBody) (inject : Bool),
      nsView (runNonStreaming cfg (fun n => stripThoughtTextsUpstream (up n)) body0 inject) =
      nsView (runNonStreaming cfg up body0 inject)) := by
  refine ⟨processPart_thought, ?_⟩
  intro cfg up body0 inject
  exact runNonStreamingAux_strip cfg up (cfg.maxRetries + 1) 0 body0 _

/-- C10 witness: the skip clause applied at a concrete state and a concrete
thought-flagged part. -/
theorem nonStreaming_thought_parts_skipped_witness :
    processPart ⟨"a".data, "b".data, false⟩
      { text := some "secret".data, thought := true } = ⟨"a".data, "b".data, false⟩ :=
  nonStreaming_thought_parts_skipped.1 ⟨"a".data, "b".data, false⟩
    { text := some "secret".data, thought := true } rfl

/-! Substring-occurrence machinery for the marker-freedom claim (C1). -/

lemma prefix_append_sep (pat A B : Str) (c : Char)
    (h : pat <+: A ++ c :: B) : pat <+: A ∨ c ∈ pat := by
  induction A generalizing pat with
  | nil =>
    cases pat with
    | nil => exact Or.inl List.nil_prefix
    | cons p ps =>
      rw [List.nil_append, List.cons_prefix_cons] at h
      exact Or.inr (h.1 ▸ List.mem_cons_self p ps)
  | cons a A' ih =>
    cases pat with
    | nil => exact Or.inl List.nil_prefix
    | cons p ps =>
      rw [List.cons_append, List.cons_prefix_cons] at h
      obtain ⟨rfl, hps⟩ := h
      rcases ih ps hps with h1 | h2
      · exact Or.inl (List.cons_prefix_cons.2 ⟨rfl, h1⟩)
      · exact Or.inr (List.mem_cons_of_mem p h2)

lemma infix_append_sep (pat A B : Str) (c : Char)
    (h : pat <:+: A ++ c :: B) : pat <:+: A ∨ c ∈ pat ∨ pat <:+: B := by
  induction A with
  | nil =>
    rw [List.nil_append] at h
    rcases List.infix_cons_iff.1 h with hp | hi
    · cases pat with
      | nil => exact Or.inl (List.nil_infix)
      | cons p ps =>
        rw [List.cons_prefix_cons] at hp
        exact Or.inr (Or.inl (hp.1 ▸ List.mem_cons_self p ps))
    · exact Or.inr (Or.inr hi)
  | cons a A' ih =>
    rw [List.cons_append] at h
    rcases List.infix_cons_iff.1 h with hp | hi
    · cases pat with
      | nil => exact Or.inl (List.nil_infix)
      | cons p ps =>
        rw [List.cons_prefix_cons] at hp
        obtain ⟨rfl, hps⟩ := hp
        rcases prefix_append_sep ps A' B c hps with h1 | h2
        · exact Or.inl (List.cons_prefix_cons.2 ⟨rfl, h1⟩).isInfix
        · exact Or.inr (Or.inl (List.mem_cons_of_mem p h2))
    · rcases ih hi with h1 | h2 | h3
      · exact Or.inl (List.infix_cons h1)
      · exact Or.inr (Or.inl h2)
      · exact Or.inr (Or.inr h3)

lemma not_infix_append_sep (pat A B : Str) (c : Char) (hc : c ∉ pat)
    (hA : ¬ pat <:+: A) (hB : ¬ pat <:+: B) : ¬ pat <:+: A ++ c :: B := by
  intro h
  rcases infix_append_sep pat A B c h with h1 | h2 | h3
  · exact hA h1
  · exact hc h2
  · exact hB h3

lemma not_infix_of_prefix (pat u w : Str) (hw : w <+: u) (h : ¬ pat <:+: u) :
    ¬ pat <:+: w := fun hcon => h (hcon.trans hw.isInfix)

lemma not_infix_of_suffix (pat u w : Str) (hw : w <:+ u) (h : ¬ pat <:+: u) :
    ¬ pat <:+: w := fun hcon => h (hcon.trans hw.isInfix)

lemma rstripWs_isPrefix (u : Str) : rstripWs u <+: u := by
  unfold rstripWs
  have h := List.dropWhile_suffix (l := u.reverse) isJsWs
  have h2 := List.reverse_prefix.2 h
  rwa [List.reverse_reverse] at h2

lemma rstripWs_decomposition (u : Str) :
    ∃ w, u = rstripWs u ++ w ∧ ∀ c ∈ w, isJsWs c = true := by
  refine ⟨(u.reverse.takeWhile isJsWs).reverse, ?_, ?_⟩
  · have h1 : u.reverse.takeWhile isJsWs ++ u.reverse.dropWhile isJsWs = u.reverse :=
      List.takeWhile_append_dropWhile isJsWs u.reverse
    have h2 := congrArg List.reverse h1
    rw [List.reverse_append, List.reverse_reverse] at h2
    unfold rstripWs
    exact h2.symm
  · intro c hcm
    exact List.mem_takeWhile_imp (List.mem_reverse.1 hcm)

lemma dropOneWsLeft_suffix (y : Str) : dropOneWsLeft y <:+ y := by
  cases y with
  | nil => exact List.suffix_refl []
  | cons c r =>
    show (if isJsWs c = true then r else c :: r) <:+ c :: r
    by_cases h : isJsWs c
    · rw [if_pos h]
      exact List.suffix_cons c r
    · rw [if_neg h]

lemma dropOneWsLeft_decomposition (y : Str) :
    ∃ d, y = d ++ dropOneWsLeft y ∧ ∀ c ∈ d, isJsWs c = true := by
  cases y with
  | nil => exact ⟨[], rfl, by intro c h; cases h⟩
  | cons c r =>
    show ∃ d, c :: r = d ++ (if isJsWs c = true then r else c :: r) ∧
      ∀ x ∈ d, isJsWs x = true
    by_cases h : isJsWs c
    · rw [if_pos h]
      exact ⟨[c], rfl, by intro x hx; rw [List.mem_singleton.1 hx]; exact h⟩
    · rw [if_neg h]
      exact ⟨[], rfl, by intro x hx; cases hx⟩

lemma dropOneWsRight_isPrefix (x : Str) : dropOneWsRight x <+: x := by
  unfold dropOneWsRight
  have h := dropOneWsLeft_suffix x.reverse
  have h2 := List.reverse_prefix.2 h
  rwa [List.reverse_reverse] at h2

lemma dropOneWsRight_decomposition (x : Str) :
    ∃ d, x = dropOneWsRight x ++ d ∧ ∀ c ∈ d, isJsWs c = true := by
  obtain ⟨d, hd, hws⟩ := dropOneWsLeft_decomposition x.reverse
  refine ⟨d.reverse, ?_, ?_⟩
  · unfold dropOneWsRight
    have := congrArg List.reverse hd
    rwa [List.reverse_reverse, List.reverse_append] at this
  · intro c hcm
    exact hws c (List.mem_reverse.1 hcm)

lemma cleanFinishToken_isPrefix (u : Str) : cleanFinishToken u <+: u := by
  unfold cleanFinishToken
  by_cases h : FINISHED_TOKEN.isSuffixOf (rstripWs u)
  · rw [if_pos h]
    exact ((dropOneWsRight_isPrefix _).trans (List.take_prefix _ _)).trans (rstripWs_isPrefix u)
  · rw [if_neg h]

lemma cleanBeginToken_suffix (t : Str) : cleanBeginToken t <:+ t := by
  cases t with
  | nil => exact List.suffix_refl []
  | cons c rest =>
    show (if isJsWs c = true then
        if BEGIN_TOKEN.isPrefixOf rest = true then
          dropOneWsLeft (rest.drop BEGIN_TOKEN.length)
        else c :: rest
      else
        if BEGIN_TOKEN.isPrefixOf (c :: rest) = true then
          dropOneWsLeft ((c :: rest).drop BEGIN_TOKEN.length)
        else c :: rest) <:+ c :: rest
    by_cases h : isJsWs c
    · rw [if_pos h]
      by_cases h2 : BEGIN_TOKEN.isPrefixOf rest
      · rw [if_pos h2]
        exact ((dropOneWsLeft_suffix _).trans (List.drop_suffix _ _)).trans
          (List.suffix_cons c rest)
      · rw [if_neg h2]
    · rw [if_neg h]
      by_cases h2 : BEGIN_TOKEN.isPrefixOf (c :: rest)
      · rw [if_pos h2]
        exact (dropOneWsLeft_suffix _).trans (List.drop_suffix _ _)
      · rw [if_neg h2]

end AntiTrunc

namespace AntiTrunc

/-! Marker-freedom lemmas for `cleanFinalText` (claim C1): if the begin
marker occurs in a text only as its leading prefix and the finish marker
occurs only terminally (followed by nothing but whitespace), then the
cleaned text contains no marker occurrence at all. -/

/-- The begin marker occurs only at position 0. -/
def beginOnlyAtStart (fo : Str) : Prop :=
  ∀ u v, fo = u ++ (BEGIN_TOKEN ++ v) → u = []

/-- Every finish-marker occurrence is terminal: it is followed by nothing
but whitespace. -/
def finOnlyTerminal (fo : Str) : Prop :=
  ∀ u v, fo = u ++ (FINISHED_TOKEN ++ v) → ∀ c ∈ v, isJsWs c = true

lemma not_begin_infix_nil : ¬ BEGIN_TOKEN <:+: ([] : Str) := by
  intro h
  have h2 := List.eq_nil_of_infix_nil h
  simp [BEGIN_TOKEN] at h2

lemma cleanBeginToken_begin_free (fo : Str) (h : beginOnlyAtStart fo) :
    ¬ BEGIN_TOKEN <:+: cleanBeginToken fo := by
  cases fo with
  | nil => exact fun hc => not_begin_infix_nil hc
  | cons c rest =>
    show ¬ BEGIN_TOKEN <:+: (if isJsWs c = true then
        if BEGIN_TOKEN.isPrefixOf rest = true then
          dropOneWsLeft (rest.drop BEGIN_TOKEN.length)
        else c :: rest
      else
        if BEGIN_TOKEN.isPrefixOf (c :: rest) = true then
          dropOneWsLeft ((c :: rest).drop BEGIN_TOKEN.length)
        else c :: rest)
    by_cases hws : isJsWs c = true
    · rw [if_pos hws]
      by_cases hp : BEGIN_TOKEN.isPrefixOf rest = true
      · exfalso
        obtain ⟨s, hs⟩ := List.isPrefixOf_iff_prefix.1 hp
        have h2 := h [c] s (by rw [List.singleton_append, hs])
        cases h2
      · rw [if_neg hp]
        intro hcon
        obtain ⟨u, v, huv⟩ := hcon
        have hu := h u v (by rw [← huv]; simp [List.append_assoc])
        subst hu
        rw [List.nil_append] at huv
        have hc : c = '[' := by
          have h3 : BEGIN_TOKEN ++ v = c :: rest := by simpa using huv
          have h4 : ('[' :: ("RESPONSE_BEGIN]".data ++ v) : Str) = c :: rest := h3
          exact (List.cons.injEq .. ▸ h4).1.symm
        rw [hc] at hws
        exact absurd hws (by decide)
    · rw [if_neg hws]
      by_cases hp : BEGIN_TOKEN.isPrefixOf (c :: rest) = true
      · rw [if_pos hp]
        obtain ⟨s, hs⟩ := List.isPrefixOf_iff_prefix.1 hp
        intro hcon
        have hdrop : (c :: rest).drop BEGIN_TOKEN.length = s := by
          rw [← hs, List.drop_left]
        rw [hdrop] at hcon
        have hcon2 : BEGIN_TOKEN <:+: s := hcon.trans (dropOneWsLeft_suffix s).isInfix
        obtain ⟨u, v, huv⟩ := hcon2
        have h2 := h (BEGIN_TOKEN ++ u) v (by rw [← hs, ← huv]; simp [List.append_assoc])
        have hlen := congrArg List.length h2
        simp [BEGIN_TOKEN] at hlen
      · rw [if_neg hp]
        intro hcon
        obtain ⟨u, v, huv⟩ := hcon
        have hu := h u v (by rw [← huv]; simp [List.append_assoc])
        subst hu
        apply hp
        rw [List.isPrefixOf_iff_prefix]
        exact ⟨v, by simpa using huv⟩

lemma finOnlyTerminal_of_suffix (u s : Str) (hs : s <:+ u) (h : finOnlyTerminal u) :
    finOnlyTerminal s := by
  obtain ⟨pre, hpre⟩ := hs
  intro a v hav
  exact h (pre ++ a) v (by rw [← hpre, hav]; simp [List.append_assoc])

lemma finOnlyTerminal_no_infix_of_not_complete (u : Str) (h : finOnlyTerminal u)
    (hn : ¬ FINISHED_TOKEN.isSuffixOf (rstripWs u) = true) : ¬ FINISHED_TOKEN <:+: u := by
  intro hcon
  obtain ⟨a, v, hav⟩ := hcon
  have hws : ∀ c ∈ v, isJsWs c = true := h a v (by rw [← hav]; simp [List.append_assoc])
  apply hn
  have h2 : rstripWs u = a ++ FINISHED_TOKEN := by
    rw [← hav]
    exact rstripWs_finish a v hws
  rw [h2]
  simp [List.isSuffixOf_iff_suffix]

lemma cleanFinishToken_fin_free (u : Str) (h : finOnlyTerminal u) :
    ¬ FINISHED_TOKEN <:+: cleanFinishToken u := by
  by_cases hs : FINISHED_TOKEN.isSuffixOf (rstripWs u) = true
  · have hred : cleanFinishToken u =
        dropOneWsRight ((rstripWs u).take ((rstripWs u).length - FINISHED_TOKEN.length)) := by
      unfold cleanFinishToken
      rw [if_pos hs]
    rw [hred]
    obtain ⟨tws, htws, htwsws⟩ := rstripWs_decomposition u
    obtain ⟨x, hx⟩ := List.isSuffixOf_iff_suffix.1 hs
    have hk : (rstripWs u).length - FINISHED_TOKEN.length = x.length := by
      rw [← hx]; simp
    have htake : (rstripWs u).take ((rstripWs u).length - FINISHED_TOKEN.length) = x := by
      rw [hk, ← hx, List.take_left]
    rw [htake]
    obtain ⟨d, hd, hdws⟩ := dropOneWsRight_decomposition x
    intro hcon
    obtain ⟨a, v, hav⟩ := hcon
    have hu : u = a ++ (FINISHED_TOKEN ++ (((v ++ d) ++ FINISHED_TOKEN) ++ tws)) := by
      have h1 : u = ((((a ++ FINISHED_TOKEN) ++ v) ++ d) ++ FINISHED_TOKEN) ++ tws := by
        rw [hav, ← hd, hx, ← htws]
      rw [h1]; simp [List.append_assoc]
    have hws := h a _ hu
    have hmem : ('[' : Char) ∈ ((v ++ d) ++ FINISHED_TOKEN) ++ tws :=
      List.mem_append.2 (Or.inl (List.mem_append.2 (Or.inr (by decide))))
    exact absurd (hws '[' hmem) (by decide)
  · have hred : cleanFinishToken u = u := by
      unfold cleanFinishToken
      rw [if_neg hs]
    rw [hred]
    exact finOnlyTerminal_no_infix_of_not_complete u h hs

lemma cleanFinalText_marker_free (fo : Str) (hb : beginOnlyAtStart fo)
    (hf : finOnlyTerminal fo) :
    ¬ BEGIN_TOKEN <:+: cleanFinalText fo ∧ ¬ FINISHED_TOKEN <:+: cleanFinalText fo := by
  have h1 : cleanFinalText fo = cleanFinishToken (cleanBeginToken fo) := rfl
  constructor
  · rw [h1]
    exact not_infix_of_prefix _ _ _ (cleanFinishToken_isPrefix _)
      (cleanBeginToken_begin_free fo hb)
  · rw [h1]
    exact cleanFinishToken_fin_free _
      (finOnlyTerminal_of_suffix fo _ (cleanBeginToken_suffix fo) hf)

end AntiTrunc

namespace AntiTrunc

/-! A small JSON model with parser and printer, standing in for the
`JSON.parse` / `JSON.stringify` calls of the streaming engine.  Numbers are
modelled as integers: every numeric field the engine reads or writes
(`index`, error `code`) is integral, and floating-point formatting is
outside the scope of the claims. -/

inductive Json where
  | null
  | bool (b : Bool)
  | num (n : Int)
  | str (s : Str)
  | arr (elems : List Json)
  | obj (fields : List (Str × Json))

/-- The double-quote, backslash, open-brace and close-brace characters. -/
def quoteChar : Char := Char.ofNat 34
def backslashChar : Char := Char.ofNat 92
def openBraceChar : Char := Char.ofNat 123
def closeBraceChar : Char := Char.ofNat 125

/-- Lower-case hexadecimal digit. -/
def hexDigitChar (n : Nat) : Char :=
  if n < 10 then Char.ofNat (48 + n) else Char.ofNat (87 + n)

/-- JSON string escaping as performed by `JSON.stringify`: quote, backslash
and control characters are escaped (named escapes for the common ones,
`\u00XX` for the rest); all other characters are emitted verbatim. -/
def escapeChar (c : Char) : Str :=
  if c = quoteChar then [backslashChar, quoteChar]
  else if c = backslashChar then [backslashChar, backslashChar]
  else if c = '\n' then [backslashChar, 'n']
  else if c = '\r' then [backslashChar, 'r']
  else if c = '\t' then [backslashChar, 't']
  else if c = Char.ofNat 8 then [backslashChar, 'b']
  else if c = Char.ofNat 12 then [backslashChar, 'f']
  else if c.toNat < 32 then
    [backslashChar, 'u', '0', '0', hexDigitChar (c.toNat / 16), hexDigitChar (c.toNat % 16)]
  else [c]

def escapeString : Str → Str
  | [] => []
  | c :: r => escapeChar c ++ escapeString r

/-- Decimal digits of a natural number (most significant first). -/
def natToCharsAux : Nat → Nat → Str
  | 0, _ => []
  | _ + 1, 0 => []
  | f + 1, n => natToCharsAux f (n / 10) ++ [Char.ofNat (48 + n % 10)]

def natToChars (n : Nat) : Str :=
  if n = 0 then ['0'] else natToCharsAux n n

def intToChars (i : Int) : Str :=
  if i < 0 then '-' :: natToChars i.natAbs else natToChars i.natAbs

mutual

/-- `JSON.stringify` (compact form, no spacing — as produced by the
worker's stringify calls). -/
def serialize : Json → Str
  | .null => "null".data
  | .bool true => "true".data
  | .bool false => "false".data
  | .num n => intToChars n
  | .str s => quoteChar :: escapeString s ++ [quoteChar]
  | .arr es => '[' :: serializeItems es ++ [']']
  | .obj fs => openBraceChar :: serializeFields fs ++ [closeBraceChar]

def serializeItems : List Json → Str
  | [] => []
  | [e] => serialize e
  | e :: rest => serialize e ++ ',' :: serializeItems rest

def serializeFields : List (Str × Json) → Str
  | [] => []
  | [(k, v)] => quoteChar :: escapeString k ++ [quoteChar, ':'] ++ serialize v
  | (k, v) :: rest =>
    quoteChar :: escapeString k ++ [quoteChar, ':'] ++ serialize v ++
      ',' :: serializeFields rest

end

/-- JSON insignificant whitespace. -/
def isJsonWs (c : Char) : Bool :=
  c = ' ' || c = '\t' || c = '\n' || c = '\r'

def skipJsonWs (s : Str) : Str := s.dropWhile isJsonWs

def isDigitChar (c : Char) : Bool := 48 ≤ c.toNat && c.toNat ≤ 57

def parseHexDigit (c : Char) : Option Nat :=
  if 48 ≤ c.toNat && c.toNat ≤ 57 then some (c.toNat - 48)
  else if 97 ≤ c.toNat && c.toNat ≤ 102 then some (c.toNat - 87)
  else if 65 ≤ c.toNat && c.toNat ≤ 70 then some (c.toNat - 55)
  else none

/-- Digits-to-number accumulation. -/
def digitsToNat (ds : Str) : Nat :=
  ds.foldl (fun acc c => acc * 10 + (c.toNat - 48)) 0

/-- Parse a maximal nonempty digit span. -/
def parseNatSpan (s : Str) : Option (Nat × Str) :=
  let ds := s.takeWhile isDigitChar
  if ds.isEmpty then none else some (digitsToNat ds, s.drop ds.length)

/-- Parse the body of a JSON string after the opening quote, handling the
standard escapes and rejecting raw control characters (as `JSON.parse`
does).  Returns the decoded content and the remainder after the closing
quote. -/
def parseStringBody : Nat → Str → Option (Str × Str)
  | 0, _ => none
  | _ + 1, [] => none
  | f + 1, c :: r =>
    if c = quoteChar then some ([], r)
    else if c = backslashChar then
      match r with
      | [] => none
      | e :: r2 =>
        if e = quoteChar then (parseStringBody f r2).map (fun p => (quoteChar :: p.1, p.2))
        else if e = backslashChar then
          (parseStringBody f r2).map (fun p => (backslashChar :: p.1, p.2))
        else if e = '/' then (parseStringBody f r2).map (fun p => ('/' :: p.1, p.2))
        else if e = 'n' then (parseStringBody f r2).map (fun p => ('\n' :: p.1, p.2))
        else if e = 'r' then (parseStringBody f r2).map (fun p => ('\r' :: p.1, p.2))
        else if e = 't' then (parseStringBody f r2).map (fun p => ('\t' :: p.1, p.2))
        else if e = 'b' then
          (parseStringBody f r2).map (fun p => (Char.ofNat 8 :: p.1, p.2))
        else if e = 'f' then
          (parseStringBody f r2).map (fun p => (Char.ofNat 12 :: p.1, p.2))
        else if e = 'u' then
          match r2 with
          | h1 :: h2 :: h3 :: h4 :: r3 =>
            match parseHexDigit h1, parseHexDigit h2, parseHexDigit h3, parseHexDigit h4 with
            | some a, some b, some cc, some d =>
              (parseStringBody f r3).map
                (fun p => (Char.ofNat (((a * 16 + b) * 16 + cc) * 16 + d) :: p.1, p.2))
            | _, _, _, _ => none
          | _ => none
        else none
    else if c.toNat < 32 then none
    else (parseStringBody f r).map (fun p => (c :: p.1, p.2))

mutual

/-- Recursive-descent JSON parser (fuel-bounded), standing in for
`JSON.parse`.  Fractional and exponent number forms are not handled (the
engine's payload numbers are integral). -/
def parseJson : Nat → Str → Option (Json × Str)
  | 0, _ => none
  | f + 1, s =>
    match skipJsonWs s with
    | 'n' :: 'u' :: 'l' :: 'l' :: r => some (.null, r)
    | 't' :: 'r' :: 'u' :: 'e' :: r => some (.bool true, r)
    | 'f' :: 'a' :: 'l' :: 's' :: 'e' :: r => some (.bool false, r)
    | '-' :: r =>
      match parseNatSpan r with
      | some (n, rest) => some (.num (-(n : Int)), rest)
      | none => none
    | '[' :: r => (parseArrayItems f r).map (fun p => (.arr p.1, p.2))
    | c :: r =>
      if c = quoteChar then (parseStringBody f r).map (fun p => (.str p.1, p.2))
      else if c = openBraceChar then (parseObjFields f r).map (fun p => (.obj p.1, p.2))
      else if isDigitChar c then
        match parseNatSpan (c :: r) with
        | some (n, rest) => some (.num (n : Int), rest)
        | none => none
      else none
    | [] => none

/-- Items of an array after the opening bracket. -/
def parseArrayItems : Nat → Str → Option (List Json × Str)
  | 0, _ => none
  | f + 1, s =>
    match skipJsonWs s with
    | ']' :: r => some ([], r)
    | s2 =>
      match parseJson f s2 with
      | some (v, rest) =>
        match skipJsonWs rest with
        | ',' :: r2 =>
          (parseArrayItems f r2).map (fun p => (v :: p.1, p.2))
        | ']' :: r2 => some ([v], r2)
        | _ => none
      | none => none

/-- Fields of an object after the opening brace. -/
def parseObjFields : Nat → Str → Option (List (Str × Json) × Str)
  | 0, _ => none
  | f + 1, s =>
    match skipJsonWs s with
    | c :: r =>
      if c = closeBraceChar then some ([], r)
      else if c = quoteChar then
        match parseStringBody f r with
        | some (k, rest) =>
          match skipJsonWs rest with
          | ':' :: r2 =>
            match parseJson f r2 with
            | some (v, rest2) =>
              match skipJsonWs rest2 with
              | ',' :: r3 => (parseObjFields f r3).map (fun p => ((k, v) :: p.1, p.2))
              | c2 :: r3 =>
                if c2 = closeBraceChar then some ([(k, v)], r3) else none
              | [] => none
            | none => none
          | _ => none
        | none => none
      else none
    | [] => none

end

/-- `JSON.parse`: parse a complete JSON text, allowing trailing
whitespace. -/
def JSONparse (s : Str) : Option Json :=
  match parseJson (s.length + 1) s with
  | some (v, rest) => if (skipJsonWs rest).isEmpty then some v else none
  | none => none

end AntiTrunc

namespace AntiTrunc

/-! Parse/serialize roundtrip: `JSONparse (serialize v) = some v`.  The
streaming engine re-parses lines it has itself rewritten with `serialize`,
so the roundtrip is what guarantees those re-parses succeed and recover the
rewritten payload. -/

mutual

/-- Fuel sufficient for `parseJson` to consume `serialize v`. -/
def jneed : Json → Nat
  | .null => 1
  | .bool _ => 1
  | .num _ => 1
  | .str s => s.length + 2
  | .arr es => 1 + jneedItems es
  | .obj fs => 1 + jneedFields fs

def jneedItems : List Json → Nat
  | [] => 1
  | [e] => 1 + jneed e
  | e :: rest => 1 + jneed e + jneedItems rest

def jneedFields : List (Str × Json) → Nat
  | [] => 1
  | [(k, v)] => k.length + jneed v + 2
  | (k, v) :: rest => k.length + jneed v + jneedFields rest + 2

end

lemma jneed_pos (v : Json) : 1 ≤ jneed v := by
  cases v <;> simp [jneed]

lemma jneedItems_pos (es : List Json) : 1 ≤ jneedItems es := by
  cases es with
  | nil => simp [jneedItems]
  | cons e rest => cases rest <;> simp [jneedItems] <;> omega

lemma jneedFields_pos (fs : List (Str × Json)) : 1 ≤ jneedFields fs := by
  cases fs with
  | nil => simp [jneedFields]
  | cons f rest => obtain ⟨k, v⟩ := f; cases rest <;> simp [jneedFields] <;> omega

lemma char_toNat_ofNat (n : Nat) (h : n < 55296) : (Char.ofNat n).toNat = n := by
  unfold Char.ofNat
  rw [dif_pos (Or.inl h)]
  rfl

lemma skipJsonWs_cons (c : Char) (t : Str) (h : isJsonWs c = false) :
    skipJsonWs (c :: t) = c :: t := by
  simp [skipJsonWs, List.dropWhile_cons, h]

lemma not_jsonWs_of_digit (c : Char) (h : isDigitChar c = true) : isJsonWs c = false := by
  cases hc : isJsonWs c
  · rfl
  · exfalso
    have : ((c = ' ' ∨ c = '\t') ∨ c = '\n') ∨ c = '\r' := by
      simpa [isJsonWs, decide_eq_true_eq] using hc
    rcases this with ((h' | h') | h') | h' <;> subst h' <;> exact absurd h (by decide)

lemma digitsToNat_snoc (a : Str) (c : Char) :
    digitsToNat (a ++ [c]) = digitsToNat a * 10 + (c.toNat - 48) := by
  simp [digitsToNat, List.foldl_append]

lemma natToCharsAux_spec : ∀ f n, n ≤ f →
    (∀ c ∈ natToCharsAux f n, isDigitChar c = true) ∧
    digitsToNat (natToCharsAux f n) = n := by
  intro f
  induction f with
  | zero =>
    intro n hn
    interval_cases n
    refine ⟨fun c hc => ?_, rfl⟩
    simp [natToCharsAux] at hc
  | succ f ih =>
    intro n hn
    cases n with
    | zero =>
      refine ⟨fun c hc => ?_, rfl⟩
      simp [natToCharsAux] at hc
    | succ m =>
      have heq : natToCharsAux (f + 1) (m + 1) =
          natToCharsAux f ((m + 1) / 10) ++ [Char.ofNat (48 + (m + 1) % 10)] := rfl
      have hdiv : (m + 1) / 10 ≤ f := by
        have := Nat.div_lt_self (show 0 < m + 1 by omega) (show 1 < 10 by omega)
        omega
      obtain ⟨hd, hv⟩ := ih _ hdiv
      have hm10 : (m + 1) % 10 < 10 := Nat.mod_lt _ (by omega)
      have htn : (Char.ofNat (48 + (m + 1) % 10)).toNat = 48 + (m + 1) % 10 :=
        char_toNat_ofNat _ (by omega)
      constructor
      · intro c hc
        rw [heq] at hc
        rcases List.mem_append.mp hc with h | h
        · exact hd c h
        · rw [List.mem_singleton] at h
          subst h
          simp [isDigitChar, htn]
          omega
      · rw [heq, digitsToNat_snoc, hv, htn]
        have := Nat.div_add_mod (m + 1) 10
        omega

lemma natToChars_digits (n : Nat) : ∀ c ∈ natToChars n, isDigitChar c = true := by
  unfold natToChars
  split_ifs
  · intro c hc
    rw [List.mem_singleton] at hc
    subst hc
    decide
  · exact (natToCharsAux_spec n n le_rfl).1

lemma digitsToNat_natToChars (n : Nat) : digitsToNat (natToChars n) = n := by
  unfold natToChars
  split_ifs with h
  · subst h; decide
  · exact (natToCharsAux_spec n n le_rfl).2

lemma natToChars_ne_nil (n : Nat) : natToChars n ≠ [] := by
  unfold natToChars
  split_ifs with h
  · simp
  · cases n with
    | zero => exact absurd rfl h
    | succ m =>
      show natToCharsAux m ((m + 1) / 10) ++ [Char.ofNat (48 + (m + 1) % 10)] ≠ []
      simp

lemma takeWhile_append_all (p : Char → Bool) (a b : Str)
    (ha : ∀ x ∈ a, p x = true) (hb : ∀ x, b.head? = some x → p x = false) :
    (a ++ b).takeWhile p = a := by
  induction a with
  | nil =>
    cases b with
    | nil => rfl
    | cons x b' =>
      simp [List.takeWhile_cons, hb x rfl]
  | cons x a' ih =>
    simp [List.takeWhile_cons, ha x (by simp),
      ih (fun y hy => ha y (by simp [hy]))]

lemma parseNatSpan_roundtrip (n : Nat) (rest : Str)
    (h : ∀ c, rest.head? = some c → isDigitChar c = false) :
    parseNatSpan (natToChars n ++ rest) = some (n, rest) := by
  have htw : (natToChars n ++ rest).takeWhile isDigitChar = natToChars n :=
    takeWhile_append_all _ _ _ (natToChars_digits n) h
  have hne : (natToChars n).isEmpty = false := by
    cases h' : natToChars n
    · exact absurd h' (natToChars_ne_nil n)
    · rfl
  unfold parseNatSpan
  simp only [htw, hne, Bool.false_eq_true, if_false, digitsToNat_natToChars,
    List.drop_left]

lemma escapeChar_length_pos (c : Char) : 1 ≤ (escapeChar c).length := by
  unfold escapeChar
  split_ifs <;> simp

lemma length_le_escapeString (s : Str) : s.length ≤ (escapeString s).length := by
  induction s with
  | nil => simp [escapeString]
  | cons c r ih =>
    have := escapeChar_length_pos c
    simp only [escapeString, List.length_append, List.length_cons]
    omega

lemma parseHexDigit_hexDigitChar (k : Nat) (h : k < 16) :
    parseHexDigit (hexDigitChar k) = some k := by
  unfold hexDigitChar
  by_cases hk : k < 10
  · rw [if_pos hk]
    have ht : (Char.ofNat (48 + k)).toNat = 48 + k := char_toNat_ofNat _ (by omega)
    unfold parseHexDigit
    rw [ht, if_pos (by simp; omega)]
    congr 1
    omega
  · rw [if_neg hk]
    have ht : (Char.ofNat (87 + k)).toNat = 87 + k := char_toNat_ofNat _ (by omega)
    unfold parseHexDigit
    rw [ht, if_neg (by simp; omega), if_pos (by simp; omega)]
    congr 1
    omega

lemma parseStringBody_step (c : Char) (f : Nat) (T : Str) :
    parseStringBody (f + 1) (escapeChar c ++ T) =
      (parseStringBody f T).map (fun p => (c :: p.1, p.2)) := by
  unfold escapeChar
  split_ifs with h1 h2 h3 h4 h5 h6 h7 h8
  · subst h1; rfl
  · subst h2; rfl
  · subst h3; rfl
  · subst h4; rfl
  · subst h5; rfl
  · subst h6; rfl
  · subst h7; rfl
  · -- low control character: the `\u00XX` escape
    have hq : c.toNat / 16 < 16 := by omega
    have hm : c.toNat % 16 < 16 := by
      have := Nat.mod_lt c.toNat (show 0 < 16 by omega)
      omega
    show parseStringBody (f + 1)
      (backslashChar :: 'u' :: '0' :: '0' ::
        hexDigitChar (c.toNat / 16) :: hexDigitChar (c.toNat % 16) :: T) = _
    have hred : ∀ (x y : Char),
        parseStringBody (f + 1) (backslashChar :: 'u' :: '0' :: '0' :: x :: y :: T) =
        match parseHexDigit '0', parseHexDigit '0', parseHexDigit x, parseHexDigit y with
        | some a, some b, some cc, some d =>
          (parseStringBody f T).map
            (fun p => (Char.ofNat (((a * 16 + b) * 16 + cc) * 16 + d) :: p.1, p.2))
        | _, _, _, _ => none := fun x y => rfl
    rw [hred, parseHexDigit_hexDigitChar _ hq, parseHexDigit_hexDigitChar _ hm]
    show (parseStringBody f T).map
      (fun p => (Char.ofNat (((0 * 16 + 0) * 16 + c.toNat / 16) * 16 + c.toNat % 16) ::
        p.1, p.2)) = _
    have hv : ((0 * 16 + 0) * 16 + c.toNat / 16) * 16 + c.toNat % 16 = c.toNat := by
      have := Nat.div_add_mod c.toNat 16
      omega
    rw [hv, Char.ofNat_toNat]
  · -- plain character, emitted verbatim
    show parseStringBody (f + 1) (c :: T) = _
    simp only [parseStringBody]
    rw [if_neg h1, if_neg h2, if_neg h8]

lemma parseStringBody_escapeString (s : Str) : ∀ f T, s.length < f →
    parseStringBody f (escapeString s ++ quoteChar :: T) = some (s, T) := by
  induction s with
  | nil =>
    intro f T hf
    cases f with
    | zero => omega
    | succ f => rfl
  | cons c s' ih =>
    intro f T hf
    cases f with
    | zero => omega
    | succ f =>
      have : escapeString (c :: s') ++ quoteChar :: T =
          escapeChar c ++ (escapeString s' ++ quoteChar :: T) := by
        simp [escapeString, List.append_assoc]
      rw [this, parseStringBody_step, ih f T (by simpa using hf)]
      rfl

lemma serialize_head (v : Json) :
    ∃ c t, serialize v = c :: t ∧ isJsonWs c = false ∧ c ≠ ']' := by
  cases v with
  | null => exact ⟨'n', ['u', 'l', 'l'], rfl, by decide, by decide⟩
  | bool b =>
    cases b with
    | false => exact ⟨'f', ['a', 'l', 's', 'e'], rfl, by decide, by decide⟩
    | true => exact ⟨'t', ['r', 'u', 'e'], rfl, by decide, by decide⟩
  | num i =>
    by_cases hi : i < 0
    · refine ⟨'-', natToChars i.natAbs, ?_, by decide, by decide⟩
      show intToChars i = _
      unfold intToChars
      rw [if_pos hi]
    · cases hnc : natToChars i.natAbs with
      | nil => exact absurd hnc (natToChars_ne_nil _)
      | cons c t =>
        have hd : isDigitChar c = true := natToChars_digits _ c (by rw [hnc]; simp)
        refine ⟨c, t, ?_, not_jsonWs_of_digit c hd, ?_⟩
        · show intToChars i = _
          unfold intToChars
          rw [if_neg hi, hnc]
        · intro h
          subst h
          exact absurd hd (by decide)
  | str s => exact ⟨quoteChar, escapeString s ++ [quoteChar], rfl, by decide, by decide⟩
  | arr es => exact ⟨'[', serializeItems es ++ [']'], rfl, by decide, by decide⟩
  | obj fs =>
    exact ⟨openBraceChar, serializeFields fs ++ [closeBraceChar], rfl, by decide, by decide⟩

/-- `jneed` is bounded by the serialized length (stated with an induction
bound so value, item-list and field-list cases can feed one another). -/
theorem jneed_le_len : ∀ N,
    (∀ v, jneed v ≤ N → jneed v ≤ (serialize v).length) ∧
    (∀ es, jneedItems es ≤ N → jneedItems es ≤ (serializeItems es).length + 1) ∧
    (∀ fs, jneedFields fs ≤ N → jneedFields fs ≤ (serializeFields fs).length + 1) := by
  intro N
  induction N with
  | zero =>
    refine ⟨fun v h => absurd h (by have := jneed_pos v; omega),
      fun es h => absurd h (by have := jneedItems_pos es; omega),
      fun fs h => absurd h (by have := jneedFields_pos fs; omega)⟩
  | succ N ih =>
    obtain ⟨ih1, ih2, ih3⟩ := ih
    refine ⟨?_, ?_, ?_⟩
    · intro v hv
      cases v with
      | null => simp [jneed, serialize]
      | bool b => cases b <;> simp [jneed, serialize]
      | num i =>
        have h1 : 1 ≤ (natToChars i.natAbs).length := by
          cases hnc : natToChars i.natAbs
          · exact absurd hnc (natToChars_ne_nil _)
          · simp
        show jneed (.num i) ≤ (intToChars i).length
        unfold intToChars
        split_ifs <;> simp [jneed] <;> omega
      | str s =>
        have := length_le_escapeString s
        simp only [jneed, serialize, List.length_append, List.length_cons,
          List.length_singleton]
        omega
      | arr es =>
        have h2 : jneedItems es ≤ N := by
          simp only [jneed] at hv
          omega
        have := ih2 es h2
        simp only [jneed, serialize, List.length_append, List.length_cons,
          List.length_singleton]
        omega
      | obj fs =>
        have h2 : jneedFields fs ≤ N := by
          simp only [jneed] at hv
          omega
        have := ih3 fs h2
        simp only [jneed, serialize, List.length_append, List.length_cons,
          List.length_singleton]
        omega
    · intro es hes
      cases es with
      | nil => simp [jneedItems, serializeItems]
      | cons e tail =>
        cases tail with
        | nil =>
          have h1 : jneed e ≤ N := by
            simp only [jneedItems] at hes
            omega
          have := ih1 e h1
          simp only [jneedItems, serializeItems]
          omega
        | cons e2 t2 =>
          have hp1 := jneedItems_pos (e2 :: t2)
          have hp2 := jneed_pos e
          have h1 : jneed e ≤ N := by
            simp only [jneedItems] at hes
            omega
          have h2 : jneedItems (e2 :: t2) ≤ N := by
            simp only [jneedItems] at hes
            omega
          have ha := ih1 e h1
          have hb := ih2 _ h2
          simp only [jneedItems, serializeItems, List.length_append, List.length_cons]
          omega
    · intro fs hfs
      cases fs with
      | nil => simp [jneedFields, serializeFields]
      | cons g tail =>
        obtain ⟨k, v⟩ := g
        cases tail with
        | nil =>
          have hkl := length_le_escapeString k
          have h1 : jneed v ≤ N := by
            simp only [jneedFields] at hfs
            omega
          have := ih1 v h1
          simp only [jneedFields, serializeFields, List.length_append, List.length_cons]
          omega
        | cons g2 t2 =>
          have hkl := length_le_escapeString k
          have hp1 := jneedFields_pos (g2 :: t2)
          have hp2 := jneed_pos v
          have h1 : jneed v ≤ N := by
            simp only [jneedFields] at hfs
            omega
          have h2 : jneedFields (g2 :: t2) ≤ N := by
            simp only [jneedFields] at hfs
            omega
          have ha := ih1 v h1
          have hb := ih3 _ h2
          simp only [jneedFields, serializeFields, List.length_append, List.length_cons]
          omega

lemma jneed_le_serialize (v : Json) : jneed v ≤ (serialize v).length :=
  (jneed_le_len (jneed v)).1 v le_rfl

lemma head_not_digit (c0 : Char) (h : isDigitChar c0 = false) (l : Str) :
    ∀ c, (c0 :: l).head? = some c → isDigitChar c = false := by
  intro c hc
  simp only [List.head?, Option.some.injEq] at hc
  rw [← hc]
  exact h

lemma parseJson_digit (f : Nat) (c : Char) (t : Str) (h : isDigitChar c = true) :
    parseJson (f + 1) (c :: t) =
      match parseNatSpan (c :: t) with
      | some (n, rest) => some (Json.num (n : Int), rest)
      | none => none := by
  have h1 : 48 ≤ c.toNat ∧ c.toNat ≤ 57 := by simpa [isDigitChar] using h
  have hc : c = Char.ofNat c.toNat := (Char.ofNat_toNat c).symm
  have hd : c.toNat = 48 ∨ c.toNat = 49 ∨ c.toNat = 50 ∨ c.toNat = 51 ∨
      c.toNat = 52 ∨ c.toNat = 53 ∨ c.toNat = 54 ∨ c.toNat = 55 ∨
      c.toNat = 56 ∨ c.toNat = 57 := by omega
  rcases hd with h' | h' | h' | h' | h' | h' | h' | h' | h' | h' <;>
    rw [show c = Char.ofNat c.toNat from hc, h'] <;> rfl

lemma parseArrayItems_cons_notBracket (f : Nat) (c : Char) (t : Str)
    (hws : isJsonWs c = false) (hne : c ≠ ']') :
    parseArrayItems (f + 1) (c :: t) =
      match parseJson f (c :: t) with
      | some (v, rest) =>
        match skipJsonWs rest with
        | ',' :: r2 => (parseArrayItems f r2).map (fun p => (v :: p.1, p.2))
        | ']' :: r2 => some ([v], r2)
        | _ => none
      | none => none := by
  simp only [parseArrayItems]
  rw [skipJsonWs_cons c t hws]
  split
  · next r heq =>
    exfalso
    injection heq with hx hy
    exact hne hx
  · rfl

lemma parseObjFields_field (f : Nat) (k : Str) (X : Str) (hk : k.length < f) :
    parseObjFields (f + 1) (quoteChar :: (escapeString k ++ quoteChar :: (':' :: X))) =
      match parseJson f X with
      | some (v, rest2) =>
        match skipJsonWs rest2 with
        | ',' :: r3 => (parseObjFields f r3).map (fun p => ((k, v) :: p.1, p.2))
        | c2 :: r3 => if c2 = closeBraceChar then some ([(k, v)], r3) else none
        | [] => none
      | none => none := by
  have hred : ∀ r, parseObjFields (f + 1) (quoteChar :: r) =
      match parseStringBody f r with
      | some (k2, rest) =>
        match skipJsonWs rest with
        | ':' :: r2 =>
          match parseJson f r2 with
          | some (v, rest2) =>
            match skipJsonWs rest2 with
            | ',' :: r3 => (parseObjFields f r3).map (fun p => ((k2, v) :: p.1, p.2))
            | c2 :: r3 => if c2 = closeBraceChar then some ([(k2, v)], r3) else none
            | [] => none
          | none => none
        | _ => none
      | none => none := fun r => rfl
  rw [hred, parseStringBody_escapeString k f (':' :: X) hk]
  rfl

/-- Core roundtrip: with enough fuel, the parser consumes a serialized
value and returns it, leaving the remainder untouched. -/
theorem parse_serialize_fuel : ∀ f,
    (∀ v rest, jneed v ≤ f → (∀ c, rest.head? = some c → isDigitChar c = false) →
      parseJson f (serialize v ++ rest) = some (v, rest)) ∧
    (∀ es rest, jneedItems es ≤ f →
      parseArrayItems f (serializeItems es ++ ']' :: rest) = some (es, rest)) ∧
    (∀ fs rest, jneedFields fs ≤ f →
      parseObjFields f (serializeFields fs ++ closeBraceChar :: rest) = some (fs, rest)) := by
  intro f
  induction f with
  | zero =>
    refine ⟨fun v rest h _ => absurd h (by have := jneed_pos v; omega),
      fun es rest h => absurd h (by have := jneedItems_pos es; omega),
      fun fs rest h => absurd h (by have := jneedFields_pos fs; omega)⟩
  | succ f ih =>
    obtain ⟨ih1, ih2, ih3⟩ := ih
    refine ⟨?_, ?_, ?_⟩
    · intro v rest hf hrest
      cases v with
      | null => rfl
      | bool b => cases b <;> rfl
      | num i =>
        by_cases hi : i < 0
        · have hs : serialize (Json.num i) = '-' :: natToChars i.natAbs := by
            show intToChars i = _
            unfold intToChars
            rw [if_pos hi]
          rw [hs]
          have hred : ∀ r, parseJson (f + 1) ('-' :: r) =
              match parseNatSpan r with
              | some (n, rest2) => some (Json.num (-(n : Int)), rest2)
              | none => none := fun r => rfl
          rw [List.cons_append, hred, parseNatSpan_roundtrip _ _ hrest]
          show some (Json.num (-(i.natAbs : Int)), rest) = some (Json.num i, rest)
          rw [show -((i.natAbs : Nat) : Int) = i from by omega]
        · have hs : serialize (Json.num i) = natToChars i.natAbs := by
            show intToChars i = _
            unfold intToChars
            rw [if_neg hi]
          rw [hs]
          cases hnc : natToChars i.natAbs with
          | nil => exact absurd hnc (natToChars_ne_nil _)
          | cons c t =>
            have hd : isDigitChar c = true := natToChars_digits _ c (by rw [hnc]; simp)
            rw [List.cons_append, parseJson_digit f c (t ++ rest) hd]
            rw [show c :: (t ++ rest) = natToChars i.natAbs ++ rest from by rw [hnc]; rfl]
            rw [parseNatSpan_roundtrip _ _ hrest]
            show some (Json.num ((i.natAbs : Nat) : Int), rest) = some (Json.num i, rest)
            rw [show ((i.natAbs : Nat) : Int) = i from by omega]
      | str s =>
        have hs : serialize (Json.str s) ++ rest =
            quoteChar :: (escapeString s ++ quoteChar :: rest) := by
          show (quoteChar :: escapeString s ++ [quoteChar]) ++ rest = _
          simp [List.append_assoc]
        rw [hs]
        have hred : ∀ r, parseJson (f + 1) (quoteChar :: r) =
            (parseStringBody f r).map (fun p => (Json.str p.1, p.2)) := fun r => rfl
        rw [hred, parseStringBody_escapeString s f rest
          (by simp only [jneed] at hf; omega)]
        rfl
      | arr es =>
        have hs : serialize (Json.arr es) ++ rest =
            '[' :: (serializeItems es ++ ']' :: rest) := by
          show ('[' :: serializeItems es ++ [']']) ++ rest = _
          simp [List.append_assoc]
        rw [hs]
        have hred : ∀ r, parseJson (f + 1) ('[' :: r) =
            (parseArrayItems f r).map (fun p => (Json.arr p.1, p.2)) := fun r => rfl
        rw [hred, ih2 es rest (by simp only [jneed] at hf; omega)]
        rfl
      | obj fs =>
        have hs : serialize (Json.obj fs) ++ rest =
            openBraceChar :: (serializeFields fs ++ closeBraceChar :: rest) := by
          show (openBraceChar :: serializeFields fs ++ [closeBraceChar]) ++ rest = _
          simp [List.append_assoc]
        rw [hs]
        have hred : ∀ r, parseJson (f + 1) (openBraceChar :: r) =
            (parseObjFields f r).map (fun p => (Json.obj p.1, p.2)) := fun r => rfl
        rw [hred, ih3 fs rest (by simp only [jneed] at hf; omega)]
        rfl
    · intro es rest hf
      cases es with
      | nil => rfl
      | cons e tail =>
        obtain ⟨c, t, hct, hws, hne⟩ := serialize_head e
        cases tail with
        | nil =>
          have hje : jneed e ≤ f := by
            simp only [jneedItems] at hf
            omega
          have hs : serializeItems [e] ++ ']' :: rest = c :: (t ++ ']' :: rest) := by
            show serialize e ++ ']' :: rest = _
            rw [hct]
            rfl
          rw [hs, parseArrayItems_cons_notBracket f c _ hws hne]
          rw [show c :: (t ++ ']' :: rest) = serialize e ++ ']' :: rest from by
            rw [hct]; rfl]
          rw [ih1 e (']' :: rest) hje (head_not_digit ']' (by decide) rest)]
          rfl
        | cons e2 t2 =>
          have hp1 := jneedItems_pos (e2 :: t2)
          have hp2 := jneed_pos e
          have hje : jneed e ≤ f := by
            simp only [jneedItems] at hf
            omega
          have htail : jneedItems (e2 :: t2) ≤ f := by
            simp only [jneedItems] at hf
            omega
          have hs : serializeItems (e :: e2 :: t2) ++ ']' :: rest =
              c :: (t ++ (',' :: (serializeItems (e2 :: t2) ++ ']' :: rest))) := by
            show (serialize e ++ ',' :: serializeItems (e2 :: t2)) ++ ']' :: rest = _
            rw [hct]
            simp [List.append_assoc]
          rw [hs, parseArrayItems_cons_notBracket f c _ hws hne]
          rw [show c :: (t ++ (',' :: (serializeItems (e2 :: t2) ++ ']' :: rest))) =
              serialize e ++ ',' :: (serializeItems (e2 :: t2) ++ ']' :: rest) from by
            rw [hct]; rfl]
          rw [ih1 e _ hje (head_not_digit ',' (by decide) _)]
          show (parseArrayItems f (serializeItems (e2 :: t2) ++ ']' :: rest)).map
            (fun p => (e :: p.1, p.2)) = some (e :: e2 :: t2, rest)
          rw [ih2 (e2 :: t2) rest htail]
          rfl
    · intro fs rest hf
      cases fs with
      | nil => rfl
      | cons g tail =>
        obtain ⟨k, v⟩ := g
        cases tail with
        | nil =>
          have hp := jneed_pos v
          have hk : k.length < f := by
            simp only [jneedFields] at hf
            omega
          have hjv : jneed v ≤ f := by
            simp only [jneedFields] at hf
            omega
          have hs : serializeFields [(k, v)] ++ closeBraceChar :: rest =
              quoteChar :: (escapeString k ++ quoteChar ::
                (':' :: (serialize v ++ closeBraceChar :: rest))) := by
            show ((quoteChar :: escapeString k ++ [quoteChar, ':']) ++ serialize v) ++
              closeBraceChar :: rest = _
            simp [List.append_assoc]
          rw [hs, parseObjFields_field f k _ hk]
          rw [ih1 v (closeBraceChar :: rest) hjv
            (head_not_digit closeBraceChar (by decide) rest)]
          rfl
        | cons g2 t2 =>
          have hp1 := jneedFields_pos (g2 :: t2)
          have hp2 := jneed_pos v
          have hk : k.length < f := by
            simp only [jneedFields] at hf
            omega
          have hjv : jneed v ≤ f := by
            simp only [jneedFields] at hf
            omega
          have htail : jneedFields (g2 :: t2) ≤ f := by
            simp only [jneedFields] at hf
            omega
          have hs : serializeFields ((k, v) :: g2 :: t2) ++ closeBraceChar :: rest =
              quoteChar :: (escapeString k ++ quoteChar ::
                (':' :: (serialize v ++
                  ',' :: (serializeFields (g2 :: t2) ++ closeBraceChar :: rest)))) := by
            show ((quoteChar :: escapeString k ++ [quoteChar, ':']) ++ serialize v ++
              ',' :: serializeFields (g2 :: t2)) ++ closeBraceChar :: rest = _
            simp [List.append_assoc]
          rw [hs, parseObjFields_field f k _ hk]
          rw [ih1 v _ hjv (head_not_digit ',' (by decide) _)]
          show (parseObjFields f (serializeFields (g2 :: t2) ++ closeBraceChar :: rest)).map
            (fun p => ((k, v) :: p.1, p.2)) = some ((k, v) :: g2 :: t2, rest)
          rw [ih3 (g2 :: t2) rest htail]
          rfl

/-- Roundtrip at the `JSON.parse` level. -/
theorem JSONparse_serialize (v : Json) : JSONparse (serialize v) = some v := by
  have h := (parse_serialize_fuel ((serialize v).length + 1)).1 v []
    (le_trans (jneed_le_serialize v) (Nat.le_succ _))
    (fun c hc => by cases hc)
  rw [List.append_nil] at h
  unfold JSONparse
  rw [h]
  rfl

end AntiTrunc

namespace AntiTrunc

/-! SSE event framing: the streaming engine splits the decoded byte stream
on the regex `/\r?\n\r?\n/` (`processableString.split(...)`), keeping the
final piece in `lineBuffer`.  `matchSep` gives the length of the greedy
regex match at the head of a string (if any); `splitSep` is the full
leftmost split, returning the complete pieces and the trailing piece. -/

def matchSep : Str → Option Nat
  | '\n' :: '\n' :: _ => some 2
  | '\n' :: '\r' :: '\n' :: _ => some 3
  | '\r' :: '\n' :: '\n' :: _ => some 3
  | '\r' :: '\n' :: '\r' :: '\n' :: _ => some 4
  | _ => none

lemma matchSep_pos (s : Str) (n : Nat) (h : matchSep s = some n) : 2 ≤ n := by
  unfold matchSep at h
  split at h <;> first
    | (cases h; omega)
    | cases h

lemma matchSep_le_length (s : Str) (n : Nat) (h : matchSep s = some n) :
    n ≤ s.length := by
  unfold matchSep at h
  split at h <;> (try cases h) <;> simp_all <;> omega

/-- Prepend a character onto the current (first) piece of a split result. -/
def splitCons (c : Char) : List Str × Str → List Str × Str
  | ([], tr) => ([], c :: tr)
  | (p :: ps, tr) => ((c :: p) :: ps, tr)

def splitSep : Str → List Str × Str
  | [] => ([], [])
  | '\n' :: '\n' :: rest =>
    ([] :: (splitSep rest).1, (splitSep rest).2)
  | '\n' :: '\r' :: '\n' :: rest =>
    ([] :: (splitSep rest).1, (splitSep rest).2)
  | '\r' :: '\n' :: '\n' :: rest =>
    ([] :: (splitSep rest).1, (splitSep rest).2)
  | '\r' :: '\n' :: '\r' :: '\n' :: rest =>
    ([] :: (splitSep rest).1, (splitSep rest).2)
  | c :: rest => splitCons c (splitSep rest)

end AntiTrunc

namespace AntiTrunc

/-! Field access and truthiness on the JSON model, mirroring the JS
property reads of the streaming engine. -/

/-- Property lookup on an object (first binding; the parser never produces
duplicate keys for the payloads in scope). -/
def jGet (j : Json) (k : Str) : Option Json :=
  match j with
  | .obj fs => (fs.find? (fun f => f.1 == k)).map (fun f => f.2)
  | _ => none

/-- JS truthiness of a property read (`undefined` — an absent property —
is falsy). -/
def jTruthy : Option Json → Bool
  | none => false
  | some .null => false
  | some (.bool b) => b
  | some (.num n) => !(n == 0)
  | some (.str s) => !s.isEmpty
  | some (.arr _) => true
  | some (.obj _) => true

/-- The `text` property of a part payload, when it is a string. -/
def jTextField (p : Json) : Option Str :=
  match jGet p "text".data with
  | some (.str s) => some s
  | _ => none

/-- Replace the first binding of `k` (or append one), mirroring a JS
property assignment on an object whose JSON-parsed keys are unique. -/
def objSetFields (k : Str) (v : Json) : List (Str × Json) → List (Str × Json)
  | [] => [(k, v)]
  | (k', v') :: rest =>
    if k' = k then (k, v) :: rest else (k', v') :: objSetFields k v rest

def objSet (j : Json) (k : Str) (v : Json) : Json :=
  match j with
  | .obj fs => .obj (objSetFields k v fs)
  | _ => j

/-- `data?.candidates?.[0]?.content?.parts` when it is an array. -/
def getPartsOfData (data : Json) : Option (List Json) :=
  match jGet data "candidates".data with
  | some (.arr (c0 :: _)) =>
    match jGet c0 "content".data with
    | some content =>
      match jGet content "parts".data with
      | some (.arr ps) => some ps
      | _ => none
    | none => none
  | _ => none

/-- The assignment `data.candidates[0].content.parts = parts` (`none`
models the `TypeError` thrown when the navigation path is missing). -/
def setCandidate0Parts (data : Json) (parts : List Json) : Option Json :=
  match jGet data "candidates".data with
  | some (.arr (c0 :: cs)) =>
    match jGet c0 "content".data with
    | some (.obj cfs) =>
      let content2 := Json.obj (objSetFields "parts".data (.arr parts) cfs)
      some (objSet data "candidates".data (.arr (objSet c0 "content".data content2 :: cs)))
    | _ => none
  | _ => none

/-- The pair of assignments `finalPayload.candidates[0].content.parts = X;
finalPayload.candidates[0].finishReason = "STOP"`. -/
def setFinalPayload (data : Json) (parts : List Json) : Option Json :=
  match jGet data "candidates".data with
  | some (.arr (c0 :: cs)) =>
    match jGet c0 "content".data with
    | some (.obj cfs) =>
      let content2 := Json.obj (objSetFields "parts".data (.arr parts) cfs)
      let c0b := objSet (objSet c0 "content".data content2) "finishReason".data
        (.str "STOP".data)
      some (objSet data "candidates".data (.arr (c0b :: cs)))
    | _ => none
  | _ => none

/-- core.js `parseParts` applied to JSON part payloads: thought parts
(strict `thought === true` with truthy text), formal response text
(truthy text without truthy thought flag), function calls. -/
structure ParsedParts where
  thoughtCount : Nat
  responseText : Str
  hasThought : Bool
  hasFunctionCall : Bool

def parsePartsStep (acc : ParsedParts) (p : Json) : ParsedParts :=
  let thoughtIsTrue :=
    match jGet p "thought".data with
    | some (.bool true) => true
    | _ => false
  if thoughtIsTrue && textTruthy (jTextField p) then
    { acc with thoughtCount := acc.thoughtCount + 1, hasThought := true }
  else if textTruthy (jTextField p) && !jTruthy (jGet p "thought".data) then
    { acc with responseText := acc.responseText ++ (jTextField p).getD [] }
  else if jTruthy (jGet p "functionCall".data) then
    { acc with hasFunctionCall := true }
  else acc

def parsePartsJson (parts : List Json) : ParsedParts :=
  parts.foldl parsePartsStep ⟨0, [], false, false⟩

end AntiTrunc

namespace AntiTrunc

/-! The streaming reassembly engine (handlers.js `handleStreamingRequest`),
modelled as a function of the per-attempt upstream results, each HTTP-ok
attempt being a list of decoded chunks.  The periodic keepalive timer is
not part of the model: it only ever writes events whose text is the empty
string.  Exceptions escaping the read loop (the `JSON.parse` at the
transition-line release and the final-payload shape assignments, and the
out-of-scope `linesBuffer` reference on the exhaustion path) are modelled
by a `crashed` flag: `process().catch` then emits an `event: error` frame
and closes the stream. -/

/-- constants-derived lookahead margin: `FINISHED_TOKEN.length + 4`. -/
def LOOKAHEAD_SIZE : Nat := FINISHED_TOKEN.length + 4

/-- A buffered SSE line: `{ rawLine, isTransitionLine, text }`. -/
structure LineObj where
  rawLine : Str
  isTransitionLine : Bool
  text : Str

/-- Mutable state of one streaming attempt (plus the attempt-crossing
`isThoughtFinished` flag). -/
structure SState where
  isThoughtFinished : Bool
  passthroughMode : Bool
  hasFunctionCallInStream : Bool
  lineBuffer : Str
  textBuffer : Str
  linesBuffer : List LineObj
  accumulatedText : Str
  crashed : Bool

/-- Processing of one framed SSE line (handlers.js lines 362-453). -/
def processLine (st : SState) (line : Str) : SState × List Str :=
  if !(("data:".data).isPrefixOf line) then
    (st, if line.isEmpty then [] else [line ++ "\n\n".data])
  else
    let jsonStr := jsTrim (line.drop 5)
    if jsonStr.isEmpty then (st, [])
    else
      match JSONparse jsonStr with
      | none => (st, [line ++ "\n\n".data])
      | some data =>
        let parts := (getPartsOfData data).getD []
        let parsed := parsePartsJson parts
        let st1 := { st with hasFunctionCallInStream :=
          st.hasFunctionCallInStream || parsed.hasFunctionCall }
        if parsed.hasThought && parsed.responseText.isEmpty && !parsed.hasFunctionCall then
          (st1, [])
        else if st1.hasFunctionCallInStream && !st1.passthroughMode then
          if st1.linesBuffer.isEmpty then
            ({ st1 with passthroughMode := true }, [line ++ "\n\n".data])
          else
            ({ st1 with linesBuffer := [], textBuffer := [], passthroughMode := true },
             (st1.linesBuffer.map (fun lo => lo.rawLine ++ "\n\n".data)) ++
               [line ++ "\n\n".data])
        else
          let responseText := parsed.responseText
          let transition := !st1.isThoughtFinished && isFormalResponseStarted responseText
          let isTF := st1.isThoughtFinished || transition
          let accum :=
            if transition then st1.accumulatedText ++ BEGIN_TOKEN ++ ['\n']
            else st1.accumulatedText
          let lineToStore :=
            match getPartsOfData data with
            | some parts2 =>
              let processedParts := parts2.filter (fun p => !jTruthy (jGet p "thought".data))
              let wasModified1 := decide (processedParts.length < parts2.length)
              let processedParts2 :=
                if !isTF then
                  processedParts.map (fun p =>
                    if textTruthy (jTextField p) then
                      objSet p "thought".data (.bool true)
                    else p)
                else processedParts
              let wasModified2 :=
                if !isTF then processedParts.any (fun p => textTruthy (jTextField p))
                else false
              if wasModified1 || wasModified2 then
                match setCandidate0Parts data processedParts2 with
                | some data2 => "data: ".data ++ serialize data2
                | none => line
              else line
            | none => line
          ({ st1 with
              isThoughtFinished := isTF
              linesBuffer := st1.linesBuffer ++ [⟨lineToStore, transition, responseText⟩]
              textBuffer := st1.textBuffer ++ responseText
              accumulatedText := accum }, [])

/-- Result of the lookahead-release loop. -/
structure ReleaseResult where
  remaining : List LineObj
  forwarded : Nat
  outputs : List Str
  accumulated : Str
  crashed : Bool

/-- The safe-forwarding loop (handlers.js lines 461-482): release queued
lines from the front while each one's contributed text stays within the
safe prefix; a released transition line is re-parsed and rewritten with its
begin-marker stripped (a parse or shape failure there throws). -/
def releaseAux (safe : Nat) : List LineObj → Nat → Str → ReleaseResult
  | [], fwd, acc => ⟨[], fwd, [], acc, false⟩
  | lo :: rest, fwd, acc =>
    if fwd + lo.text.length ≤ safe then
      if lo.isTransitionLine then
        match JSONparse (jsTrim (lo.rawLine.drop 5)) with
        | none => ⟨lo :: rest, fwd, [], acc, true⟩
        | some data =>
          let cleanedBeginText := cleanFinalText lo.text true false
          match setCandidate0Parts data
              [Json.obj [("text".data, .str cleanedBeginText)]] with
          | none => ⟨lo :: rest, fwd, [], acc, true⟩
          | some data2 =>
            let out := "data: ".data ++ serialize data2 ++ "\n\n".data
            let r := releaseAux safe rest (fwd + lo.text.length) (acc ++ cleanedBeginText)
            ⟨r.remaining, r.forwarded, out :: r.outputs, r.accumulated, r.crashed⟩
      else
        let r := releaseAux safe rest (fwd + lo.text.length) (acc ++ lo.text)
        ⟨r.remaining, r.forwarded, (lo.rawLine ++ "\n\n".data) :: r.outputs,
          r.accumulated, r.crashed⟩
    else ⟨lo :: rest, fwd, [], acc, false⟩

/-- The lookahead check and release (handlers.js lines 457-484). -/
def releaseStep (st : SState) : SState × List Str :=
  if st.textBuffer.length > LOOKAHEAD_SIZE then
    let safe := st.textBuffer.length - LOOKAHEAD_SIZE
    let r := releaseAux safe st.linesBuffer 0 st.accumulatedText
    ({ st with
        linesBuffer := r.remaining
        textBuffer := st.textBuffer.drop r.forwarded
        accumulatedText := r.accumulated
        crashed := st.crashed || r.crashed }, r.outputs)
  else (st, [])

/-- Processing of one decoded chunk (handlers.js lines 350-485): in
passthrough mode the chunk is forwarded verbatim; otherwise it is framed
into complete events (the trailing piece is held in `lineBuffer`), each
event is processed, and then the lookahead release runs. -/
def chunkStep (st : SState) (chunk : Str) : SState × List Str :=
  if st.crashed then (st, [])
  else if st.passthroughMode then (st, [chunk])
  else
    let processable := st.lineBuffer ++ chunk
    let split := splitSep processable
    let st1 := { st with lineBuffer := split.2 }
    let folded := split.1.foldl
      (fun (acc : SState × List Str) l =>
        let r := processLine acc.1 l
        (r.1, acc.2 ++ r.2)) (st1, [])
    let rel := releaseStep folded.1
    (rel.1, folded.2 ++ rel.2)

/-- Texts extracted at stream end from the remaining buffered lines
(handlers.js lines 497-515): re-parse each stored line, accumulate
truthy-thought texts and non-thought texts. -/
def doneBufferTexts (lines : List LineObj) : Str × Str :=
  lines.foldl (fun (acc : Str × Str) lo =>
    if ("data:".data).isPrefixOf lo.rawLine then
      match JSONparse (jsTrim (lo.rawLine.drop 5)) with
      | some data =>
        let parts := (getPartsOfData data).getD []
        parts.foldl (fun (acc2 : Str × Str) p =>
          if jTruthy (jGet p "thought".data) && textTruthy (jTextField p) then
            (acc2.1 ++ (jTextField p).getD [], acc2.2)
          else if !jTruthy (jGet p "thought".data) && textTruthy (jTextField p) then
            (acc2.1, acc2.2 ++ (jTextField p).getD [])
          else acc2) acc
      | none => acc
    else acc) ([], [])

/-- The template payload: the last stored line that is a parseable data
line (handlers.js lines 518-527), else the default payload. -/
def defaultFinalPayload : Json :=
  .obj [("candidates".data, .arr [.obj
    [("content".data, .obj [("parts".data, .arr []), ("role".data, .str "model".data)]),
     ("finishReason".data, .str "STOP".data),
     ("index".data, .num 0)]])]

def findTemplatePayload : List LineObj → Option Json
  | [] => none
  | lo :: rest =>
    match findTemplatePayload rest with
    | some p => some p
    | none =>
      if ("data:".data).isPrefixOf lo.rawLine then
        JSONparse (jsTrim (lo.rawLine.drop 5))
      else none

/-- How one streaming attempt ended. -/
inductive DoneKind where
  | closedComplete
  | closedPassthrough
  | retry
  | crashed
deriving DecidableEq

/-- Stream-end handling (handlers.js lines 487-557). -/
def doneStep (st : SState) : DoneKind × List Str :=
  if st.passthroughMode then (.closedPassthrough, [])
  else if st.isThoughtFinished && isResponseComplete st.textBuffer then
    let bufs := doneBufferTexts st.linesBuffer
    let finalPayload := (findTemplatePayload st.linesBuffer).getD defaultFinalPayload
    let finalText := cleanFinalText bufs.2
    let finalParts : List Json :=
      (if bufs.1.isEmpty then []
       else [.obj [("text".data, .str bufs.1), ("thought".data, .bool true)]]) ++
      (if finalText.isEmpty then [] else [.obj [("text".data, .str finalText)]])
    match setFinalPayload finalPayload finalParts with
    | none => (.crashed, [])
    | some payload2 =>
      (.closedComplete, ["data: ".data ++ serialize payload2 ++ "\n\n".data])
  else (.retry, [])

/-- One streaming attempt over its chunk list. -/
structure AttemptResult where
  st : SState
  outputs : List Str
  kind : DoneKind

def runAttempt (st0 : SState) (chunks : List Str) : AttemptResult :=
  let folded := chunks.foldl
    (fun (acc : SState × List Str) c =>
      let r := chunkStep acc.1 c
      (r.1, acc.2 ++ r.2)) (st0, [])
  if folded.1.crashed then ⟨folded.1, folded.2, .crashed⟩
  else
    let d := doneStep folded.1
    ⟨folded.1, folded.2 ++ d.2, d.1⟩

/-- Per-attempt upstream behaviour for the streaming path. -/
inductive StreamUpstream where
  | ok (chunks : List Str)
  | httpError (status : Nat) (body : Str)
  | fetchError (msg : Str)

/-- How the outbound stream ended. -/
inductive StreamEndKind where
  | completed
  | passthrough
  | fatalError
  | httpErrorAfterRetries
  | transportErrorAfterRetries
  | processingCrash
  | exhaustedCrash
deriving DecidableEq

structure StreamResult where
  outputs : List Str
  calls : Nat
  kind : StreamEndKind

/-- The `event: error` frame written by the streaming error paths. -/
def errorEvent (code : Int) (message : Str) (details : Str) : Str :=
  "event: error\ndata: ".data ++
    serialize (.obj [("error".data, .obj
      [("code".data, .num code), ("message".data, .str message),
       ("details".data, .str details)])]) ++ "\n\n".data

/-- The thought seed event written at the start of the first attempt
(handlers.js line 329). -/
def seedEvent (txt : Str) : Str :=
  "data: ".data ++
    serialize (.obj [("candidates".data, .arr [.obj
      [("content".data, .obj
        [("parts".data, .arr [.obj [("text".data, .str txt),
           ("thought".data, .bool true)]]),
         ("role".data, .str "model".data)]),
       ("index".data, .num 0)]])]) ++ "\n\n".data

/-- Error details for the exhaustion-path crash: the terminal flush code
references `linesBuffer`, which is block-scoped inside the retry loop, so
reaching it throws a `ReferenceError` that the `process().catch` handler
surfaces as an internal error event (the detail text is engine-dependent). -/
def exhaustionCrashDetails : Str := "linesBuffer is not defined".data

/-- The streaming retry loop (fuel = remaining loop iterations). -/
def runStreamingAux (cfg : Config) (up : Nat → StreamUpstream) :
    Nat → Nat → Bool → Bool → RequestBody → List Str → StreamResult
  | 0, attempts, _, _, _, outs =>
    ⟨outs ++ [errorEvent 500 "Internal worker error.".data exhaustionCrashDetails],
      attempts, .exhaustedCrash⟩
  | fuel + 1, attempts, injectBegin, isTF, body, outs =>
    let attempt := attempts + 1
    let accumSeed := if injectBegin && attempt = 1 then cfg.startOfThought else []
    let seedOuts : List Str := if accumSeed.isEmpty then [] else [seedEvent accumSeed]
    match up attempt with
    | .ok chunks =>
      let st0 : SState := ⟨isTF, false, false, [], [], [], accumSeed, false⟩
      let r := runAttempt st0 chunks
      match r.kind with
      | .closedComplete => ⟨outs ++ seedOuts ++ r.outputs, attempt, .completed⟩
      | .closedPassthrough => ⟨outs ++ seedOuts ++ r.outputs, attempt, .passthrough⟩
      | .crashed =>
        ⟨outs ++ seedOuts ++ r.outputs ++
          [errorEvent 500 "Internal worker error.".data []], attempt, .processingCrash⟩
      | .retry =>
        runStreamingAux cfg up fuel attempt injectBegin r.st.isThoughtFinished
          (buildRetryRequest body r.st.accumulatedText) (outs ++ seedOuts ++ r.outputs)
    | .httpError status sbody =>
      if status ∈ FATAL_STATUS_CODES then
        ⟨outs ++ seedOuts ++
          [errorEvent status "Upstream API returned a fatal error.".data sbody],
          attempt, .fatalError⟩
      else if attempt > cfg.maxRetries then
        ⟨outs ++ seedOuts ++
          [errorEvent status "Upstream API error after max retries.".data sbody],
          attempt, .httpErrorAfterRetries⟩
      else runStreamingAux cfg up fuel attempt injectBegin isTF body (outs ++ seedOuts)
    | .fetchError msg =>
      if attempt > cfg.maxRetries then
        ⟨outs ++ seedOuts ++
          [errorEvent 500 "Internal Server Error after max retries.".data msg],
          attempt, .transportErrorAfterRetries⟩
      else runStreamingAux cfg up fuel attempt injectBegin isTF body (outs ++ seedOuts)

/-- handlers.js `handleStreamingRequest` for a target-model,
non-structured-output request. -/
def runStreaming (cfg : Config) (up : Nat → StreamUpstream)
    (body0 : RequestBody) (injectBeginTokenPrompt : Bool) : StreamResult :=
  runStreamingAux cfg up (cfg.maxRetries + 1) 0 injectBeginTokenPrompt
    (!injectBeginTokenPrompt) body0 []

end AntiTrunc

namespace AntiTrunc

/-! Claim C5: upstream HTTP failure handling in the two paths. -/

lemma runNSAux_const_http_fatal (cfg : Config) (s : Nat) (b : Str)
    (hf : s ∈ FATAL_STATUS_CODES) (fuel attempts : Nat) (body : RequestBody)
    (st : NSAccum) :
    runNonStreamingAux cfg (fun _ => .httpError s b) (fuel + 1) attempts body st =
      ⟨.fatal s b, attempts + 1⟩ := by
  simp only [runNonStreamingAux]
  rw [if_pos hf]

lemma runNSAux_const_http_retryable (cfg : Config) (s : Nat) (b : Str)
    (hf : s ∉ FATAL_STATUS_CODES) (hr : s ∈ RETRYABLE_STATUS_CODES) :
    ∀ fuel attempts, 1 ≤ fuel → attempts + fuel = cfg.maxRetries + 1 →
    ∀ (body : RequestBody) (st : NSAccum),
    runNonStreamingAux cfg (fun _ => .httpError s b) fuel attempts body st =
      ⟨.httpErrorAfterRetries s b, cfg.maxRetries + 1⟩ := by
  intro fuel
  induction fuel with
  | zero => intro attempts h1 h2 body st; omega
  | succ f ih =>
    intro attempts h1 h2 body st
    simp only [runNonStreamingAux]
    rw [if_neg hf, if_pos hr]
    by_cases hgt : attempts + 1 > cfg.maxRetries
    · rw [if_pos hgt]
      have : attempts + 1 = cfg.maxRetries + 1 := by omega
      rw [this]
    · rw [if_neg hgt]
      exact ih (attempts + 1) (by omega) (by omega) body st

lemma runNSAux_const_http_other_capped (cfg : Config) (s : Nat) (b : Str)
    (hf : s ∉ FATAL_STATUS_CODES) (hr : s ∉ RETRYABLE_STATUS_CODES)
    (hmr : 3 ≤ cfg.maxRetries) :
    ∀ fuel attempts, attempts + fuel = cfg.maxRetries + 1 → attempts ≤ 3 →
    ∀ (body : RequestBody) (st : NSAccum),
    runNonStreamingAux cfg (fun _ => .httpError s b) fuel attempts body st =
      ⟨.httpErrorAfterRetries s b, 4⟩ := by
  intro fuel
  induction fuel with
  | zero => intro attempts h2 h3 body st; omega
  | succ f ih =>
    intro attempts h2 h3 body st
    simp only [runNonStreamingAux]
    rw [if_neg hf, if_neg hr]
    show (if attempts + 1 > MAX_NON_RETRYABLE_STATUS_RETRIES then _ else _) = _
    by_cases hgt : attempts + 1 > MAX_NON_RETRYABLE_STATUS_RETRIES
    · rw [if_pos hgt]
      have : attempts + 1 = 4 := by
        unfold MAX_NON_RETRYABLE_STATUS_RETRIES at hgt
        omega
      rw [this]
    · rw [if_neg hgt]
      apply ih (attempts + 1) (by omega) ?_ body st
      unfold MAX_NON_RETRYABLE_STATUS_RETRIES at hgt
      omega

lemma runNSAux_const_http_other_exhaust (cfg : Config) (s : Nat) (b : Str)
    (hf : s ∉ FATAL_STATUS_CODES) (hr : s ∉ RETRYABLE_STATUS_CODES)
    (hmr : cfg.maxRetries < 3) :
    ∀ fuel attempts, attempts + fuel = cfg.maxRetries + 1 →
    ∀ (body : RequestBody) (st : NSAccum),
    runNonStreamingAux cfg (fun _ => .httpError s b) fuel attempts body st =
      ⟨.exhausted st.thoughtAcc st.formalAcc, cfg.maxRetries + 1⟩ := by
  intro fuel
  induction fuel with
  | zero =>
    intro attempts h2 body st
    simp only [runNonStreamingAux]
    rw [show attempts = cfg.maxRetries + 1 from by omega]
  | succ f ih =>
    intro attempts h2 body st
    simp only [runNonStreamingAux]
    rw [if_neg hf, if_neg hr]
    show (if attempts + 1 > MAX_NON_RETRYABLE_STATUS_RETRIES then _ else _) = _
    rw [if_neg (by unfold MAX_NON_RETRYABLE_STATUS_RETRIES; omega)]
    exact ih (attempts + 1) (by omega) body st

lemma runNSAux_const_fetch_capped (cfg : Config) (m : Str)
    (hmr : 3 ≤ cfg.maxRetries) :
    ∀ fuel attempts, attempts + fuel = cfg.maxRetries + 1 → attempts ≤ 3 →
    ∀ (body : RequestBody) (st : NSAccum),
    runNonStreamingAux cfg (fun _ => .fetchError m) fuel attempts body st =
      ⟨.fetchErrorAfterRetries m, 4⟩ := by
  intro fuel
  induction fuel with
  | zero => intro attempts h2 h3 body st; omega
  | succ f ih =>
    intro attempts h2 h3 body st
    simp only [runNonStreamingAux]
    show (if attempts + 1 > MAX_FETCH_RETRIES then _ else _) = _
    by_cases hgt : attempts + 1 > MAX_FETCH_RETRIES
    · rw [if_pos hgt]
      have : attempts + 1 = 4 := by
        unfold MAX_FETCH_RETRIES at hgt
        omega
      rw [this]
    · rw [if_neg hgt]
      apply ih (attempts + 1) (by omega) ?_ body st
      unfold MAX_FETCH_RETRIES at hgt
      omega

lemma runStreamAux_const_http_fatal (cfg : Config) (s : Nat) (b : Str)
    (hf : s ∈ FATAL_STATUS_CODES) (fuel attempts : Nat) (injectBegin isTF : Bool)
    (body : RequestBody) (outs : List Str) :
    runStreamingAux cfg (fun _ => .httpError s b) (fuel + 1) attempts injectBegin
        isTF body outs =
      ⟨outs ++ (if (if injectBegin && attempts + 1 = 1 then cfg.startOfThought
          else []).isEmpty then [] else
          [seedEvent (if injectBegin && attempts + 1 = 1 then cfg.startOfThought else [])]) ++
        [errorEvent s "Upstream API returned a fatal error.".data b],
        attempts + 1, .fatalError⟩ := by
  simp only [runStreamingAux]
  rw [if_pos hf]

lemma runStreamAux_const_http_nonfatal (cfg : Config) (s : Nat) (b : Str)
    (hf : s ∉ FATAL_STATUS_CODES) :
    ∀ fuel attempts, 1 ≤ fuel → attempts + fuel = cfg.maxRetries + 1 →
    ∀ (injectBegin isTF : Bool) (body : RequestBody) (outs : List Str),
    (runStreamingAux cfg (fun _ => .httpError s b) fuel attempts injectBegin
        isTF body outs).calls = cfg.maxRetries + 1 ∧
    (runStreamingAux cfg (fun _ => .httpError s b) fuel attempts injectBegin
        isTF body outs).kind = .httpErrorAfterRetries := by
  intro fuel
  induction fuel with
  | zero => intro attempts h1 h2; omega
  | succ f ih =>
    intro attempts h1 h2 injectBegin isTF body outs
    simp only [runStreamingAux]
    rw [if_neg hf]
    by_cases hgt : attempts + 1 > cfg.maxRetries
    · rw [if_pos hgt]
      have : attempts + 1 = cfg.maxRetries + 1 := by omega
      rw [this]
      exact ⟨rfl, rfl⟩
    · rw [if_neg hgt]
      exact ih (attempts + 1) (by omega) (by omega) injectBegin isTF body _

lemma runStreamAux_const_fetch (cfg : Config) (m : Str) :
    ∀ fuel attempts, 1 ≤ fuel → attempts + fuel = cfg.maxRetries + 1 →
    ∀ (injectBegin isTF : Bool) (body : RequestBody) (outs : List Str),
    (runStreamingAux cfg (fun _ => .fetchError m) fuel attempts injectBegin
        isTF body outs).calls = cfg.maxRetries + 1 ∧
    (runStreamingAux cfg (fun _ => .fetchError m) fuel attempts injectBegin
        isTF body outs).kind = .transportErrorAfterRetries := by
  intro fuel
  induction fuel with
  | zero => intro attempts h1 h2; omega
  | succ f ih =>
    intro attempts h1 h2 injectBegin isTF body outs
    simp only [runStreamingAux]
    by_cases hgt : attempts + 1 > cfg.maxRetries
    · rw [if_pos hgt]
      have : attempts + 1 = cfg.maxRetries + 1 := by omega
      rw [this]
      exact ⟨rfl, rfl⟩
    · rw [if_neg hgt]
      exact ih (attempts + 1) (by omega) (by omega) injectBegin isTF body _

end AntiTrunc

namespace AntiTrunc

/-- C5 counterexample: for the status 404 — neither fatal nor retryable —
with `maxRetries = 5`, the non-streaming path gives up after 4 attempts
(the smaller non-retryable cap) while the streaming path keeps retrying to
6 attempts (`maxRetries + 1`): the streaming path does not apply the same
other-status cap as the non-streaming path. -/
theorem errorHandling_streaming_counterexample :
    (runNonStreaming ⟨5, "Seed".data⟩ (fun _ => .httpError 404 "nf".data) {} true).calls = 4 ∧
    (runStreaming ⟨5, "Seed".data⟩ (fun _ => .httpError 404 "nf".data) {} true).calls = 6 := by
  constructor
  · decide
  · decide

/-- C5 (amended): on upstream HTTP failure, a fatal status aborts both
paths immediately (one attempt, upstream status and body surfaced).  The
non-streaming path retries retryable statuses up to `maxRetries`, other
statuses only up to the smaller fixed cap `MAX_NON_RETRYABLE_STATUS_RETRIES`
(when `maxRetries` is smaller than that cap, the attempt budget is
exhausted first and the 200 best-effort response is returned), and
transport failures up to `MAX_FETCH_RETRIES`.  The streaming path applies
the same fatal rule but retries every non-fatal status — retryable or not —
and every transport failure up to `maxRetries`, surfacing the failure as a
stream error event. -/
theorem errorHandling_spec (cfg : Config) (s : Nat) (b m : Str)
    (body0 : RequestBody) (inject : Bool) :
    (s ∈ FATAL_STATUS_CODES →
      runNonStreaming cfg (fun _ => .httpError s b) body0 inject = ⟨.fatal s b, 1⟩ ∧
      (runStreaming cfg (fun _ => .httpError s b) body0 inject).calls = 1 ∧
      (runStreaming cfg (fun _ => .httpError s b) body0 inject).kind = .fatalError) ∧
    (s ∉ FATAL_STATUS_CODES → s ∈ RETRYABLE_STATUS_CODES →
      runNonStreaming cfg (fun _ => .httpError s b) body0 inject =
        ⟨.httpErrorAfterRetries s b, cfg.maxRetries + 1⟩) ∧
    (s ∉ FATAL_STATUS_CODES → s ∉ RETRYABLE_STATUS_CODES → 3 ≤ cfg.maxRetries →
      runNonStreaming cfg (fun _ => .httpError s b) body0 inject =
        ⟨.httpErrorAfterRetries s b, 4⟩) ∧
    (s ∉ FATAL_STATUS_CODES → s ∉ RETRYABLE_STATUS_CODES → cfg.maxRetries < 3 →
      runNonStreaming cfg (fun _ => .httpError s b) body0 inject =
        ⟨.exhausted (nsInitAccum cfg inject).thoughtAcc
          (nsInitAccum cfg inject).formalAcc, cfg.maxRetries + 1⟩) ∧
    (3 ≤ cfg.maxRetries →
      runNonStreaming cfg (fun _ => .fetchError m) body0 inject =
        ⟨.fetchErrorAfterRetries m, 4⟩) ∧
    (s ∉ FATAL_STATUS_CODES →
      (runStreaming cfg (fun _ => .httpError s b) body0 inject).calls =
        cfg.maxRetries + 1 ∧
      (runStreaming cfg (fun _ => .httpError s b) body0 inject).kind =
        .httpErrorAfterRetries) ∧
    ((runStreaming cfg (fun _ => .fetchError m) body0 inject).calls =
        cfg.maxRetries + 1 ∧
     (runStreaming cfg (fun _ => .fetchError m) body0 inject).kind =
        .transportErrorAfterRetries) := by
  refine ⟨?_, ?_, ?_, ?_, ?_, ?_, ?_⟩
  · intro hf
    refine ⟨?_, ?_, ?_⟩
    · unfold runNonStreaming
      rw [runNSAux_const_http_fatal cfg s b hf cfg.maxRetries 0 body0 _]
    · unfold runStreaming
      rw [runStreamAux_const_http_fatal cfg s b hf cfg.maxRetries 0 inject
        (!inject) body0 []]
    · unfold runStreaming
      rw [runStreamAux_const_http_fatal cfg s b hf cfg.maxRetries 0 inject
        (!inject) body0 []]
  · intro hf hr
    unfold runNonStreaming
    exact runNSAux_const_http_retryable cfg s b hf hr (cfg.maxRetries + 1) 0
      (by omega) (by omega) body0 _
  · intro hf hr hmr
    unfold runNonStreaming
    exact runNSAux_const_http_other_capped cfg s b hf hr hmr (cfg.maxRetries + 1) 0
      (by omega) (by omega) body0 _
  · intro hf hr hmr
    unfold runNonStreaming
    exact runNSAux_const_http_other_exhaust cfg s b hf hr hmr (cfg.maxRetries + 1) 0
      (by omega) body0 _
  · intro hmr
    unfold runNonStreaming
    exact runNSAux_const_fetch_capped cfg m hmr (cfg.maxRetries + 1) 0
      (by omega) (by omega) body0 _
  · intro hf
    unfold runStreaming
    exact runStreamAux_const_http_nonfatal cfg s b hf (cfg.maxRetries + 1) 0
      (by omega) (by omega) inject (!inject) body0 []
  · unfold runStreaming
    exact runStreamAux_const_fetch cfg m (cfg.maxRetries + 1) 0
      (by omega) (by omega) inject (!inject) body0 []

/-- C5 witness: the retryable clause at status 503 with `maxRetries = 2`:
three attempts, then the upstream error is surfaced. -/
theorem errorHandling_spec_witness :
    runNonStreaming ⟨2, "S".data⟩ (fun _ => .httpError 503 "busy".data) {} true =
      ⟨.httpErrorAfterRetries 503 "busy".data, 3⟩ :=
  (errorHandling_spec ⟨2, "S".data⟩ 503 "busy".data "x".data {} true).2.1
    (by decide) (by decide)

end AntiTrunc

namespace AntiTrunc

/-! Claim C4: function-call passthrough in the streaming path. -/

/-- A concrete data line carrying a function-call part. -/
def fcLine : Str :=
  "data: \x7b\"candidates\":[\x7b\"content\":\x7b\"parts\":[\x7b\"functionCall\":\x7b\"name\":\"f\"\x7d\x7d]\x7d\x7d]\x7d".data

/-- A concrete data line carrying plain text, delivered after `fcLine`
inside the same chunk. -/
def postFcLine : Str :=
  "data: \x7b\"candidates\":[\x7b\"content\":\x7b\"parts\":[\x7b\"text\":\"hello\"\x7d]\x7d\x7d]\x7d".data

set_option maxRecDepth 8000 in
/-- C4 counterexample: when an event follows the function-call event inside
the same chunk, it is not forwarded to the caller at all — it goes through
the normal buffering path and is dropped when the stream ends in
passthrough mode.  So it is not the case that every upstream byte after the
function-call event is forwarded unmodified. -/
theorem streaming_passthrough_counterexample :
    (runStreaming ⟨0, "S".data⟩
      (fun _ => .ok [fcLine ++ "\n\n".data ++ postFcLine ++ "\n\n".data]) {} false).outputs =
      [fcLine ++ "\n\n".data] ∧
    (∀ o ∈ (runStreaming ⟨0, "S".data⟩
      (fun _ => .ok [fcLine ++ "\n\n".data ++ postFcLine ++ "\n\n".data]) {} false).outputs,
      ¬ "hello".data <:+: o) := by
  constructor
  · decide
  · decide

lemma doneStep_passthrough (st : SState) (h : st.passthroughMode = true) :
    doneStep st = (.closedPassthrough, []) := by
  unfold doneStep
  rw [if_pos h]

lemma chunkStep_passthrough (st : SState) (chunk : Str)
    (h : st.passthroughMode = true) (hc : st.crashed = false) :
    chunkStep st chunk = (st, [chunk]) := by
  unfold chunkStep
  rw [if_neg (by simp [hc]), if_pos h]

/-- Once in passthrough mode (and not crashed), a whole attempt forwards
every chunk verbatim and closes without retrying. -/
lemma runAttempt_passthrough (st0 : SState) (chunks : List Str)
    (h : st0.passthroughMode = true) (hc : st0.crashed = false) :
    runAttempt st0 chunks = ⟨st0, chunks, .closedPassthrough⟩ := by
  have hfold : ∀ outs, chunks.foldl
      (fun (acc : SState × List Str) c =>
        let r := chunkStep acc.1 c
        (r.1, acc.2 ++ r.2)) (st0, outs) = (st0, outs ++ chunks) := by
    induction chunks with
    | nil => intro outs; simp
    | cons c cs ih =>
      intro outs
      simp only [List.foldl_cons, chunkStep_passthrough st0 c h hc]
      rw [ih (outs ++ [c])]
      simp
  unfold runAttempt
  rw [hfold []]
  simp only [hc, List.nil_append]
  rw [if_neg (by simp), doneStep_passthrough st0 h]
  simp

/-- C4 (amended): in the streaming path, when a data event whose payload
carries a function-call part is processed outside passthrough mode, all
buffered not-yet-forwarded events are flushed verbatim and the event itself
is forwarded verbatim, and the engine switches to passthrough mode; every
upstream chunk arriving after the chunk that contained the function-call
event is then forwarded to the caller unmodified, and the attempt closes at
stream end without ever triggering a retry, even if the stream never
contains a finish-marker.  (Events after the function-call event inside the
same chunk are instead processed by the normal buffering path.)  At the
retry-loop level, an attempt that ends in passthrough mode terminates the
whole request with no further upstream call. -/
theorem streaming_function_call_passthrough :
    (∀ (st : SState) (line : Str) (d : Json),
      st.passthroughMode = false →
      ("data:".data).isPrefixOf line = true →
      JSONparse (jsTrim (line.drop 5)) = some d →
      (parsePartsJson ((getPartsOfData d).getD [])).hasFunctionCall = true →
      (processLine st line).2 =
        st.linesBuffer.map (fun lo => lo.rawLine ++ "\n\n".data) ++
          [line ++ "\n\n".data] ∧
      (processLine st line).1.passthroughMode = true) ∧
    (∀ (st0 : SState) (chunks : List Str),
      st0.passthroughMode = true → st0.crashed = false →
      runAttempt st0 chunks = ⟨st0, chunks, .closedPassthrough⟩) ∧
    (∀ (cfg : Config) (up : Nat → StreamUpstream) (fuel attempts : Nat)
       (injectBegin isTF : Bool) (body : RequestBody) (outs : List Str)
       (chunks : List Str),
      up (attempts + 1) = .ok chunks →
      (runAttempt ⟨isTF, false, false, [], [], [],
        (if injectBegin && attempts + 1 = 1 then cfg.startOfThought else []),
        false⟩ chunks).kind = .closedPassthrough →
      (runStreamingAux cfg up (fuel + 1) attempts injectBegin isTF body outs).calls =
        attempts + 1 ∧
      (runStreamingAux cfg up (fuel + 1) attempts injectBegin isTF body outs).kind =
        .passthrough) := by
  refine ⟨?_, runAttempt_passthrough, ?_⟩
  · intro st line d hpass hdata hparse hfc
    have hjson : (jsTrim (line.drop 5)).isEmpty = false := by
      cases hjs : jsTrim (line.drop 5) with
      | nil => rw [hjs] at hparse; cases hparse
      | cons a r => rfl
    unfold processLine
    rw [hdata]
    simp only [Bool.not_true, Bool.false_eq_true, if_false, hjson, hparse]
    simp only [hfc, Bool.not_true, Bool.and_false, Bool.false_eq_true, if_false,
      hpass, Bool.or_true, Bool.not_false, Bool.and_true, eq_self_iff_true, if_true]
    by_cases hlb : st.linesBuffer.isEmpty
    · rw [if_pos hlb]
      constructor
      · have : st.linesBuffer = [] := by
          cases h2 : st.linesBuffer
          · rfl
          · rw [h2] at hlb; cases hlb
        rw [this]
        simp
      · rfl
    · rw [if_neg hlb]
      exact ⟨rfl, rfl⟩
  · intro cfg up fuel attempts injectBegin isTF body outs chunks hup hkind
    simp only [runStreamingAux, hup]
    split
    · next heq => rw [hkind] at heq; cases heq
    · next heq => exact ⟨rfl, rfl⟩
    · next heq => rw [hkind] at heq; cases heq
    · next heq => rw [hkind] at heq; cases heq

set_option maxRecDepth 8000 in
/-- C4 witness: concrete instances of the three passthrough clauses. -/
theorem streaming_function_call_passthrough_witness :
    (processLine ⟨false, false, false, [], [], [], [], false⟩ fcLine).2 =
      [fcLine ++ "\n\n".data] ∧
    (processLine ⟨false, false, false, [], [], [], [], false⟩ fcLine).1.passthroughMode =
      true ∧
    runAttempt ⟨false, true, false, [], [], [], [], false⟩ ["x".data] =
      ⟨⟨false, true, false, [], [], [], [], false⟩, ["x".data], .closedPassthrough⟩ ∧
    (runStreamingAux ⟨0, []⟩ (fun _ => .ok [fcLine ++ "\n\n".data])
      1 0 false false {} []).calls = 1 ∧
    (runStreamingAux ⟨0, []⟩ (fun _ => .ok [fcLine ++ "\n\n".data])
      1 0 false false {} []).kind = .passthrough := by
  obtain ⟨h1, h2, h3⟩ := streaming_function_call_passthrough
  have hp := h1 ⟨false, false, false, [], [], [], [], false⟩ fcLine
      ((JSONparse (jsTrim (fcLine.drop 5))).getD .null) rfl (by decide) rfl (by decide)
  have hr := h3 ⟨0, []⟩ (fun _ => .ok [fcLine ++ "\n\n".data]) 0 0 false false {} []
      [fcLine ++ "\n\n".data] rfl (by decide)
  exact ⟨by simpa using hp.1, hp.2, h2 _ _ rfl rfl, hr.1, hr.2⟩

end AntiTrunc

namespace AntiTrunc

/-! Claim C3 groundwork, part 1: composition of the SSE framing.  Feeding a
byte stream to `splitSep` chunk by chunk (holding back each trailing
incomplete piece) frames exactly the same event lines as splitting the
whole stream at once. -/

lemma matchSep_append_some (a b : Str) (n : Nat) (h : matchSep a = some n) :
    matchSep (a ++ b) = some n := by
  unfold matchSep at h
  split at h <;> (try cases h) <;> rfl

lemma splitSep_matchSep_some (s : Str) (n : Nat) (h : matchSep s = some n) :
    splitSep s = ([] :: (splitSep (s.drop n)).1, (splitSep (s.drop n)).2) := by
  unfold matchSep at h
  split at h <;> (try cases h) <;> rfl

lemma splitSep_matchSep_none (c : Char) (t : Str) (h : matchSep (c :: t) = none) :
    splitSep (c :: t) = splitCons c (splitSep t) := by
  conv_lhs => unfold splitSep
  split
  · rename_i heq
    exact absurd heq (by simp)
  · rename_i rest heq
    exfalso
    rw [heq] at h
    rw [show matchSep ('\n' :: '\n' :: rest) = some 2 from rfl] at h
    cases h
  · rename_i rest heq
    exfalso
    rw [heq] at h
    rw [show matchSep ('\n' :: '\r' :: '\n' :: rest) = some 3 from rfl] at h
    cases h
  · rename_i rest heq
    exfalso
    rw [heq] at h
    rw [show matchSep ('\r' :: '\n' :: '\n' :: rest) = some 3 from rfl] at h
    cases h
  · rename_i rest heq
    exfalso
    rw [heq] at h
    rw [show matchSep ('\r' :: '\n' :: '\r' :: '\n' :: rest) = some 4 from rfl] at h
    cases h
  · rename_i heq
    rw [List.cons.injEq] at heq
    obtain ⟨h1, h2⟩ := heq
    subst h1
    subst h2
    rfl

lemma splitSep_no_sep : ∀ (s : Str), (splitSep s).1 = [] → (splitSep s).2 = s := by
  have main : ∀ N s, List.length s ≤ N → (splitSep s).1 = [] → (splitSep s).2 = s := by
    intro N
    induction N with
    | zero =>
      intro s hs _
      have : s = [] := List.eq_nil_of_length_eq_zero (by omega)
      subst this
      rfl
    | succ N ih =>
      intro s hs h
      cases hm : matchSep s with
      | some n =>
        rw [splitSep_matchSep_some s n hm] at h
        cases h
      | none =>
        cases s with
        | nil => rfl
        | cons c t =>
          rw [splitSep_matchSep_none c t hm] at h ⊢
          cases hP : (splitSep t).1 with
          | cons p ps =>
            exfalso
            unfold splitCons at h
            rw [show splitSep t = ((splitSep t).1, (splitSep t).2) from rfl, hP] at h
            cases h
          | nil =>
            have htr := ih t (by simp at hs; omega) hP
            unfold splitCons
            rw [show splitSep t = ((splitSep t).1, (splitSep t).2) from rfl, hP, htr]
  exact fun s => main s.length s le_rfl

end AntiTrunc

namespace AntiTrunc

/-- Chunk-by-chunk framing composes: splitting `a ++ b` frames the pieces
of `a` followed by the pieces of `a`'s trailing remainder joined with `b`. -/
theorem splitSep_append : ∀ (a b : Str),
    splitSep (a ++ b) =
      ((splitSep a).1 ++ (splitSep ((splitSep a).2 ++ b)).1,
       (splitSep ((splitSep a).2 ++ b)).2) := by
  have main : ∀ N a b, List.length a ≤ N →
      splitSep (a ++ b) =
        ((splitSep a).1 ++ (splitSep ((splitSep a).2 ++ b)).1,
         (splitSep ((splitSep a).2 ++ b)).2) := by
    intro N
    induction N with
    | zero =>
      intro a b ha
      have : a = [] := List.eq_nil_of_length_eq_zero (by omega)
      subst this
      simp [splitSep]
    | succ N ih =>
      intro a b ha
      cases hm : matchSep a with
      | some n =>
        have h2 : matchSep (a ++ b) = some n := matchSep_append_some a b n hm
        have hn2 : 2 ≤ n := matchSep_pos a n hm
        have hnl : n ≤ a.length := matchSep_le_length a n hm
        rw [splitSep_matchSep_some _ _ h2, splitSep_matchSep_some _ _ hm]
        rw [List.drop_append_of_le_length hnl]
        rw [ih (a.drop n) b (by simp; omega)]
        simp
      | none =>
        cases a with
        | nil => simp [splitSep]
        | cons c a2 =>
          cases hm2 : matchSep ((c :: a2) ++ b) with
          | none =>
            rw [List.cons_append] at hm2
            cases hP : (splitSep a2).1 with
            | cons p ps =>
              rw [List.cons_append, splitSep_matchSep_none c (a2 ++ b) hm2,
                splitSep_matchSep_none c a2 hm]
              rw [ih a2 b (by simp at ha; omega)]
              unfold splitCons
              rw [show splitSep a2 = ((splitSep a2).1, (splitSep a2).2) from rfl, hP]
              rfl
            | nil =>
              have htr := splitSep_no_sep a2 hP
              have hsa : splitSep (c :: a2) = ([], c :: a2) := by
                rw [splitSep_matchSep_none c a2 hm]
                unfold splitCons
                rw [show splitSep a2 = ((splitSep a2).1, (splitSep a2).2) from rfl,
                  hP, htr]
              rw [hsa]
              simp
          | some n =>
            -- a separator forms only across the boundary: `c :: a2` holds none
            have hflat : splitSep (c :: a2) = ([], c :: a2) := by
              unfold matchSep at hm2
              split at hm2
              · rename_i heq
                rw [List.cons_append, List.cons.injEq] at heq
                obtain ⟨hc, hrest⟩ := heq
                subst hc
                cases a2 with
                | nil => decide
                | cons x a3 =>
                  rw [List.cons_append, List.cons.injEq] at hrest
                  obtain ⟨hx, _⟩ := hrest
                  subst hx
                  rw [show matchSep ('\n' :: '\n' :: a3) = some 2 from rfl] at hm
                  cases hm
              · rename_i heq
                rw [List.cons_append, List.cons.injEq] at heq
                obtain ⟨hc, hrest⟩ := heq
                subst hc
                cases a2 with
                | nil => decide
                | cons x a3 =>
                  rw [List.cons_append, List.cons.injEq] at hrest
                  obtain ⟨hx, hrest2⟩ := hrest
                  subst hx
                  cases a3 with
                  | nil => decide
                  | cons y a4 =>
                    rw [List.cons_append, List.cons.injEq] at hrest2
                    obtain ⟨hy, _⟩ := hrest2
                    subst hy
                    rw [show matchSep ('\n' :: '\r' :: '\n' :: a4) = some 3
                      from rfl] at hm
                    cases hm
              · rename_i heq
                rw [List.cons_append, List.cons.injEq] at heq
                obtain ⟨hc, hrest⟩ := heq
                subst hc
                cases a2 with
                | nil => decide
                | cons x a3 =>
                  rw [List.cons_append, List.cons.injEq] at hrest
                  obtain ⟨hx, hrest2⟩ := hrest
                  subst hx
                  cases a3 with
                  | nil => decide
                  | cons y a4 =>
                    rw [List.cons_append, List.cons.injEq] at hrest2
                    obtain ⟨hy, _⟩ := hrest2
                    subst hy
                    rw [show matchSep ('\r' :: '\n' :: '\n' :: a4) = some 3
                      from rfl] at hm
                    cases hm
              · rename_i heq
                rw [List.cons_append, List.cons.injEq] at heq
                obtain ⟨hc, hrest⟩ := heq
                subst hc
                cases a2 with
                | nil => decide
                | cons x a3 =>
                  rw [List.cons_append, List.cons.injEq] at hrest
                  obtain ⟨hx, hrest2⟩ := hrest
                  subst hx
                  cases a3 with
                  | nil => decide
                  | cons y a4 =>
                    rw [List.cons_append, List.cons.injEq] at hrest2
                    obtain ⟨hy, hrest3⟩ := hrest2
                    subst hy
                    cases a4 with
                    | nil => decide
                    | cons z a5 =>
                      rw [List.cons_append, List.cons.injEq] at hrest3
                      obtain ⟨hz, _⟩ := hrest3
                      subst hz
                      rw [show matchSep ('\r' :: '\n' :: '\r' :: '\n' :: a5) =
                        some 4 from rfl] at hm
                      cases hm
              · cases hm2
            rw [hflat]
            simp
  exact fun a b => main a.length a b le_rfl

end AntiTrunc

namespace AntiTrunc

/-! Claim C3 groundwork, part 2: under the no-function-call condition the
effect of one framed line on the streaming state is an append-only action
that depends only on the `isThoughtFinished` flag, captured by
`lineEffect`. -/

/-- Whether a framed line is a parseable data event carrying a
function-call part. -/
def lineHasFC (line : Str) : Bool :=
  if !(("data:".data).isPrefixOf line) then false
  else
    let jsonStr := jsTrim (line.drop 5)
    if jsonStr.isEmpty then false
    else
      match JSONparse jsonStr with
      | none => false
      | some data => (parsePartsJson ((getPartsOfData data).getD [])).hasFunctionCall

/-- The effect of one framed line: new thought flag, stored line objects,
accumulated-text delta, immediately forwarded events. -/
structure LineEff where
  tf : Bool
  stored : List LineObj
  accD : Str
  outs : List Str

def joinTexts (los : List LineObj) : Str := (los.map LineObj.text).join

def lineEffect (tf0 : Bool) (line : Str) : LineEff :=
  if !(("data:".data).isPrefixOf line) then
    ⟨tf0, [], [], if line.isEmpty then [] else [line ++ "\n\n".data]⟩
  else
    let jsonStr := jsTrim (line.drop 5)
    if jsonStr.isEmpty then ⟨tf0, [], [], []⟩
    else
      match JSONparse jsonStr with
      | none => ⟨tf0, [], [], [line ++ "\n\n".data]⟩
      | some data =>
        let parts := (getPartsOfData data).getD []
        let parsed := parsePartsJson parts
        if parsed.hasThought && parsed.responseText.isEmpty && !parsed.hasFunctionCall then
          ⟨tf0, [], [], []⟩
        else
          let responseText := parsed.responseText
          let transition := !tf0 && isFormalResponseStarted responseText
          let isTF := tf0 || transition
          let accD : Str := if transition then BEGIN_TOKEN ++ ['\n'] else []
          let lineToStore :=
            match getPartsOfData data with
            | some parts2 =>
              let processedParts := parts2.filter (fun p => !jTruthy (jGet p "thought".data))
              let wasModified1 := decide (processedParts.length < parts2.length)
              let processedParts2 :=
                if !isTF then
                  processedParts.map (fun p =>
                    if textTruthy (jTextField p) then
                      objSet p "thought".data (.bool true)
                    else p)
                else processedParts
              let wasModified2 :=
                if !isTF then processedParts.any (fun p => textTruthy (jTextField p))
                else false
              if wasModified1 || wasModified2 then
                match setCandidate0Parts data processedParts2 with
                | some data2 => "data: ".data ++ serialize data2
                | none => line
              else line
            | none => line
          ⟨isTF, [⟨lineToStore, transition, responseText⟩], accD, []⟩

end AntiTrunc

namespace AntiTrunc

/-- Out of passthrough mode, with no function call seen or carried by the
line, `processLine` acts by `lineEffect`: it appends to the buffers and
possibly raises the thought flag, touching nothing else. -/
lemma processLine_noFC (st : SState) (line : Str)
    (hp : st.passthroughMode = false) (hf : st.hasFunctionCallInStream = false)
    (hl : lineHasFC line = false) :
    processLine st line =
      ({ st with
          isThoughtFinished := (lineEffect st.isThoughtFinished line).tf
          linesBuffer := st.linesBuffer ++ (lineEffect st.isThoughtFinished line).stored
          textBuffer := st.textBuffer ++
            joinTexts (lineEffect st.isThoughtFinished line).stored
          accumulatedText :=
            st.accumulatedText ++ (lineEffect st.isThoughtFinished line).accD },
       (lineEffect st.isThoughtFinished line).outs) := by
  unfold processLine lineEffect
  unfold lineHasFC at hl
  by_cases hpr : (("data:".data).isPrefixOf line) = true
  · rw [hpr] at hl ⊢
    simp only [Bool.not_true, Bool.false_eq_true, if_false] at hl ⊢
    by_cases hje : (jsTrim (line.drop 5)).isEmpty = true
    · rw [hje] at hl ⊢
      simp only [if_true]
      cases st
      simp [joinTexts]
    · rw [Bool.not_eq_true] at hje
      rw [hje] at hl ⊢
      simp only [Bool.false_eq_true, if_false] at hl ⊢
      cases hparse : JSONparse (jsTrim (line.drop 5)) with
      | none =>
        cases st
        simp [joinTexts]
      | some data =>
        have hl2 : (parsePartsJson ((getPartsOfData data).getD [])).hasFunctionCall =
            false := by rw [hparse] at hl; exact hl
        by_cases hgarb : ((parsePartsJson ((getPartsOfData data).getD [])).hasThought &&
            (parsePartsJson ((getPartsOfData data).getD [])).responseText.isEmpty &&
            !(parsePartsJson ((getPartsOfData data).getD [])).hasFunctionCall) = true
        · simp only [hgarb, if_true]
          cases st
          simp only at hf
          subst hf
          simp [joinTexts, hl2]
        · rw [Bool.not_eq_true] at hgarb
          simp only [hgarb, Bool.false_eq_true, if_false, hf, hl2, Bool.or_false,
            Bool.false_or, Bool.false_and, Bool.and_false]
          cases st
          simp only at hp hf
          subst hp
          subst hf
          have hgarb2 : ¬((parsePartsJson ((getPartsOfData data).getD [])).hasThought =
              true ∧ (parsePartsJson ((getPartsOfData data).getD [])).responseText = []) := by
            simpa [hl2] using hgarb
          simp [joinTexts, hgarb2]
          split_ifs <;> simp
  · rw [Bool.not_eq_true] at hpr
    rw [hpr] at hl ⊢
    simp only [Bool.not_false, if_true] at hl ⊢
    cases st
    simp [joinTexts]

end AntiTrunc

namespace AntiTrunc

/-- Sequential effect of a list of framed lines. -/
def lineFold (tf0 : Bool) : List Str → LineEff
  | [] => ⟨tf0, [], [], []⟩
  | l :: ls =>
    let e := lineEffect tf0 l
    let r := lineFold e.tf ls
    ⟨r.tf, e.stored ++ r.stored, e.accD ++ r.accD, e.outs ++ r.outs⟩

lemma joinTexts_append (a b : List LineObj) :
    joinTexts (a ++ b) = joinTexts a ++ joinTexts b := by
  simp [joinTexts]

lemma lineFold_append (tf0 : Bool) (ls1 ls2 : List Str) :
    lineFold tf0 (ls1 ++ ls2) =
      ⟨(lineFold (lineFold tf0 ls1).tf ls2).tf,
       (lineFold tf0 ls1).stored ++ (lineFold (lineFold tf0 ls1).tf ls2).stored,
       (lineFold tf0 ls1).accD ++ (lineFold (lineFold tf0 ls1).tf ls2).accD,
       (lineFold tf0 ls1).outs ++ (lineFold (lineFold tf0 ls1).tf ls2).outs⟩ := by
  induction ls1 generalizing tf0 with
  | nil => simp [lineFold]
  | cons l ls ih =>
    simp only [List.cons_append, lineFold, List.append_eq]
    rw [ih]
    simp [List.append_assoc]

/-- Folding `processLine` over framed lines acts by `lineFold`. -/
lemma processLines_noFC (ls : List Str) : ∀ (st : SState) (outs0 : List Str),
    st.passthroughMode = false → st.hasFunctionCallInStream = false →
    (∀ l ∈ ls, lineHasFC l = false) →
    ls.foldl (fun (acc : SState × List Str) l =>
        let r := processLine acc.1 l
        (r.1, acc.2 ++ r.2)) (st, outs0) =
      ({ st with
          isThoughtFinished := (lineFold st.isThoughtFinished ls).tf
          linesBuffer := st.linesBuffer ++ (lineFold st.isThoughtFinished ls).stored
          textBuffer := st.textBuffer ++
            joinTexts (lineFold st.isThoughtFinished ls).stored
          accumulatedText :=
            st.accumulatedText ++ (lineFold st.isThoughtFinished ls).accD },
       outs0 ++ (lineFold st.isThoughtFinished ls).outs) := by
  induction ls with
  | nil =>
    intro st outs0 _ _ _
    cases st
    simp [lineFold, joinTexts]
  | cons l ls ih =>
    intro st outs0 hp hf hl
    simp only [List.foldl_cons]
    rw [processLine_noFC st l hp hf (hl l (by simp))]
    rw [ih _ _ (by simp [hp]) (by simp [hf]) (fun x hx => hl x (by simp [hx]))]
    simp only [lineFold]
    cases st
    simp [joinTexts_append, List.append_assoc]

end AntiTrunc

namespace AntiTrunc

/-! Claim C3 groundwork, part 3: object-update lemmas and the payload
shapes involved in rewriting and releasing stored lines. -/

lemma find_objSetFields_self (k : Str) (v : Json) (fs : List (Str × Json)) :
    (objSetFields k v fs).find? (fun f => f.1 == k) = some (k, v) := by
  induction fs with
  | nil =>
    show List.find? _ [(k, v)] = _
    rw [List.find?_cons_of_pos _ (by exact beq_self_eq_true k)]
  | cons g rest ih =>
    obtain ⟨k2, v2⟩ := g
    simp only [objSetFields]
    by_cases hk : k2 = k
    · rw [if_pos hk]
      rw [List.find?_cons_of_pos _ (by exact beq_self_eq_true k)]
    · rw [if_neg hk]
      rw [List.find?_cons_of_neg _ (by simp [beq_eq_false_iff_ne, hk])]
      exact ih

lemma find_objSetFields_other (k k2 : Str) (v : Json) (fs : List (Str × Json))
    (hne : k2 ≠ k) :
    (objSetFields k v fs).find? (fun f => f.1 == k2) =
      fs.find? (fun f => f.1 == k2) := by
  have hb : (k == k2) = false := beq_eq_false_iff_ne.mpr (fun h => hne h.symm)
  induction fs with
  | nil =>
    show List.find? _ [(k, v)] = _
    rw [List.find?_cons_of_neg _ (by simp [hb])]
  | cons g rest ih =>
    obtain ⟨k3, v3⟩ := g
    simp only [objSetFields]
    by_cases hk : k3 = k
    · rw [if_pos hk]
      subst hk
      rw [List.find?_cons_of_neg _ (by simp [hb]),
        List.find?_cons_of_neg _ (by simp [hb])]
    · rw [if_neg hk]
      cases hq : (k3 == k2) with
      | true =>
        rw [List.find?_cons_of_pos _ (by simp [hq]), List.find?_cons_of_pos _ (by simp [hq])]
      | false =>
        rw [List.find?_cons_of_neg _ (by simp [hq]), List.find?_cons_of_neg _ (by simp [hq])]
        exact ih

lemma jGet_objSetFields_self (fs : List (Str × Json)) (k : Str) (v : Json) :
    jGet (Json.obj (objSetFields k v fs)) k = some v := by
  simp [jGet, find_objSetFields_self]

lemma jGet_objSetFields_other (fs : List (Str × Json)) (k k2 : Str) (v : Json)
    (hne : k2 ≠ k) :
    jGet (Json.obj (objSetFields k v fs)) k2 = jGet (.obj fs) k2 := by
  simp [jGet, find_objSetFields_other k k2 v fs hne]

lemma jGet_some_obj (j : Json) (k : Str) (v : Json) (h : jGet j k = some v) :
    ∃ fs, j = .obj fs := by
  cases j with
  | obj fs => exact ⟨fs, rfl⟩
  | null => exact absurd h (by simp [jGet])
  | bool b => exact absurd h (by simp [jGet])
  | num n => exact absurd h (by simp [jGet])
  | str s => exact absurd h (by simp [jGet])
  | arr es => exact absurd h (by simp [jGet])

/-- Shape required by the `data.candidates[0].content.parts` assignments. -/
def hasC0Content (d : Json) : Bool :=
  match jGet d "candidates".data with
  | some (.arr (c0 :: _)) =>
    match jGet c0 "content".data with
    | some (.obj _) => true
    | _ => false
  | _ => false

lemma getPartsOfData_hasC0 (d : Json) (ps : List Json)
    (h : getPartsOfData d = some ps) : hasC0Content d = true := by
  simp only [getPartsOfData] at h
  simp only [hasC0Content]
  cases hc : jGet d "candidates".data with
  | none => simp [hc] at h
  | some cv =>
    simp only [hc] at h ⊢
    cases cv with
    | arr es =>
      cases es with
      | nil => simp at h
      | cons c0 cs =>
        simp only at h ⊢
        cases hct : jGet c0 "content".data with
        | none => simp [hct] at h
        | some content =>
          simp only [hct] at h ⊢
          cases hpp : jGet content "parts".data with
          | none => simp [hpp] at h
          | some pv =>
            obtain ⟨cfs, hobj⟩ := jGet_some_obj content "parts".data pv hpp
            subst hobj
            rfl
    | null => simp at h
    | bool b => simp at h
    | num n => simp at h
    | str s => simp at h
    | obj fs => simp at h

lemma setCandidate0Parts_spec (d : Json) (ps : List Json) (h : hasC0Content d = true) :
    ∃ d2, setCandidate0Parts d ps = some d2 ∧ getPartsOfData d2 = some ps ∧
      ∃ fs2, d2 = .obj fs2 := by
  simp only [hasC0Content] at h
  cases hc : jGet d "candidates".data with
  | none => simp [hc] at h
  | some cv =>
    simp only [hc] at h
    cases cv with
    | arr es =>
      cases es with
      | nil => simp at h
      | cons c0 cs =>
        simp only at h
        cases hct : jGet c0 "content".data with
        | none => simp [hct] at h
        | some content =>
          simp only [hct] at h
          cases content with
          | obj cfs =>
            obtain ⟨dfs, hdobj⟩ := jGet_some_obj d "candidates".data _ hc
            obtain ⟨c0fs, hc0obj⟩ := jGet_some_obj c0 "content".data _ hct
            subst hdobj
            subst hc0obj
            refine ⟨Json.obj (objSetFields "candidates".data
                (.arr (Json.obj (objSetFields "content".data
                  (Json.obj (objSetFields "parts".data (.arr ps) cfs)) c0fs) :: cs)) dfs),
              ?_, ?_, ⟨_, rfl⟩⟩
            · simp only [setCandidate0Parts, hc, hct]
              rfl
            · simp only [getPartsOfData, jGet_objSetFields_self]
          | null => simp at h
          | bool b => simp at h
          | num n => simp at h
          | str s => simp at h
          | arr es2 => simp at h
    | null => simp at h
    | bool b => simp at h
    | num n => simp at h
    | str s => simp at h
    | obj fs => simp at h

lemma setFinalPayload_spec (d : Json) (ps : List Json) (h : hasC0Content d = true) :
    ∃ d2, setFinalPayload d ps = some d2 ∧ getPartsOfData d2 = some ps ∧
      ∃ fs2, d2 = .obj fs2 := by
  simp only [hasC0Content] at h
  cases hc : jGet d "candidates".data with
  | none => simp [hc] at h
  | some cv =>
    simp only [hc] at h
    cases cv with
    | arr es =>
      cases es with
      | nil => simp at h
      | cons c0 cs =>
        simp only at h
        cases hct : jGet c0 "content".data with
        | none => simp [hct] at h
        | some content =>
          simp only [hct] at h
          cases content with
          | obj cfs =>
            obtain ⟨dfs, hdobj⟩ := jGet_some_obj d "candidates".data _ hc
            obtain ⟨c0fs, hc0obj⟩ := jGet_some_obj c0 "content".data _ hct
            subst hdobj
            subst hc0obj
            refine ⟨Json.obj (objSetFields "candidates".data
                (.arr (Json.obj (objSetFields "finishReason".data (.str "STOP".data)
                  (objSetFields "content".data
                    (Json.obj (objSetFields "parts".data (.arr ps) cfs)) c0fs)) :: cs))
                  dfs),
              ?_, ?_, ⟨_, rfl⟩⟩
            · simp only [setFinalPayload, hc, hct]
              rfl
            · simp only [getPartsOfData, jGet_objSetFields_self]
              rw [jGet_objSetFields_other _ _ _ _ (by decide)]
              simp only [jGet_objSetFields_self]
          | null => simp at h
          | bool b => simp at h
          | num n => simp at h
          | str s => simp at h
          | arr es2 => simp at h
    | null => simp at h
    | bool b => simp at h
    | num n => simp at h
    | str s => simp at h
    | obj fs => simp at h

lemma setFinalPayload_none (d : Json) (ps : List Json) (h : hasC0Content d = false) :
    setFinalPayload d ps = none := by
  simp only [hasC0Content] at h
  simp only [setFinalPayload]
  cases hc : jGet d "candidates".data with
  | none => rfl
  | some cv =>
    simp only [hc] at h
    cases cv with
    | arr es =>
      cases es with
      | nil => rfl
      | cons c0 cs =>
        simp only at h
        cases hct : jGet c0 "content".data with
        | none => simp [hct]
        | some content =>
          cases content with
          | obj cfs => simp [hct] at h
          | null => simp [hct]
          | bool b => simp [hct]
          | num n => simp [hct]
          | str s => simp [hct]
          | arr es2 => simp [hct]
    | null => rfl
    | bool b => rfl
    | num n => rfl
    | str s => rfl
    | obj fs => rfl

end AntiTrunc

namespace AntiTrunc

/-! Claim C3 groundwork, part 4: the formal (non-thought) text of a part
list, and its behaviour under the engine's filtering and thought-marking
rewrites. -/

/-- Formal-text contribution of one part payload. -/
def partContrib (p : Json) : Str :=
  if textTruthy (jTextField p) && !jTruthy (jGet p "thought".data) then
    (jTextField p).getD []
  else []

lemma thought_match_true (p : Json)
    (h : (match jGet p "thought".data with
      | some (.bool true) => true
      | _ => false) = true) :
    jGet p "thought".data = some (.bool true) := by
  cases hj : jGet p "thought".data with
  | none => rw [hj] at h; simp at h
  | some tv =>
    rw [hj] at h
    cases tv with
    | bool b =>
      cases b with
      | true => rfl
      | false => simp at h
    | null => simp at h
    | num n => simp at h
    | str s => simp at h
    | arr es => simp at h
    | obj fs => simp at h

lemma parsePartsStep_respText (a : ParsedParts) (p : Json) :
    (parsePartsStep a p).responseText = a.responseText ++ partContrib p := by
  unfold parsePartsStep partContrib
  cases hth : jGet p "thought".data with
  | none =>
    simp only [hth, jTruthy]
    by_cases htt : textTruthy (jTextField p) = true <;> simp [htt] <;>
      split_ifs <;> rfl
  | some tv =>
    cases tv with
    | bool b =>
      cases b with
      | true =>
        simp only [hth, jTruthy]
        by_cases htt : textTruthy (jTextField p) = true <;> simp [htt] <;>
          split_ifs <;> rfl
      | false =>
        simp only [hth, jTruthy]
        by_cases htt : textTruthy (jTextField p) = true <;> simp [htt] <;>
          split_ifs <;> rfl
    | null =>
      simp only [hth, jTruthy]
      by_cases htt : textTruthy (jTextField p) = true <;> simp [htt] <;>
        split_ifs <;> rfl
    | num n =>
      simp only [hth, jTruthy]
      by_cases hn : (n == 0) = true <;>
        by_cases htt : textTruthy (jTextField p) = true <;>
        simp [hn, htt] <;> split_ifs <;> rfl
    | str s =>
      simp only [hth, jTruthy]
      by_cases hse : s.isEmpty = true <;>
        by_cases htt : textTruthy (jTextField p) = true <;>
        simp [hse, htt] <;> split_ifs <;> rfl
    | arr es =>
      simp only [hth, jTruthy]
      by_cases htt : textTruthy (jTextField p) = true <;> simp [htt] <;>
        split_ifs <;> rfl
    | obj fs =>
      simp only [hth, jTruthy]
      by_cases htt : textTruthy (jTextField p) = true <;> simp [htt] <;>
        split_ifs <;> rfl

lemma respText_eq_join (ps : List Json) : ∀ (a : ParsedParts),
    (ps.foldl parsePartsStep a).responseText =
      a.responseText ++ (ps.map partContrib).join := by
  induction ps with
  | nil => intro a; simp
  | cons p ps ih =>
    intro a
    simp only [List.foldl_cons, List.map_cons, List.join_cons]
    rw [ih, parsePartsStep_respText]
    simp [List.append_assoc]

lemma parsePartsJson_respText (ps : List Json) :
    (parsePartsJson ps).responseText = (ps.map partContrib).join := by
  unfold parsePartsJson
  rw [respText_eq_join]
  rfl

lemma respText_filter_thought (ps : List Json) :
    (((ps.filter (fun p => !jTruthy (jGet p "thought".data))).map partContrib)).join =
      (ps.map partContrib).join := by
  induction ps with
  | nil => rfl
  | cons p ps ih =>
    by_cases hp : jTruthy (jGet p "thought".data) = true
    · have hcontrib : partContrib p = [] := by
        unfold partContrib
        rw [if_neg (by simp [hp])]
      simp [List.filter_cons, hp, hcontrib, ih]
    · rw [Bool.not_eq_true] at hp
      simp [List.filter_cons, hp, ih]

lemma respText_marked (ps : List Json) :
    (((ps.map (fun p => if textTruthy (jTextField p) then
        objSet p "thought".data (.bool true) else p)).map partContrib)).join = [] := by
  induction ps with
  | nil => rfl
  | cons p ps ih =>
    simp only [List.map_cons, List.join_cons, ih, List.append_nil]
    by_cases htt : textTruthy (jTextField p) = true
    · rw [if_pos htt]
      have hobj : ∃ fs, p = .obj fs := by
        cases hjt : jTextField p with
        | none => rw [hjt] at htt; cases htt
        | some s =>
          unfold jTextField at hjt
          cases hjg : jGet p "text".data with
          | none => rw [hjg] at hjt; cases hjt
          | some tv => exact jGet_some_obj p "text".data tv hjg
      obtain ⟨fs, hfs⟩ := hobj
      subst hfs
      unfold partContrib
      rw [if_neg]
      rw [show objSet (Json.obj fs) "thought".data (.bool true) =
          Json.obj (objSetFields "thought".data (.bool true) fs) from rfl]
      rw [jGet_objSetFields_self]
      simp [jTruthy]
    · rw [if_neg htt]
      unfold partContrib
      rw [if_neg (by simp [htt])]

end AntiTrunc

namespace AntiTrunc

/-! Claim C3 groundwork, part 5: trimming facts for rewritten data lines,
stored-line well-formedness, and the lookahead release loop. -/

lemma jsTrim_append_ws (x w : Str) (hw : ∀ c ∈ w, isJsWs c = true) :
    jsTrim (x ++ w) = jsTrim x := by
  unfold jsTrim lstripWs
  rw [List.dropWhile_append]
  by_cases hx : (x.dropWhile isJsWs).isEmpty = true
  · rw [if_pos hx]
    rw [List.dropWhile_eq_nil_iff.2 (fun c hc => hw c hc)]
    rw [List.isEmpty_iff.1 hx]
  · rw [if_neg hx]
    exact rstripWs_append_all_ws _ w hw

lemma serialize_obj_getLast (fs : List (Str × Json)) :
    (serialize (.obj fs)).getLast? = some closeBraceChar := by
  show ((openBraceChar :: serializeFields fs) ++ [closeBraceChar]).getLast? = _
  rw [List.getLast?_append]
  rfl

lemma jsTrim_space_serialize_obj (fs : List (Str × Json)) (w : Str)
    (hw : ∀ c ∈ w, isJsWs c = true) :
    jsTrim (' ' :: (serialize (.obj fs) ++ w)) = serialize (.obj fs) := by
  unfold jsTrim
  have h1 : lstripWs (' ' :: (serialize (.obj fs) ++ w)) =
      lstripWs (serialize (.obj fs) ++ w) := by
    unfold lstripWs
    rw [List.dropWhile_cons, if_pos (by decide)]
  have h2 : lstripWs (serialize (.obj fs) ++ w) = serialize (.obj fs) ++ w := by
    unfold lstripWs
    rw [show serialize (.obj fs) ++ w =
        openBraceChar :: ((serializeFields fs ++ [closeBraceChar]) ++ w) from rfl]
    rw [List.dropWhile_cons, if_neg (by decide)]
  rw [h1, h2, rstripWs_append_all_ws _ w hw]
  exact rstripWs_eq_self_of_last_not_ws _ (fun c hc => by
    rw [serialize_obj_getLast] at hc
    cases hc
    decide)

lemma dataPrefix_dataSp (x : Str) :
    ("data:".data).isPrefixOf ("data: ".data ++ x) = true := by
  show ("data:".data).isPrefixOf ("data:".data ++ (' ' :: x)) = true
  exact isPrefixOf_append_self _ _

lemma dataSp_drop5 (x : Str) : ("data: ".data ++ x).drop 5 = ' ' :: x := rfl

/-- Parse-and-extract of the formal text of a stored data line. -/
def parsedFormal (raw : Str) : Str :=
  match JSONparse (jsTrim (raw.drop 5)) with
  | some d => (parsePartsJson ((getPartsOfData d).getD [])).responseText
  | none => []

/-- Well-formedness of a stored line object. -/
def lineObjOk (lo : LineObj) : Prop :=
  ("data:".data).isPrefixOf lo.rawLine = true ∧
  (∃ d, JSONparse (jsTrim (lo.rawLine.drop 5)) = some d ∧
    (lo.isTransitionLine = true → hasC0Content d = true)) ∧
  (lo.text = [] → parsedFormal lo.rawLine = []) ∧
  (lo.isTransitionLine = true → lo.text ≠ [])

/-- The event emitted when a stored line is released (handlers.js 463-480):
transition lines are re-parsed and rewritten with the begin-marker
stripped, others are forwarded as stored. -/
def releasedEventOf (lo : LineObj) : Str :=
  if lo.isTransitionLine then
    match JSONparse (jsTrim (lo.rawLine.drop 5)) with
    | some d =>
      match setCandidate0Parts d
          [Json.obj [("text".data, .str (cleanFinalText lo.text true false))]] with
      | some d2 => "data: ".data ++ serialize d2 ++ "\n\n".data
      | none => []
    | none => []
  else lo.rawLine ++ "\n\n".data

/-- The accumulated-text delta of a released line. -/
def relAccOf (lo : LineObj) : Str :=
  if lo.isTransitionLine then cleanFinalText lo.text true false else lo.text

def cumTexts (los : List LineObj) : Nat := (los.map (fun lo => lo.text.length)).sum

/-- Number of queued lines the release loop forwards. -/
def relCount (safe : Nat) : Nat → List LineObj → Nat
  | _, [] => 0
  | fwd, lo :: rest =>
    if fwd + lo.text.length ≤ safe then 1 + relCount safe (fwd + lo.text.length) rest
    else 0

/-- Characterization of `releaseAux` on well-formed queues: it forwards the
greedy prefix, never crashes, and emits `releasedEventOf` per line. -/
lemma releaseAux_spec (safe : Nat) : ∀ (los : List LineObj) (fwd : Nat) (acc : Str),
    (∀ lo ∈ los, lineObjOk lo) →
    releaseAux safe los fwd acc =
      ⟨los.drop (relCount safe fwd los),
       fwd + cumTexts (los.take (relCount safe fwd los)),
       (los.take (relCount safe fwd los)).map releasedEventOf,
       acc ++ ((los.take (relCount safe fwd los)).map relAccOf).join,
       false⟩ := by
  intro los
  induction los with
  | nil =>
    intro fwd acc _
    simp [releaseAux, relCount, cumTexts]
  | cons lo rest ih =>
    intro fwd acc hok
    by_cases hle : fwd + lo.text.length ≤ safe
    · have hq : relCount safe fwd (lo :: rest) =
          relCount safe (fwd + lo.text.length) rest + 1 := by
        show (if fwd + lo.text.length ≤ safe
          then 1 + relCount safe (fwd + lo.text.length) rest else 0) = _
        rw [if_pos hle]
        omega
      obtain ⟨hpr, ⟨d, hparse, hc0⟩, hzero, hnz⟩ := hok lo (by simp)
      rw [hq]
      cases htr : lo.isTransitionLine with
      | false =>
        have hev : releasedEventOf lo = lo.rawLine ++ "\n\n".data := by
          unfold releasedEventOf
          rw [htr]
          simp
        have hac : relAccOf lo = lo.text := by
          unfold relAccOf
          rw [htr]
          simp
        simp only [releaseAux]
        rw [if_pos hle, htr]
        simp only [Bool.false_eq_true, if_false]
        rw [ih (fwd + lo.text.length) (acc ++ lo.text)
          (fun x hx => hok x (by simp [hx]))]
        simp only [List.take_succ_cons, List.drop_succ_cons, List.map_cons,
          List.join_cons, hev, hac, cumTexts, List.sum_cons,
          ReleaseResult.mk.injEq]
        exact ⟨trivial, by omega, trivial, by simp [List.append_assoc], trivial⟩
      | true =>
        obtain ⟨d2, hset, hgp2, fs2, hobj2⟩ :=
          setCandidate0Parts_spec d
            [Json.obj [("text".data, .str (cleanFinalText lo.text true false))]]
            (hc0 htr)
        have hev : releasedEventOf lo =
            "data: ".data ++ serialize d2 ++ "\n\n".data := by
          unfold releasedEventOf
          rw [htr]
          simp only [if_true, hparse, hset]
        have hac : relAccOf lo = cleanFinalText lo.text true false := by
          unfold relAccOf
          rw [htr]
          simp
        simp only [releaseAux]
        rw [if_pos hle, htr]
        simp only [if_true, hparse, hset]
        rw [ih (fwd + lo.text.length) (acc ++ cleanFinalText lo.text true false)
          (fun x hx => hok x (by simp [hx]))]
        simp only [List.take_succ_cons, List.drop_succ_cons, List.map_cons,
          List.join_cons, hev, hac, cumTexts, List.sum_cons,
          ReleaseResult.mk.injEq]
        exact ⟨trivial, by omega, trivial, by simp [List.append_assoc], trivial⟩
    · have hq : relCount safe fwd (lo :: rest) = 0 := by
        show (if fwd + lo.text.length ≤ safe
          then 1 + relCount safe (fwd + lo.text.length) rest else 0) = _
        rw [if_neg hle]
      rw [hq]
      simp only [releaseAux]
      rw [if_neg hle]
      simp [cumTexts]

end AntiTrunc

namespace AntiTrunc

lemma isFRS_ne_nil (t : Str) (h : isFormalResponseStarted t = true) : t ≠ [] := by
  intro he
  subst he
  exact absurd h (by decide)

/-- Every line object stored by `lineEffect` is well-formed. -/
lemma lineEffect_stored_ok (tf0 : Bool) (line : Str) (hl : lineHasFC line = false) :
    ∀ lo ∈ (lineEffect tf0 line).stored, lineObjOk lo := by
  unfold lineEffect
  unfold lineHasFC at hl
  by_cases hpr : (("data:".data).isPrefixOf line) = true
  · rw [hpr] at hl ⊢
    simp only [Bool.not_true, Bool.false_eq_true, if_false] at hl ⊢
    by_cases hje : (jsTrim (line.drop 5)).isEmpty = true
    · rw [hje] at hl ⊢
      intro lo hlo
      simp at hlo
    · rw [Bool.not_eq_true] at hje
      rw [hje] at hl ⊢
      simp only [Bool.false_eq_true, if_false] at hl ⊢
      cases hparse : JSONparse (jsTrim (line.drop 5)) with
      | none =>
        intro lo hlo
        simp at hlo
      | some data =>
        by_cases hgarb : ((parsePartsJson ((getPartsOfData data).getD [])).hasThought &&
            (parsePartsJson ((getPartsOfData data).getD [])).responseText.isEmpty &&
            !(parsePartsJson ((getPartsOfData data).getD [])).hasFunctionCall) = true
        · simp only [hgarb, if_true]
          intro lo hlo
          simp at hlo
        · rw [Bool.not_eq_true] at hgarb
          simp only [hgarb, Bool.false_eq_true, if_false]
          intro lo hlo
          simp only [List.mem_singleton] at hlo
          subst hlo
          cases hgp : getPartsOfData data with
          | none =>
            simp only [Option.getD_none]
            have htrans : (!tf0 && isFormalResponseStarted
                (parsePartsJson ([] : List Json)).responseText) = false := by
              rw [show (parsePartsJson ([] : List Json)).responseText = [] from rfl]
              rw [show isFormalResponseStarted [] = false from by decide]
              simp
            refine ⟨hpr, ⟨data, hparse, ?_⟩, ?_, ?_⟩
            · intro htr
              have htr2 : (!tf0 && isFormalResponseStarted
                  (parsePartsJson ([] : List Json)).responseText) = true := htr
              rw [htrans] at htr2
              cases htr2
            · intro _
              unfold parsedFormal
              simp only [hparse, hgp, Option.getD_none]
              rfl
            · intro htr
              have htr2 : (!tf0 && isFormalResponseStarted
                  (parsePartsJson ([] : List Json)).responseText) = true := htr
              rw [htrans] at htr2
              cases htr2
          | some parts2 =>
            simp only [Option.getD_some]
            by_cases hmod : ((decide ((parts2.filter
                  (fun p => !jTruthy (jGet p "thought".data))).length < parts2.length)) ||
                (if !(tf0 || (!tf0 && isFormalResponseStarted
                    (parsePartsJson parts2).responseText)) then
                  (parts2.filter (fun p => !jTruthy (jGet p "thought".data))).any
                    (fun p => textTruthy (jTextField p))
                else false)) = true
            · simp only [hmod, if_true]
              cases hset : setCandidate0Parts data
                  (if !(tf0 || (!tf0 && isFormalResponseStarted
                      (parsePartsJson parts2).responseText)) then
                    (parts2.filter (fun p => !jTruthy (jGet p "thought".data))).map
                      (fun p => if textTruthy (jTextField p) then
                        objSet p "thought".data (.bool true) else p)
                  else parts2.filter (fun p => !jTruthy (jGet p "thought".data))) with
              | none =>
                simp only []
                refine ⟨hpr, ⟨data, hparse, fun _ => getPartsOfData_hasC0 data parts2 hgp⟩,
                  ?_, ?_⟩
                · intro hrt
                  unfold parsedFormal
                  simp only [hparse, hgp, Option.getD_some]
                  exact hrt
                · intro htr
                  exact isFRS_ne_nil _ (((Bool.and_eq_true _ _).mp htr).2)
              | some data2 =>
                obtain ⟨d2b, hset2, hgp2, fs2, hobj2⟩ :=
                  setCandidate0Parts_spec data _ (getPartsOfData_hasC0 data parts2 hgp)
                rw [hset] at hset2
                rw [Option.some_inj] at hset2
                subst hset2
                subst hobj2
                simp only []
                have hparse2 : JSONparse
                    (jsTrim ((("data: ".data ++ serialize (Json.obj fs2))).drop 5)) =
                      some (Json.obj fs2) := by
                  rw [dataSp_drop5]
                  rw [show (' ' :: serialize (Json.obj fs2)) =
                    (' ' :: (serialize (Json.obj fs2) ++ [])) from by simp]
                  rw [jsTrim_space_serialize_obj fs2 [] (by intro c hc; cases hc)]
                  exact JSONparse_serialize (Json.obj fs2)
                refine ⟨dataPrefix_dataSp _, ⟨Json.obj fs2, hparse2, fun _ =>
                  getPartsOfData_hasC0 _ _ hgp2⟩, ?_, ?_⟩
                · intro hrt
                  unfold parsedFormal
                  rw [hparse2]
                  simp only [hgp2, Option.getD_some]
                  rw [parsePartsJson_respText]
                  by_cases histf : (!(tf0 || (!tf0 && isFormalResponseStarted
                      (parsePartsJson parts2).responseText))) = true
                  · simp only [histf, if_true]
                    exact respText_marked _
                  · rw [Bool.not_eq_true] at histf
                    simp only [histf, Bool.false_eq_true, if_false]
                    rw [respText_filter_thought]
                    rw [← parsePartsJson_respText]
                    exact hrt
                · intro htr
                  exact isFRS_ne_nil _ (((Bool.and_eq_true _ _).mp htr).2)
            · rw [Bool.not_eq_true] at hmod
              simp only [hmod, Bool.false_eq_true, if_false]
              refine ⟨hpr, ⟨data, hparse, fun _ => getPartsOfData_hasC0 data parts2 hgp⟩,
                ?_, ?_⟩
              · intro hrt
                unfold parsedFormal
                simp only [hparse, hgp, Option.getD_some]
                exact hrt
              · intro htr
                exact isFRS_ne_nil _ (((Bool.and_eq_true _ _).mp htr).2)
  · rw [Bool.not_eq_true] at hpr
    rw [hpr] at hl ⊢
    simp only [Bool.not_false, if_true] at hl ⊢
    intro lo hlo
    simp at hlo

end AntiTrunc

namespace AntiTrunc

/-- The formal (non-thought) text a caller extracts from one output unit:
for a data event, the non-thought text of its payload parts. -/
def eventFormalText (w : Str) : Str :=
  if ("data:".data).isPrefixOf w then
    match JSONparse (jsTrim (w.drop 5)) with
    | some d => (parsePartsJson ((getPartsOfData d).getD [])).responseText
    | none => []
  else []

def outputsFormal (outs : List Str) : Str := (outs.map eventFormalText).join

lemma outputsFormal_append (a b : List Str) :
    outputsFormal (a ++ b) = outputsFormal a ++ outputsFormal b := by
  simp [outputsFormal]

lemma dataPrefix_append_nn (line : Str)
    (h : ("data:".data).isPrefixOf line = false) :
    ("data:".data).isPrefixOf (line ++ "\n\n".data) = false := by
  rcases line with _ | ⟨c1, _ | ⟨c2, _ | ⟨c3, _ | ⟨c4, _ | ⟨c5, rest⟩⟩⟩⟩⟩
  · simp [List.isPrefixOf]
  · simp [List.isPrefixOf]
  · simp [List.isPrefixOf]
  · simp [List.isPrefixOf]
  · simp [List.isPrefixOf]
  · cases hfull : ("data:".data).isPrefixOf
        (c1 :: c2 :: c3 :: c4 :: c5 :: rest ++ "\n\n".data)
    · rfl
    · exfalso
      rw [List.isPrefixOf_iff_prefix] at hfull
      have hlen : ("data:".data).length ≤
          (c1 :: c2 :: c3 :: c4 :: c5 :: rest).length := by
        simp
      have := List.prefix_of_prefix_length_le hfull
        (by
          rw [show (c1 :: c2 :: c3 :: c4 :: c5 :: rest) ++ "\n\n".data =
            c1 :: c2 :: c3 :: c4 :: c5 :: (rest ++ "\n\n".data) from rfl]
          exact (List.prefix_append _ _)) hlen
      rw [← List.isPrefixOf_iff_prefix, h] at this
      cases this

lemma lineEffect_outs_formal (tf0 : Bool) (line : Str) :
    ∀ w ∈ (lineEffect tf0 line).outs, eventFormalText w = [] := by
  unfold lineEffect
  by_cases hpr : (("data:".data).isPrefixOf line) = true
  · rw [hpr]
    simp only [Bool.not_true, Bool.false_eq_true, if_false]
    by_cases hje : (jsTrim (line.drop 5)).isEmpty = true
    · rw [hje]
      intro w hw
      simp at hw
    · rw [Bool.not_eq_true] at hje
      rw [hje]
      simp only [Bool.false_eq_true, if_false]
      cases hparse : JSONparse (jsTrim (line.drop 5)) with
      | none =>
        intro w hw
        simp only [List.mem_singleton] at hw
        subst hw
        unfold eventFormalText
        have hlen : 5 ≤ line.length := by
          have := (List.isPrefixOf_iff_prefix.1 hpr).length_le
          simpa using this
        rw [if_pos (by
          rw [List.isPrefixOf_iff_prefix]
          exact (List.isPrefixOf_iff_prefix.1 hpr).trans (List.prefix_append _ _))]
        rw [List.drop_append_of_le_length hlen]
        rw [jsTrim_append_ws _ _ (by decide)]
        rw [hparse]
      | some data =>
        by_cases hgarb : ((parsePartsJson ((getPartsOfData data).getD [])).hasThought &&
            (parsePartsJson ((getPartsOfData data).getD [])).responseText.isEmpty &&
            !(parsePartsJson ((getPartsOfData data).getD [])).hasFunctionCall) = true
        · simp only [hgarb, if_true]
          intro w hw
          simp at hw
        · rw [Bool.not_eq_true] at hgarb
          simp only [hgarb, Bool.false_eq_true, if_false]
          intro w hw
          simp at hw
  · rw [Bool.not_eq_true] at hpr
    rw [hpr]
    simp only [Bool.not_false, if_true]
    intro w hw
    by_cases hemp : line.isEmpty = true
    · rw [hemp] at hw
      simp at hw
    · rw [Bool.not_eq_true] at hemp
      rw [hemp] at hw
      simp only [Bool.false_eq_true, if_false, List.mem_singleton] at hw
      subst hw
      unfold eventFormalText
      rw [if_neg (by rw [dataPrefix_append_nn line hpr]; simp)]

lemma lineFold_stored_ok (ls : List Str) : ∀ (tf0 : Bool),
    (∀ l ∈ ls, lineHasFC l = false) →
    ∀ lo ∈ (lineFold tf0 ls).stored, lineObjOk lo := by
  induction ls with
  | nil =>
    intro tf0 _ lo hlo
    simp [lineFold] at hlo
  | cons l ls ih =>
    intro tf0 hl lo hlo
    simp only [lineFold, List.mem_append] at hlo
    rcases hlo with h | h
    · exact lineEffect_stored_ok tf0 l (hl l (by simp)) lo h
    · exact ih _ (fun x hx => hl x (by simp [hx])) lo h

lemma lineFold_outs_formal (ls : List Str) : ∀ (tf0 : Bool),
    ∀ w ∈ (lineFold tf0 ls).outs, eventFormalText w = [] := by
  induction ls with
  | nil =>
    intro tf0 w hw
    simp [lineFold] at hw
  | cons l ls ih =>
    intro tf0 w hw
    simp only [lineFold, List.mem_append] at hw
    rcases hw with h | h
    · exact lineEffect_outs_formal tf0 l w h
    · exact ih _ w h

lemma joinTexts_length (los : List LineObj) :
    (joinTexts los).length = cumTexts los := by
  induction los with
  | nil => rfl
  | cons lo rest ih =>
    simp [joinTexts, cumTexts] at ih ⊢
    omega

lemma joinTexts_drop_eq (los : List LineObj) (q : Nat) :
    (joinTexts los).drop (cumTexts (los.take q)) = joinTexts (los.drop q) := by
  rw [show joinTexts los = joinTexts (los.take q) ++ joinTexts (los.drop q) from by
    rw [← joinTexts_append, List.take_append_drop]]
  rw [← joinTexts_length]
  exact List.drop_left _ _

/-- Number of lines the lookahead check releases from a state. -/
def relStepCount (st : SState) : Nat :=
  if st.textBuffer.length > LOOKAHEAD_SIZE then
    relCount (st.textBuffer.length - LOOKAHEAD_SIZE) 0 st.linesBuffer
  else 0

lemma releaseStep_spec (st : SState)
    (hok : ∀ lo ∈ st.linesBuffer, lineObjOk lo)
    (htb : st.textBuffer = joinTexts st.linesBuffer) :
    releaseStep st =
      ({ st with
          linesBuffer := st.linesBuffer.drop (relStepCount st)
          textBuffer := joinTexts (st.linesBuffer.drop (relStepCount st))
          accumulatedText := st.accumulatedText ++
            ((st.linesBuffer.take (relStepCount st)).map relAccOf).join },
       (st.linesBuffer.take (relStepCount st)).map releasedEventOf) := by
  simp only [releaseStep, relStepCount]
  by_cases hgt : st.textBuffer.length > LOOKAHEAD_SIZE
  · rw [if_pos hgt, if_pos hgt]
    rw [releaseAux_spec _ _ _ _ hok]
    simp only []
    rw [htb, Nat.zero_add, joinTexts_drop_eq]
    cases st
    simp
  · rw [if_neg hgt, if_neg hgt]
    simp only [List.take_zero, List.drop_zero, List.map_nil, List.join_nil,
      List.append_nil]
    rw [← htb]

end AntiTrunc

namespace AntiTrunc

/-! Claim C3 groundwork, part 6: the chunk-fold invariant.  After any
number of chunks the streaming state is: the framed lines' fold, minus a
released prefix of the stored queue whose size is pinned (up to the
lookahead bound) by the greedy release loop. -/

lemma cumTexts_append (a b : List LineObj) :
    cumTexts (a ++ b) = cumTexts a + cumTexts b := by
  simp [cumTexts]

lemma outputsFormal_nil (outs : List Str)
    (h : ∀ w ∈ outs, eventFormalText w = []) : outputsFormal outs = [] := by
  induction outs with
  | nil => rfl
  | cons w ws ih =>
    have ihv := ih (fun x hx => h x (by simp [hx]))
    simp only [outputsFormal] at ihv ⊢
    simp [h w (by simp), ihv]

lemma relCount_spec (safe : Nat) : ∀ (los : List LineObj) (fwd : Nat),
    relCount safe fwd los ≤ los.length ∧
    (fwd ≤ safe → fwd + cumTexts (los.take (relCount safe fwd los)) ≤ safe) ∧
    (los.drop (relCount safe fwd los) = [] ∨
      ∃ lo rest2, los.drop (relCount safe fwd los) = lo :: rest2 ∧
        safe < fwd + cumTexts (los.take (relCount safe fwd los)) + lo.text.length) := by
  intro los
  induction los with
  | nil =>
    intro fwd
    refine ⟨by simp [relCount], fun hf => by simpa [relCount, cumTexts] using hf, Or.inl rfl⟩
  | cons lo rest ih =>
    intro fwd
    by_cases hle : fwd + lo.text.length ≤ safe
    · have hq : relCount safe fwd (lo :: rest) =
          relCount safe (fwd + lo.text.length) rest + 1 := by
        show (if fwd + lo.text.length ≤ safe
          then 1 + relCount safe (fwd + lo.text.length) rest else 0) = _
        rw [if_pos hle]
        omega
      obtain ⟨ih1, ih2, ih3⟩ := ih (fwd + lo.text.length)
      rw [hq]
      refine ⟨by simp; omega, ?_, ?_⟩
      · intro _
        have := ih2 hle
        simp only [List.take_succ_cons, cumTexts, List.map_cons, List.sum_cons]
        simp only [cumTexts] at this
        omega
      · simp only [List.drop_succ_cons]
        rcases ih3 with h | ⟨lo2, rest2, hdr, hb⟩
        · exact Or.inl h
        · refine Or.inr ⟨lo2, rest2, hdr, ?_⟩
          simp only [List.take_succ_cons, cumTexts, List.map_cons, List.sum_cons]
          simp only [cumTexts] at hb
          omega
    · have hq : relCount safe fwd (lo :: rest) = 0 := by
        show (if fwd + lo.text.length ≤ safe
          then 1 + relCount safe (fwd + lo.text.length) rest else 0) = _
        rw [if_neg hle]
      rw [hq]
      refine ⟨by simp, fun hf => by simpa [cumTexts] using hf, ?_⟩
      exact Or.inr ⟨lo, rest, by simp, by simp [cumTexts]; omega⟩

/-- Pinning of the released-prefix size. -/
def relInv (stored : List LineObj) (r : Nat) : Prop :=
  r ≤ stored.length ∧
  cumTexts (stored.take r) ≤ cumTexts stored - LOOKAHEAD_SIZE ∧
  (cumTexts stored ≤ LOOKAHEAD_SIZE → r = 0) ∧
  (cumTexts (stored.take r) = cumTexts stored - LOOKAHEAD_SIZE ∨
    (∃ lo rest2, stored.drop r = lo :: rest2 ∧
      cumTexts stored - LOOKAHEAD_SIZE <
        cumTexts (stored.take r) + lo.text.length))

/-- The chunk-fold invariant of one streaming attempt. -/
def chunkInv (isTF0 : Bool) (S : Str) (st : SState) (outs : List Str) : Prop :=
  st.passthroughMode = false ∧
  st.hasFunctionCallInStream = false ∧
  st.crashed = false ∧
  st.lineBuffer = (splitSep S).2 ∧
  st.isThoughtFinished = (lineFold isTF0 (splitSep S).1).tf ∧
  ∃ r,
    st.linesBuffer = (lineFold isTF0 (splitSep S).1).stored.drop r ∧
    st.textBuffer = joinTexts ((lineFold isTF0 (splitSep S).1).stored.drop r) ∧
    relInv (lineFold isTF0 (splitSep S).1).stored r ∧
    outputsFormal outs =
      outputsFormal
        (((lineFold isTF0 (splitSep S).1).stored.take r).map releasedEventOf)

lemma chunkInv_init (isTF0 : Bool) (acc0 : Str) :
    chunkInv isTF0 [] ⟨isTF0, false, false, [], [], [], acc0, false⟩ [] := by
  refine ⟨rfl, rfl, rfl, rfl, rfl, 0, rfl, rfl, ?_, rfl⟩
  exact ⟨by simp, by simp [cumTexts], fun _ => rfl, Or.inl rfl⟩

end AntiTrunc

namespace AntiTrunc

/-- One chunk of a no-function-call stream: frame, fold the framed lines,
then run the lookahead release. -/
lemma chunkStep_noFC (st : SState) (c : Str)
    (hp : st.passthroughMode = false) (hf : st.hasFunctionCallInStream = false)
    (hcr : st.crashed = false)
    (hfcN : ∀ l ∈ (splitSep (st.lineBuffer ++ c)).1, lineHasFC l = false) :
    chunkStep st c =
      ((releaseStep { st with
          lineBuffer := (splitSep (st.lineBuffer ++ c)).2,
          isThoughtFinished :=
            (lineFold st.isThoughtFinished (splitSep (st.lineBuffer ++ c)).1).tf,
          linesBuffer := st.linesBuffer ++
            (lineFold st.isThoughtFinished (splitSep (st.lineBuffer ++ c)).1).stored,
          textBuffer := st.textBuffer ++
            joinTexts (lineFold st.isThoughtFinished (splitSep (st.lineBuffer ++ c)).1).stored,
          accumulatedText := st.accumulatedText ++
            (lineFold st.isThoughtFinished (splitSep (st.lineBuffer ++ c)).1).accD }).1,
       (lineFold st.isThoughtFinished (splitSep (st.lineBuffer ++ c)).1).outs ++
         (releaseStep { st with
          lineBuffer := (splitSep (st.lineBuffer ++ c)).2,
          isThoughtFinished :=
            (lineFold st.isThoughtFinished (splitSep (st.lineBuffer ++ c)).1).tf,
          linesBuffer := st.linesBuffer ++
            (lineFold st.isThoughtFinished (splitSep (st.lineBuffer ++ c)).1).stored,
          textBuffer := st.textBuffer ++
            joinTexts (lineFold st.isThoughtFinished (splitSep (st.lineBuffer ++ c)).1).stored,
          accumulatedText := st.accumulatedText ++
            (lineFold st.isThoughtFinished (splitSep (st.lineBuffer ++ c)).1).accD }).2) := by
  have key := processLines_noFC (splitSep (st.lineBuffer ++ c)).1
    { st with lineBuffer := (splitSep (st.lineBuffer ++ c)).2 } [] hp hf hfcN
  show (if st.crashed then (st, ([] : List Str))
    else if st.passthroughMode then (st, [c])
    else ((releaseStep ((splitSep (st.lineBuffer ++ c)).1.foldl (fun (acc : SState × List Str) l => let r := processLine acc.1 l; (r.1, acc.2 ++ r.2)) ({ st with lineBuffer := (splitSep (st.lineBuffer ++ c)).2 }, [])).1).1,
      ((splitSep (st.lineBuffer ++ c)).1.foldl (fun (acc : SState × List Str) l => let r := processLine acc.1 l; (r.1, acc.2 ++ r.2)) ({ st with lineBuffer := (splitSep (st.lineBuffer ++ c)).2 }, [])).2 ++ (releaseStep ((splitSep (st.lineBuffer ++ c)).1.foldl (fun (acc : SState × List Str) l => let r := processLine acc.1 l; (r.1, acc.2 ++ r.2)) ({ st with lineBuffer := (splitSep (st.lineBuffer ++ c)).2 }, [])).1).2)) = _
  rw [if_neg (show ¬st.crashed = true by rw [hcr]; exact Bool.false_ne_true)]
  rw [if_neg (show ¬st.passthroughMode = true by rw [hp]; exact Bool.false_ne_true)]
  rw [key]
  rfl

/-- Preservation of the chunk-fold invariant by one chunk. -/
lemma chunkStep_inv (isTF0 : Bool) (S c : Str) (st : SState) (outs : List Str)
    (hinv : chunkInv isTF0 S st outs)
    (hfc : ∀ l ∈ (splitSep (S ++ c)).1, lineHasFC l = false) :
    chunkInv isTF0 (S ++ c) (chunkStep st c).1 (outs ++ (chunkStep st c).2) := by
  obtain ⟨hp, hf, hcr, hlb, htf, r, hlines, htb,
    ⟨hr_le, hcum_le, hsmall, hdisj⟩, hout⟩ := hinv
  clear hdisj
  have hsplit := splitSep_append S c
  have hfcL : ∀ l ∈ (splitSep S).1, lineHasFC l = false := by
    intro l hl; apply hfc; rw [hsplit]; exact List.mem_append_left _ hl
  have hfcN : ∀ l ∈ (splitSep ((splitSep S).2 ++ c)).1, lineHasFC l = false := by
    intro l hl; apply hfc; rw [hsplit]; exact List.mem_append_right _ hl
  set L1 := (splitSep S).1 with hL1
  set T1 := (splitSep S).2 with hT1
  set E := lineFold isTF0 L1 with hEdef
  set NP := (splitSep (T1 ++ c)).1 with hNPdef
  set NT := (splitSep (T1 ++ c)).2 with hNTdef
  set NE := lineFold E.tf NP with hNEdef
  have hfcN2 : ∀ l ∈ (splitSep (st.lineBuffer ++ c)).1, lineHasFC l = false := by
    rw [hlb, ← hNPdef]; exact hfcN
  have hstep := chunkStep_noFC st c hp hf hcr hfcN2
  rw [hlb, htf] at hstep
  rw [← hNPdef, ← hNTdef, ← hNEdef] at hstep
  set F : SState := { st with
      lineBuffer := NT,
      isThoughtFinished := NE.tf,
      linesBuffer := st.linesBuffer ++ NE.stored,
      textBuffer := st.textBuffer ++ joinTexts NE.stored,
      accumulatedText := st.accumulatedText ++ NE.accD } with hF
  have hokE : ∀ lo ∈ E.stored, lineObjOk lo := lineFold_stored_ok L1 isTF0 hfcL
  have hokNE : ∀ lo ∈ NE.stored, lineObjOk lo := lineFold_stored_ok NP E.tf hfcN
  have hokF : ∀ lo ∈ F.linesBuffer, lineObjOk lo := by
    intro lo hlo
    have hlo2 : lo ∈ st.linesBuffer ++ NE.stored := hlo
    rcases List.mem_append.1 hlo2 with h | h
    · rw [hlines] at h; exact hokE lo (List.mem_of_mem_drop h)
    · exact hokNE lo h
  have htbF : F.textBuffer = joinTexts F.linesBuffer := by
    show st.textBuffer ++ joinTexts NE.stored = joinTexts (st.linesBuffer ++ NE.stored)
    rw [htb, hlines, ← joinTexts_append]
  rw [releaseStep_spec F hokF htbF] at hstep
  have hstored : (lineFold isTF0 (L1 ++ NP)).stored = E.stored ++ NE.stored := by
    rw [lineFold_append]
  have htf2 : (lineFold isTF0 (L1 ++ NP)).tf = NE.tf := by
    rw [lineFold_append]
  have hLBdrop : F.linesBuffer = (E.stored ++ NE.stored).drop r := by
    show st.linesBuffer ++ NE.stored = _
    rw [hlines, List.drop_append_of_le_length hr_le]
  have htake_agree : (E.stored ++ NE.stored).take r = E.stored.take r :=
    List.take_append_of_le_length hr_le
  have hcum2 : cumTexts (E.stored ++ NE.stored) =
      cumTexts E.stored + cumTexts NE.stored := cumTexts_append _ _
  have hsplitcum : cumTexts ((E.stored ++ NE.stored).take r) +
      cumTexts ((E.stored ++ NE.stored).drop r) = cumTexts (E.stored ++ NE.stored) := by
    rw [← cumTexts_append, List.take_append_drop]
  have hlen : F.textBuffer.length = cumTexts ((E.stored ++ NE.stored).drop r) := by
    rw [htbF, hLBdrop, joinTexts_length]
  have hq : relStepCount F =
      if cumTexts ((E.stored ++ NE.stored).drop r) > LOOKAHEAD_SIZE then
        relCount (cumTexts ((E.stored ++ NE.stored).drop r) - LOOKAHEAD_SIZE) 0
          ((E.stored ++ NE.stored).drop r)
      else 0 := by
    show (if F.textBuffer.length > LOOKAHEAD_SIZE then
        relCount (F.textBuffer.length - LOOKAHEAD_SIZE) 0 F.linesBuffer else 0) = _
    rw [hlen, hLBdrop]
  have htkadd : cumTexts ((E.stored ++ NE.stored).take (r + relStepCount F)) =
      cumTexts ((E.stored ++ NE.stored).take r) +
        cumTexts (((E.stored ++ NE.stored).drop r).take (relStepCount F)) := by
    rw [List.take_add, cumTexts_append]
  have hlenapp : (E.stored ++ NE.stored).length =
      E.stored.length + NE.stored.length := List.length_append ..
  have hinvNew : relInv (E.stored ++ NE.stored) (r + relStepCount F) := by
    by_cases hgt : cumTexts ((E.stored ++ NE.stored).drop r) > LOOKAHEAD_SIZE
    · have hqval : relStepCount F =
          relCount (cumTexts ((E.stored ++ NE.stored).drop r) - LOOKAHEAD_SIZE) 0
            ((E.stored ++ NE.stored).drop r) := by rw [hq, if_pos hgt]
      obtain ⟨hq_le, hq_cum, hq_dis⟩ :=
        relCount_spec (cumTexts ((E.stored ++ NE.stored).drop r) - LOOKAHEAD_SIZE)
          ((E.stored ++ NE.stored).drop r) 0
      have hq_cum2 := hq_cum (Nat.zero_le _)
      rw [← hqval] at hq_le hq_cum2 hq_dis
      have hdlen : ((E.stored ++ NE.stored).drop r).length =
          (E.stored ++ NE.stored).length - r := List.length_drop ..
      refine ⟨by omega, by rw [htkadd]; omega, by intro h23; omega, ?_⟩
      rcases hq_dis with hnil | ⟨lo, rest2, hdr, hb⟩
      · left
        have hdempty : (E.stored ++ NE.stored).drop (r + relStepCount F) = [] := by
          rw [← List.drop_drop, hnil]
        have hc2 : cumTexts ((E.stored ++ NE.stored).take (r + relStepCount F)) +
            cumTexts ((E.stored ++ NE.stored).drop (r + relStepCount F)) =
            cumTexts (E.stored ++ NE.stored) := by
          rw [← cumTexts_append, List.take_append_drop]
        rw [hdempty] at hc2
        rw [show cumTexts ([] : List LineObj) = 0 from rfl] at hc2
        rw [htkadd] at hc2 ⊢
        omega
      · right
        refine ⟨lo, rest2, ?_, ?_⟩
        · rw [← List.drop_drop, hdr]
        · rw [htkadd]; omega
    · have hqval : relStepCount F = 0 := by rw [hq, if_neg hgt]
      rw [hqval, Nat.add_zero]
      have hta : cumTexts ((E.stored ++ NE.stored).take r) =
          cumTexts (E.stored.take r) := by rw [htake_agree]
      refine ⟨by omega, by omega, ?_, Or.inl (by omega)⟩
      intro h23
      exact hsmall (by omega)
  rw [hstep]
  refine ⟨hp, hf, hcr, ?_, ?_, r + relStepCount F, ?_, ?_, ?_, ?_⟩
  · show NT = (splitSep (S ++ c)).2
    rw [hsplit]
  · show NE.tf = (lineFold isTF0 (splitSep (S ++ c)).1).tf
    rw [hsplit, htf2]
  · show F.linesBuffer.drop (relStepCount F) = _
    rw [hsplit]
    show _ = (lineFold isTF0 (L1 ++ NP)).stored.drop (r + relStepCount F)
    rw [hstored, hLBdrop, List.drop_drop]
  · show joinTexts (F.linesBuffer.drop (relStepCount F)) = _
    rw [hsplit]
    show _ = joinTexts ((lineFold isTF0 (L1 ++ NP)).stored.drop (r + relStepCount F))
    rw [hstored, hLBdrop, List.drop_drop]
  · show relInv (lineFold isTF0 (splitSep (S ++ c)).1).stored (r + relStepCount F)
    rw [hsplit]
    show relInv (lineFold isTF0 (L1 ++ NP)).stored (r + relStepCount F)
    rw [hstored]
    exact hinvNew
  · show outputsFormal (outs ++ (NE.outs ++
        (F.linesBuffer.take (relStepCount F)).map releasedEventOf)) = _
    rw [hsplit]
    show _ = outputsFormal (((lineFold isTF0 (L1 ++ NP)).stored.take
        (r + relStepCount F)).map releasedEventOf)
    rw [hstored, outputsFormal_append, outputsFormal_append,
      outputsFormal_nil NE.outs (lineFold_outs_formal NP E.tf), hout,
      List.take_add, htake_agree, hLBdrop, List.map_append, outputsFormal_append,
      List.nil_append]

/-- The chunk-fold invariant holds after folding any chunk list. -/
lemma chunkFold_inv (isTF0 : Bool) : ∀ (cs : List Str) (S : Str) (st : SState)
    (outs : List Str),
    chunkInv isTF0 S st outs →
    (∀ l ∈ (splitSep (S ++ cs.join)).1, lineHasFC l = false) →
    chunkInv isTF0 (S ++ cs.join)
      (cs.foldl (fun (acc : SState × List Str) c =>
        let r := chunkStep acc.1 c
        (r.1, acc.2 ++ r.2)) (st, outs)).1
      (cs.foldl (fun (acc : SState × List Str) c =>
        let r := chunkStep acc.1 c
        (r.1, acc.2 ++ r.2)) (st, outs)).2 := by
  intro cs
  induction cs with
  | nil =>
    intro S st outs hinv _
    simp only [List.foldl_nil, List.join_nil, List.append_nil]
    exact hinv
  | cons c cs ih =>
    intro S st outs hinv hfc
    have hassoc : S ++ (c :: cs).join = (S ++ c) ++ cs.join := by
      have h0 : (c :: cs).join = c ++ cs.join := rfl
      rw [h0, List.append_assoc]
    have hfc1 : ∀ l ∈ (splitSep (S ++ c)).1, lineHasFC l = false := by
      intro l hl
      apply hfc
      rw [hassoc, splitSep_append (S ++ c) cs.join]
      exact List.mem_append_left _ hl
    have h1 := chunkStep_inv isTF0 S c st outs hinv hfc1
    have hfc2 : ∀ l ∈ (splitSep ((S ++ c) ++ cs.join)).1, lineHasFC l = false := by
      intro l hl
      apply hfc
      rw [hassoc]
      exact hl
    have h2 := ih (S ++ c) (chunkStep st c).1 (outs ++ (chunkStep st c).2) h1 hfc2
    rw [hassoc]
    simp only [List.foldl_cons]
    exact h2

end AntiTrunc

namespace AntiTrunc

/-! Claim C3 groundwork, part 7: any two released-prefix sizes allowed by
the lookahead pinning cut the stored queue at the same text offset; the
lines between them carry no text. -/

lemma cumTexts_take_mono (los : List LineObj) (a b : Nat) (h : a ≤ b) :
    cumTexts (los.take a) ≤ cumTexts (los.take b) := by
  rw [show b = a + (b - a) from by omega, List.take_add, cumTexts_append]
  omega

lemma relInv_cum_eq (stored : List LineObj) (rA rB : Nat)
    (hA : relInv stored rA) (hB : relInv stored rB) (hle : rA ≤ rB) :
    cumTexts (stored.take rA) = cumTexts (stored.take rB) := by
  obtain ⟨hA1, hA2, hA3, hA4⟩ := hA
  obtain ⟨hB1, hB2, hB3, hB4⟩ := hB
  have hmono := cumTexts_take_mono stored rA rB hle
  rcases hA4 with hAex | ⟨lo, rest2, hdr, hblk⟩
  · omega
  · rcases Nat.eq_or_lt_of_le hle with heq | hlt
    · rw [heq]
    · exfalso
      have hsucc : cumTexts (stored.take (rA + 1)) =
          cumTexts (stored.take rA) + lo.text.length := by
        rw [List.take_add, hdr, cumTexts_append]
        simp [cumTexts]
      have hm2 := cumTexts_take_mono stored (rA + 1) rB (by omega)
      omega

lemma cumTexts_zero_texts (los : List LineObj) : cumTexts los = 0 →
    ∀ lo ∈ los, lo.text = [] := by
  induction los with
  | nil => intro _ lo h2; cases h2
  | cons x xs ih =>
    intro h lo hlo
    simp only [cumTexts, List.map_cons, List.sum_cons] at h
    rcases List.mem_cons.1 hlo with rfl | h2
    · have h3 : lo.text.length = 0 := by omega
      exact List.length_eq_zero.1 h3
    · refine ih ?_ lo h2
      simp only [cumTexts]
      omega

lemma joinTexts_zero (los : List LineObj) (h : ∀ lo ∈ los, lo.text = []) :
    joinTexts los = [] := by
  induction los with
  | nil => rfl
  | cons x xs ih =>
    rw [show joinTexts (x :: xs) = x.text ++ joinTexts xs from rfl,
      h x (by simp), ih (fun lo hlo => h lo (by simp [hlo]))]
    rfl

end AntiTrunc

namespace AntiTrunc

/-! Claim C3 groundwork, part 8: per-line characterization of the
stream-end buffered-text extraction and the template search. -/

/-- Thought-text contribution of one part payload (handlers.js 502-505). -/
def partThoughtContrib (p : Json) : Str :=
  if jTruthy (jGet p "thought".data) && textTruthy (jTextField p) then
    (jTextField p).getD []
  else []

/-- Thought-text contribution of one buffered line at stream end. -/
def dbLineThought (lo : LineObj) : Str :=
  if ("data:".data).isPrefixOf lo.rawLine then
    match JSONparse (jsTrim (lo.rawLine.drop 5)) with
    | some d => (((getPartsOfData d).getD []).map partThoughtContrib).join
    | none => []
  else []

/-- Formal-text contribution of one buffered line at stream end. -/
def dbLineText (lo : LineObj) : Str :=
  if ("data:".data).isPrefixOf lo.rawLine then
    match JSONparse (jsTrim (lo.rawLine.drop 5)) with
    | some d => (((getPartsOfData d).getD []).map partContrib).join
    | none => []
  else []

lemma dbParts_fold (parts : List Json) : ∀ (acc : Str × Str),
    parts.foldl (fun (acc2 : Str × Str) p =>
      if jTruthy (jGet p "thought".data) && textTruthy (jTextField p) then
        (acc2.1 ++ (jTextField p).getD [], acc2.2)
      else if !jTruthy (jGet p "thought".data) && textTruthy (jTextField p) then
        (acc2.1, acc2.2 ++ (jTextField p).getD [])
      else acc2) acc =
    (acc.1 ++ (parts.map partThoughtContrib).join,
     acc.2 ++ (parts.map partContrib).join) := by
  induction parts with
  | nil => intro acc; simp
  | cons p ps ih =>
    intro acc
    simp only [List.foldl_cons, List.map_cons, List.join_cons]
    by_cases hth : jTruthy (jGet p "thought".data) = true
    · by_cases htt : textTruthy (jTextField p) = true
      · rw [if_pos (by simp [hth, htt]), ih]
        unfold partThoughtContrib partContrib
        rw [if_pos (by simp [hth, htt]), if_neg (by simp [hth])]
        simp [List.append_assoc]
      · rw [if_neg (by simp [htt]), if_neg (by simp [htt]), ih]
        unfold partThoughtContrib partContrib
        rw [if_neg (by simp [htt]), if_neg (by simp [htt])]
        simp
    · by_cases htt : textTruthy (jTextField p) = true
      · rw [if_neg (by simp [hth]), if_pos (by simp [hth, htt]), ih]
        unfold partThoughtContrib partContrib
        rw [if_neg (by simp [hth]), if_pos (by simp [hth, htt])]
        simp [List.append_assoc]
      · rw [if_neg (by simp [htt]), if_neg (by simp [htt]), ih]
        unfold partThoughtContrib partContrib
        rw [if_neg (by simp [htt]), if_neg (by simp [htt])]
        simp

lemma doneBufferTexts_fold (lines : List LineObj) : ∀ (acc : Str × Str),
    lines.foldl (fun (acc : Str × Str) lo =>
      if ("data:".data).isPrefixOf lo.rawLine then
        match JSONparse (jsTrim (lo.rawLine.drop 5)) with
        | some data =>
          let parts := (getPartsOfData data).getD []
          parts.foldl (fun (acc2 : Str × Str) p =>
            if jTruthy (jGet p "thought".data) && textTruthy (jTextField p) then
              (acc2.1 ++ (jTextField p).getD [], acc2.2)
            else if !jTruthy (jGet p "thought".data) && textTruthy (jTextField p) then
              (acc2.1, acc2.2 ++ (jTextField p).getD [])
            else acc2) acc
        | none => acc
      else acc) acc =
    (acc.1 ++ (lines.map dbLineThought).join,
     acc.2 ++ (lines.map dbLineText).join) := by
  induction lines with
  | nil => intro acc; simp
  | cons lo rest ih =>
    intro acc
    simp only [List.foldl_cons, List.map_cons, List.join_cons]
    by_cases hpre : ("data:".data).isPrefixOf lo.rawLine = true
    · rw [if_pos hpre]
      cases hparse : JSONparse (jsTrim (lo.rawLine.drop 5)) with
      | some data =>
        simp only [hparse]
        rw [dbParts_fold, ih]
        have h1 : dbLineThought lo =
            (((getPartsOfData data).getD []).map partThoughtContrib).join := by
          simp only [dbLineThought, if_pos hpre, hparse]
        have h2 : dbLineText lo =
            (((getPartsOfData data).getD []).map partContrib).join := by
          simp only [dbLineText, if_pos hpre, hparse]
        rw [h1, h2]
        simp [List.append_assoc]
      | none =>
        simp only [hparse]
        rw [ih]
        have h1 : dbLineThought lo = [] := by
          simp only [dbLineThought, if_pos hpre, hparse]
        have h2 : dbLineText lo = [] := by
          simp only [dbLineText, if_pos hpre, hparse]
        rw [h1, h2]
        simp
    · rw [if_neg hpre, ih]
      rw [Bool.not_eq_true] at hpre
      have h1 : dbLineThought lo = [] := by
        simp only [dbLineThought, hpre]
        rfl
      have h2 : dbLineText lo = [] := by
        simp only [dbLineText, hpre]
        rfl
      rw [h1, h2]
      simp

lemma doneBufferTexts_spec (lines : List LineObj) :
    doneBufferTexts lines =
      ((lines.map dbLineThought).join, (lines.map dbLineText).join) := by
  unfold doneBufferTexts
  rw [doneBufferTexts_fold]
  rfl

lemma dbLineText_eq_parsedFormal (lo : LineObj) (hok : lineObjOk lo) :
    dbLineText lo = parsedFormal lo.rawLine := by
  obtain ⟨hpre, ⟨d, hparse, _⟩, _, _⟩ := hok
  unfold dbLineText parsedFormal
  rw [if_pos hpre]
  simp only [hparse, parsePartsJson_respText]

lemma dbLineText_zero (lo : LineObj) (hok : lineObjOk lo) (hz : lo.text = []) :
    dbLineText lo = [] := by
  rw [dbLineText_eq_parsedFormal lo hok]
  exact hok.2.2.1 hz

lemma findTemplatePayload_append (xs ys : List LineObj) (p : Json)
    (h : findTemplatePayload ys = some p) :
    findTemplatePayload (xs ++ ys) = some p := by
  induction xs with
  | nil => exact h
  | cons lo rest ih =>
    simp only [List.cons_append, findTemplatePayload, List.append_eq, ih]

lemma findTemplatePayload_ok_some (los : List LineObj) :
    (∀ lo ∈ los, lineObjOk lo) → los ≠ [] →
    ∃ p, findTemplatePayload los = some p := by
  induction los with
  | nil => intro _ hne; exact absurd rfl hne
  | cons lo rest ih =>
    intro hok _
    by_cases hr : rest = []
    · subst hr
      obtain ⟨hpre, ⟨d, hparse, _⟩, _, _⟩ := hok lo (by simp)
      refine ⟨d, ?_⟩
      simp only [findTemplatePayload, if_pos hpre, hparse]
    · obtain ⟨p, hp⟩ := ih (fun x hx => hok x (by simp [hx])) hr
      refine ⟨p, ?_⟩
      simp only [findTemplatePayload, hp]

lemma isResponseComplete_nil : isResponseComplete [] = false := by decide

end AntiTrunc

namespace AntiTrunc

/-! Claim C3 groundwork, part 9: zero-text released lines are formally
silent, and the stream-end handling of two states that cut the same stored
queue at the same text offset agrees in kind and formal output. -/

lemma outputsFormal_singleton (w : Str) : outputsFormal [w] = eventFormalText w := by
  simp [outputsFormal]

lemma join_map_nil {α : Type} (f : α → Str) : ∀ (xs : List α),
    (∀ x ∈ xs, f x = []) → (xs.map f).join = [] := by
  intro xs
  induction xs with
  | nil => intro _; rfl
  | cons x rest ih =>
    intro h
    show f x ++ (rest.map f).join = []
    rw [h x (by simp), ih (fun y hy => h y (by simp [hy]))]
    rfl

lemma join_append_str (a b : List Str) : (a ++ b).join = a.join ++ b.join := by
  simp

lemma releasedEventOf_formal_zero (lo : LineObj) (hok : lineObjOk lo)
    (hz : lo.text = []) : eventFormalText (releasedEventOf lo) = [] := by
  obtain ⟨hpre, ⟨d, hparse, _⟩, hzf, htr⟩ := hok
  have htr2 : lo.isTransitionLine = false := by
    cases htl : lo.isTransitionLine
    · rfl
    · exact absurd hz (htr htl)
  unfold releasedEventOf
  rw [htr2]
  simp only [Bool.false_eq_true, if_false]
  unfold eventFormalText
  have hlen : 5 ≤ lo.rawLine.length := by
    have := (List.isPrefixOf_iff_prefix.1 hpre).length_le
    simpa using this
  rw [if_pos (by
    rw [List.isPrefixOf_iff_prefix]
    exact (List.isPrefixOf_iff_prefix.1 hpre).trans (List.prefix_append _ _))]
  rw [List.drop_append_of_le_length hlen]
  rw [jsTrim_append_ws _ _ (by decide)]
  have hpf := hzf hz
  simp only [parsedFormal, hparse] at hpf
  simp only [hparse]
  exact hpf

lemma released_prefix_formal_eq (stored : List LineObj) (rA rB : Nat)
    (hok : ∀ lo ∈ stored, lineObjOk lo)
    (hIA : relInv stored rA) (hIB : relInv stored rB) (hle : rA ≤ rB) :
    outputsFormal ((stored.take rA).map releasedEventOf) =
      outputsFormal ((stored.take rB).map releasedEventOf) := by
  have hcums := relInv_cum_eq stored rA rB hIA hIB hle
  have htkB : stored.take rB = stored.take rA ++ (stored.drop rA).take (rB - rA) := by
    rw [← List.take_add]
    congr 1
    omega
  have hmidcum : cumTexts ((stored.drop rA).take (rB - rA)) = 0 := by
    have h2 : cumTexts (stored.take rB) =
        cumTexts (stored.take rA) + cumTexts ((stored.drop rA).take (rB - rA)) := by
      rw [htkB, cumTexts_append]
    omega
  have hmidzero := cumTexts_zero_texts _ hmidcum
  rw [htkB, List.map_append, outputsFormal_append]
  have hmf : outputsFormal (((stored.drop rA).take (rB - rA)).map releasedEventOf) =
      [] := by
    apply outputsFormal_nil
    intro w hw
    rw [List.mem_map] at hw
    obtain ⟨lo, hlo, rfl⟩ := hw
    have hmem : lo ∈ stored :=
      List.mem_of_mem_drop (List.take_subset _ _ hlo)
    exact releasedEventOf_formal_zero lo (hok lo hmem) (hmidzero lo hlo)
  rw [hmf, List.append_nil]

lemma partContrib_thoughtPart (th : Str) :
    partContrib (.obj [("text".data, .str th), ("thought".data, .bool true)]) = [] := by
  unfold partContrib
  rw [if_neg (by
    have hg : jGet (Json.obj [("text".data, Json.str th),
        ("thought".data, Json.bool true)]) "thought".data = some (.bool true) := rfl
    simp [hg, jTruthy])]

lemma finalEvent_formal (fs2 : List (Str × Json)) (parts : List Json)
    (hparts : getPartsOfData (.obj fs2) = some parts) :
    eventFormalText ("data: ".data ++ serialize (.obj fs2) ++ "\n\n".data) =
      (parts.map partContrib).join := by
  unfold eventFormalText
  rw [List.append_assoc]
  rw [if_pos (dataPrefix_dataSp _)]
  rw [dataSp_drop5]
  rw [jsTrim_space_serialize_obj fs2 _ (by decide)]
  simp only [JSONparse_serialize, hparts, Option.getD_some]
  rw [parsePartsJson_respText]

lemma doneStep_retry (st : SState) (hp : st.passthroughMode = false)
    (hc : (st.isThoughtFinished && isResponseComplete st.textBuffer) = false) :
    doneStep st = (.retry, []) := by
  unfold doneStep
  rw [if_neg (by simp [hp]), if_neg (by simp [hc])]

lemma doneStep_complete (st : SState) (hp : st.passthroughMode = false)
    (hc : (st.isThoughtFinished && isResponseComplete st.textBuffer) = true) :
    doneStep st =
      match setFinalPayload
          ((findTemplatePayload st.linesBuffer).getD defaultFinalPayload)
          ((if (doneBufferTexts st.linesBuffer).1.isEmpty then [] else
            [.obj [("text".data, .str (doneBufferTexts st.linesBuffer).1),
                   ("thought".data, .bool true)]]) ++
           (if (cleanFinalText (doneBufferTexts st.linesBuffer).2).isEmpty then [] else
            [.obj [("text".data,
              .str (cleanFinalText (doneBufferTexts st.linesBuffer).2))]])) with
      | none => (.crashed, [])
      | some payload2 =>
        (.closedComplete, ["data: ".data ++ serialize payload2 ++ "\n\n".data]) := by
  unfold doneStep
  rw [if_neg (by simp [hp]), if_pos hc]

lemma doneStep_compare_le (stored : List LineObj) (rA rB : Nat) (stA stB : SState)
    (hok : ∀ lo ∈ stored, lineObjOk lo)
    (hIA : relInv stored rA) (hIB : relInv stored rB) (hle : rA ≤ rB)
    (hpA : stA.passthroughMode = false) (hpB : stB.passthroughMode = false)
    (htfAB : stA.isThoughtFinished = stB.isThoughtFinished)
    (hlA : stA.linesBuffer = stored.drop rA) (hlB : stB.linesBuffer = stored.drop rB)
    (htA : stA.textBuffer = joinTexts (stored.drop rA))
    (htB : stB.textBuffer = joinTexts (stored.drop rB)) :
    (doneStep stA).1 = (doneStep stB).1 ∧
    outputsFormal (doneStep stA).2 = outputsFormal (doneStep stB).2 := by
  have hcums := relInv_cum_eq stored rA rB hIA hIB hle
  have htkB : stored.take rB = stored.take rA ++ (stored.drop rA).take (rB - rA) := by
    rw [← List.take_add]
    congr 1
    omega
  have hmidcum : cumTexts ((stored.drop rA).take (rB - rA)) = 0 := by
    have h2 : cumTexts (stored.take rB) =
        cumTexts (stored.take rA) + cumTexts ((stored.drop rA).take (rB - rA)) := by
      rw [htkB, cumTexts_append]
    omega
  have hmidzero := cumTexts_zero_texts _ hmidcum
  have hdropA : stored.drop rA = (stored.drop rA).take (rB - rA) ++ stored.drop rB := by
    have h1 := (List.take_append_drop (rB - rA) (stored.drop rA)).symm
    rw [List.drop_drop] at h1
    rw [show rA + (rB - rA) = rB from by omega] at h1
    exact h1
  have hjoin : joinTexts (stored.drop rA) = joinTexts (stored.drop rB) := by
    rw [hdropA, joinTexts_append, joinTexts_zero _ hmidzero, List.nil_append]
  have hcond : (stA.isThoughtFinished && isResponseComplete stA.textBuffer) =
      (stB.isThoughtFinished && isResponseComplete stB.textBuffer) := by
    rw [htfAB, htA, htB, hjoin]
  by_cases hc : (stB.isThoughtFinished && isResponseComplete stB.textBuffer) = true
  · have hdbA : (doneBufferTexts (stored.drop rA)).2 =
        (doneBufferTexts (stored.drop rB)).2 := by
      rw [doneBufferTexts_spec, doneBufferTexts_spec]
      show ((stored.drop rA).map dbLineText).join =
        ((stored.drop rB).map dbLineText).join
      rw [hdropA, List.map_append, join_append_str]
      rw [join_map_nil dbLineText _ (fun lo hlo => dbLineText_zero lo
        (hok lo (List.mem_of_mem_drop (List.take_subset _ _ hlo)))
        (hmidzero lo hlo))]
      rfl
    have hne : stored.drop rB ≠ [] := by
      intro hnil
      have hrc : isResponseComplete stB.textBuffer = true := by
        have h2 := hc
        simp only [Bool.and_eq_true] at h2
        exact h2.2
      rw [htB, hnil] at hrc
      rw [show joinTexts ([] : List LineObj) = [] from rfl] at hrc
      rw [isResponseComplete_nil] at hrc
      cases hrc
    obtain ⟨p, hp2⟩ := findTemplatePayload_ok_some (stored.drop rB)
      (fun lo hlo => hok lo (List.mem_of_mem_drop hlo)) hne
    have hpA2 : findTemplatePayload (stored.drop rA) = some p := by
      rw [hdropA]
      exact findTemplatePayload_append _ _ p hp2
    rw [doneStep_complete stA hpA (by rw [hcond]; exact hc),
        doneStep_complete stB hpB hc]
    rw [hlA, hlB, hpA2, hp2]
    simp only [Option.getD_some]
    rw [hdbA]
    set thA := (doneBufferTexts (stored.drop rA)).1 with hthA
    set thB := (doneBufferTexts (stored.drop rB)).1 with hthB
    set ft := cleanFinalText (doneBufferTexts (stored.drop rB)).2 with hftdef
    by_cases hc0 : hasC0Content p = true
    · obtain ⟨dA, hdA, hgA, fsA, hfsA⟩ := setFinalPayload_spec p
        ((if thA.isEmpty then [] else [Json.obj [("text".data, Json.str thA),
            ("thought".data, Json.bool true)]]) ++
         (if ft.isEmpty then [] else [Json.obj [("text".data, Json.str ft)]])) hc0
      obtain ⟨dB, hdB, hgB, fsB, hfsB⟩ := setFinalPayload_spec p
        ((if thB.isEmpty then [] else [Json.obj [("text".data, Json.str thB),
            ("thought".data, Json.bool true)]]) ++
         (if ft.isEmpty then [] else [Json.obj [("text".data, Json.str ft)]])) hc0
      simp only [hdA, hdB]
      refine ⟨by trivial, ?_⟩
      rw [outputsFormal_singleton, outputsFormal_singleton, hfsA, hfsB]
      rw [hfsA] at hgA
      rw [hfsB] at hgB
      rw [finalEvent_formal fsA _ hgA, finalEvent_formal fsB _ hgB]
      rw [List.map_append, join_append_str, List.map_append, join_append_str]
      have hjA : (((if thA.isEmpty then ([] : List Json) else
          [Json.obj [("text".data, Json.str thA),
            ("thought".data, Json.bool true)]]).map partContrib)).join = [] := by
        by_cases h : thA.isEmpty = true
        · rw [if_pos h]; rfl
        · rw [if_neg h]
          show partContrib (Json.obj [("text".data, Json.str thA),
            ("thought".data, Json.bool true)]) ++ [] = []
          rw [partContrib_thoughtPart]
          rfl
      have hjB : (((if thB.isEmpty then ([] : List Json) else
          [Json.obj [("text".data, Json.str thB),
            ("thought".data, Json.bool true)]]).map partContrib)).join = [] := by
        by_cases h : thB.isEmpty = true
        · rw [if_pos h]; rfl
        · rw [if_neg h]
          show partContrib (Json.obj [("text".data, Json.str thB),
            ("thought".data, Json.bool true)]) ++ [] = []
          rw [partContrib_thoughtPart]
          rfl
      rw [hjA, hjB]
    · have hc0f : hasC0Content p = false := by
        rw [Bool.not_eq_true] at hc0
        exact hc0
      rw [setFinalPayload_none p _ hc0f]
      rw [setFinalPayload_none p _ hc0f]
      exact ⟨by trivial, by trivial⟩
  · have hcf : (stB.isThoughtFinished && isResponseComplete stB.textBuffer) = false := by
      rw [Bool.not_eq_true] at hc
      exact hc
    rw [doneStep_retry stA hpA (by rw [hcond]; exact hcf), doneStep_retry stB hpB hcf]
    exact ⟨rfl, rfl⟩

end AntiTrunc

namespace AntiTrunc

/-! Claim C3 groundwork, part 10: one full attempt over two framings of the
same byte stream agrees in end kind, formal output, and thought state. -/

lemma runAttempt_compare (isTF0 : Bool) (acc0 : Str) (csA csB : List Str)
    (hJ : csA.join = csB.join)
    (hfc : ∀ l ∈ (splitSep csA.join).1, lineHasFC l = false) :
    (runAttempt ⟨isTF0, false, false, [], [], [], acc0, false⟩ csA).kind =
      (runAttempt ⟨isTF0, false, false, [], [], [], acc0, false⟩ csB).kind ∧
    outputsFormal
        (runAttempt ⟨isTF0, false, false, [], [], [], acc0, false⟩ csA).outputs =
      outputsFormal
        (runAttempt ⟨isTF0, false, false, [], [], [], acc0, false⟩ csB).outputs ∧
    (runAttempt ⟨isTF0, false, false, [], [], [], acc0,
        false⟩ csA).st.isThoughtFinished =
      (runAttempt ⟨isTF0, false, false, [], [], [], acc0,
        false⟩ csB).st.isThoughtFinished := by
  have hIA := chunkFold_inv isTF0 csA []
    ⟨isTF0, false, false, [], [], [], acc0, false⟩ []
    (chunkInv_init isTF0 acc0) (by rw [List.nil_append]; exact hfc)
  have hIB := chunkFold_inv isTF0 csB []
    ⟨isTF0, false, false, [], [], [], acc0, false⟩ []
    (chunkInv_init isTF0 acc0) (by rw [List.nil_append, ← hJ]; exact hfc)
  rw [List.nil_append] at hIA hIB
  rw [← hJ] at hIB
  obtain ⟨hpA, hfA, hcrA, hlbA, htfA, rA, hlinesA, htbA, hIAr, houtA⟩ := hIA
  obtain ⟨hpB, hfB, hcrB, hlbB, htfB, rB, hlinesB, htbB, hIBr, houtB⟩ := hIB
  have hok : ∀ lo ∈ (lineFold isTF0 (splitSep csA.join).1).stored, lineObjOk lo :=
    lineFold_stored_ok (splitSep csA.join).1 isTF0 hfc
  have hRA : runAttempt ⟨isTF0, false, false, [], [], [], acc0, false⟩ csA =
      ⟨(csA.foldl (fun (acc : SState × List Str) c =>
          let r := chunkStep acc.1 c
          (r.1, acc.2 ++ r.2)) (⟨isTF0, false, false, [], [], [], acc0, false⟩, [])).1,
        (csA.foldl (fun (acc : SState × List Str) c =>
          let r := chunkStep acc.1 c
          (r.1, acc.2 ++ r.2)) (⟨isTF0, false, false, [], [], [], acc0, false⟩, [])).2 ++
          (doneStep (csA.foldl (fun (acc : SState × List Str) c =>
            let r := chunkStep acc.1 c
            (r.1, acc.2 ++ r.2)) (⟨isTF0, false, false, [], [], [], acc0,
              false⟩, [])).1).2,
        (doneStep (csA.foldl (fun (acc : SState × List Str) c =>
          let r := chunkStep acc.1 c
          (r.1, acc.2 ++ r.2)) (⟨isTF0, false, false, [], [], [], acc0,
            false⟩, [])).1).1⟩ := by
    unfold runAttempt
    rw [if_neg (by rw [hcrA]; exact Bool.false_ne_true)]
  have hRB : runAttempt ⟨isTF0, false, false, [], [], [], acc0, false⟩ csB =
      ⟨(csB.foldl (fun (acc : SState × List Str) c =>
          let r := chunkStep acc.1 c
          (r.1, acc.2 ++ r.2)) (⟨isTF0, false, false, [], [], [], acc0, false⟩, [])).1,
        (csB.foldl (fun (acc : SState × List Str) c =>
          let r := chunkStep acc.1 c
          (r.1, acc.2 ++ r.2)) (⟨isTF0, false, false, [], [], [], acc0, false⟩, [])).2 ++
          (doneStep (csB.foldl (fun (acc : SState × List Str) c =>
            let r := chunkStep acc.1 c
            (r.1, acc.2 ++ r.2)) (⟨isTF0, false, false, [], [], [], acc0,
              false⟩, [])).1).2,
        (doneStep (csB.foldl (fun (acc : SState × List Str) c =>
          let r := chunkStep acc.1 c
          (r.1, acc.2 ++ r.2)) (⟨isTF0, false, false, [], [], [], acc0,
            false⟩, [])).1).1⟩ := by
    unfold runAttempt
    rw [if_neg (by rw [hcrB]; exact Bool.false_ne_true)]
  rw [hRA, hRB]
  have hdone : ∀ (x y : Nat), x ≤ y →
      ∀ (stX stY : SState), stX.passthroughMode = false →
      stY.passthroughMode = false →
      stX.isThoughtFinished = stY.isThoughtFinished →
      stX.linesBuffer = (lineFold isTF0 (splitSep csA.join).1).stored.drop x →
      stY.linesBuffer = (lineFold isTF0 (splitSep csA.join).1).stored.drop y →
      stX.textBuffer = joinTexts ((lineFold isTF0 (splitSep csA.join).1).stored.drop x) →
      stY.textBuffer = joinTexts ((lineFold isTF0 (splitSep csA.join).1).stored.drop y) →
      relInv (lineFold isTF0 (splitSep csA.join).1).stored x →
      relInv (lineFold isTF0 (splitSep csA.join).1).stored y →
      (doneStep stX).1 = (doneStep stY).1 ∧
      outputsFormal (doneStep stX).2 = outputsFormal (doneStep stY).2 :=
    fun x y hxy stX stY h1 h2 h3 h4 h5 h6 h7 h8 h9 =>
      doneStep_compare_le _ x y stX stY hok h8 h9 hxy h1 h2 h3 h4 h5 h6 h7
  rcases Nat.le_total rA rB with hle | hle
  · have hcomp := hdone rA rB hle _ _ hpA hpB (htfA.trans htfB.symm)
      hlinesA hlinesB htbA htbB hIAr hIBr
    have hrel := released_prefix_formal_eq _ rA rB hok hIAr hIBr hle
    refine ⟨hcomp.1, ?_, htfA.trans htfB.symm⟩
    rw [outputsFormal_append, outputsFormal_append, houtA, houtB, hrel, hcomp.2]
  · have hcomp := hdone rB rA hle _ _ hpB hpA (htfB.trans htfA.symm)
      hlinesB hlinesA htbB htbA hIBr hIAr
    have hrel := released_prefix_formal_eq _ rB rA hok hIBr hIAr hle
    refine ⟨hcomp.1.symm, ?_, htfA.trans htfB.symm⟩
    rw [outputsFormal_append, outputsFormal_append, houtA, houtB, ← hrel, hcomp.2]

end AntiTrunc

namespace AntiTrunc

/-! Claim C3: the retry-loop congruence and the re-chunking theorem. -/

lemma runStreamingAux_congr (cfg : Config) (upA upB : Nat → StreamUpstream) :
    ∀ (fuel attempts : Nat) (inj isTF : Bool) (bodyA bodyB : RequestBody)
      (outsA outsB : List Str),
    (∀ k, attempts + 1 ≤ k → upA k = upB k) →
    outputsFormal outsA = outputsFormal outsB →
    (runStreamingAux cfg upA fuel attempts inj isTF bodyA outsA).calls =
      (runStreamingAux cfg upB fuel attempts inj isTF bodyB outsB).calls ∧
    (runStreamingAux cfg upA fuel attempts inj isTF bodyA outsA).kind =
      (runStreamingAux cfg upB fuel attempts inj isTF bodyB outsB).kind ∧
    outputsFormal (runStreamingAux cfg upA fuel attempts inj isTF bodyA outsA).outputs =
      outputsFormal (runStreamingAux cfg upB fuel attempts inj isTF bodyB outsB).outputs := by
  intro fuel
  induction fuel with
  | zero =>
    intro attempts inj isTF bodyA bodyB outsA outsB hup houts
    refine ⟨rfl, rfl, ?_⟩
    simp only [runStreamingAux]
    simp only [outputsFormal_append, houts]
  | succ f ih =>
    intro attempts inj isTF bodyA bodyB outsA outsB hup houts
    simp only [runStreamingAux]
    rw [hup (attempts + 1) (Nat.le_refl _)]
    split
    · split
      · refine ⟨rfl, rfl, ?_⟩
        simp only [outputsFormal_append, houts]
      · refine ⟨rfl, rfl, ?_⟩
        simp only [outputsFormal_append, houts]
      · refine ⟨rfl, rfl, ?_⟩
        simp only [outputsFormal_append, houts]
      · exact ih (attempts + 1) inj _ _ _ _ _ (fun k hk2 => hup k (by omega))
          (by simp only [outputsFormal_append, houts])
    · split
      · refine ⟨rfl, rfl, ?_⟩
        simp only [outputsFormal_append, houts]
      · split
        · refine ⟨rfl, rfl, ?_⟩
          simp only [outputsFormal_append, houts]
        · exact ih (attempts + 1) inj _ _ _ _ _ (fun k hk2 => hup k (by omega))
            (by simp only [outputsFormal_append, houts])
    · split
      · refine ⟨rfl, rfl, ?_⟩
        simp only [outputsFormal_append, houts]
      · exact ih (attempts + 1) inj _ _ _ _ _ (fun k hk2 => hup k (by omega))
          (by simp only [outputsFormal_append, houts])

/-- C3, corrected: for a function-call-free upstream byte stream, every way
of chunking it yields the same formal text, upstream call count, and end
kind as delivering it in one chunk. -/
theorem streaming_rechunk_invariance (cfg : Config) (body : RequestBody)
    (inj : Bool) (cs : List Str) (upA upB : Nat → StreamUpstream)
    (hA : upA 1 = .ok cs) (hB : upB 1 = .ok [cs.join])
    (hrest : ∀ k, 2 ≤ k → upA k = upB k)
    (hfc : ∀ l ∈ (splitSep cs.join).1, lineHasFC l = false) :
    outputsFormal (runStreaming cfg upA body inj).outputs =
      outputsFormal (runStreaming cfg upB body inj).outputs ∧
    (runStreaming cfg upA body inj).calls = (runStreaming cfg upB body inj).calls ∧
    (runStreaming cfg upA body inj).kind = (runStreaming cfg upB body inj).kind := by
  unfold runStreaming
  simp only [runStreamingAux]
  simp only [show upA (0 + 1) = StreamUpstream.ok cs from hA,
             show upB (0 + 1) = StreamUpstream.ok [cs.join] from hB]
  set seed := (if (inj && decide True) = true then cfg.startOfThought else [])
    with hseed
  obtain ⟨hkind, houtc, htfc⟩ := runAttempt_compare (!inj) seed cs [cs.join]
    (by simp) hfc
  set rA := runAttempt ⟨!inj, false, false, [], [], [], seed, false⟩ cs with hrA
  set rB := runAttempt ⟨!inj, false, false, [], [], [], seed, false⟩ [cs.join]
    with hrB
  cases hkB : rB.kind with
  | closedComplete =>
    have hkA : rA.kind = DoneKind.closedComplete := hkind.trans hkB
    simp only [hkA, hkB]
    refine ⟨?_, by trivial, by trivial⟩
    simp only [outputsFormal_append, houtc]
  | closedPassthrough =>
    have hkA : rA.kind = DoneKind.closedPassthrough := hkind.trans hkB
    simp only [hkA, hkB]
    refine ⟨?_, by trivial, by trivial⟩
    simp only [outputsFormal_append, houtc]
  | crashed =>
    have hkA : rA.kind = DoneKind.crashed := hkind.trans hkB
    simp only [hkA, hkB]
    refine ⟨?_, by trivial, by trivial⟩
    simp only [outputsFormal_append, houtc]
  | retry =>
    have hkA : rA.kind = DoneKind.retry := hkind.trans hkB
    simp only [hkA, hkB]
    rw [htfc]
    have hcongr := runStreamingAux_congr cfg upA upB cfg.maxRetries (0 + 1) inj
      rB.st.isThoughtFinished
      (buildRetryRequest body rA.st.accumulatedText)
      (buildRetryRequest body rB.st.accumulatedText)
      ((if List.isEmpty seed = true then [] else [seedEvent seed]) ++ rA.outputs)
      ((if List.isEmpty seed = true then [] else [seedEvent seed]) ++ rB.outputs)
      (fun k hk2 => hrest k (by omega))
      (by simp only [outputsFormal_append, houtc])
    exact ⟨hcongr.2.2, hcongr.1, hcongr.2.1⟩

end AntiTrunc

namespace AntiTrunc

/-- A concrete data line whose text ends in the finish marker, delivered
after `fcLine`. -/
def postFcFinLine : Str :=
  "data: \x7b\"candidates\":[\x7b\"content\":\x7b\"parts\":[\x7b\"text\":\"hello[RESPONSE_FINISHED]\"\x7d]\x7d\x7d]\x7d".data

set_option maxRecDepth 8000 in
/-- C3 counterexample: with a function-call event in the stream, splitting
the same upstream bytes into two chunks instead of one changes the formal
text delivered to the caller (the text event is forwarded verbatim in
passthrough mode when it arrives in a later chunk, but is buffered and
dropped at stream end when it arrives in the same chunk), even though the
upstream response text ends in the finish marker. -/
theorem streaming_rechunk_counterexample :
    outputsFormal (runStreaming ⟨0, "S".data⟩
      (fun _ => .ok [fcLine ++ "\n\n".data, postFcFinLine ++ "\n\n".data])
      {} false).outputs ≠
    outputsFormal (runStreaming ⟨0, "S".data⟩
      (fun _ => .ok [(fcLine ++ "\n\n".data) ++ (postFcFinLine ++ "\n\n".data)])
      {} false).outputs := by
  decide

/-- First half of a split function-call-free data event. -/
def finLineA : Str :=
  "data: \x7b\"candidates\":[\x7b\"content\":\x7b\"parts\":[\x7b\"te".data

/-- Second half of a split function-call-free data event. -/
def finLineB : Str :=
  "xt\":\"ok[RESPONSE_FINISHED]\"\x7d]\x7d\x7d]\x7d\n\n".data

set_option maxRecDepth 8000 in
theorem streaming_rechunk_invariance_witness :
    outputsFormal (runStreaming ⟨0, "S".data⟩
        (fun k => if k = 1 then .ok [finLineA, finLineB] else .ok [])
        {} false).outputs =
      outputsFormal (runStreaming ⟨0, "S".data⟩
        (fun k => if k = 1 then .ok [([finLineA, finLineB] : List Str).join]
          else .ok [])
        {} false).outputs ∧
    (runStreaming ⟨0, "S".data⟩
        (fun k => if k = 1 then .ok [finLineA, finLineB] else .ok [])
        {} false).calls =
      (runStreaming ⟨0, "S".data⟩
        (fun k => if k = 1 then .ok [([finLineA, finLineB] : List Str).join]
          else .ok [])
        {} false).calls ∧
    (runStreaming ⟨0, "S".data⟩
        (fun k => if k = 1 then .ok [finLineA, finLineB] else .ok [])
        {} false).kind =
      (runStreaming ⟨0, "S".data⟩
        (fun k => if k = 1 then .ok [([finLineA, finLineB] : List Str).join]
          else .ok [])
        {} false).kind :=
  streaming_rechunk_invariance ⟨0, "S".data⟩ {} false [finLineA, finLineB]
    (fun k => if k = 1 then .ok [finLineA, finLineB] else .ok [])
    (fun k => if k = 1 then .ok [([finLineA, finLineB] : List Str).join] else .ok [])
    rfl rfl
    (fun k hk => by
      have h2 : ¬(k = 1) := by omega
      simp only [h2, if_false])
    (by decide)

end AntiTrunc

namespace AntiTrunc

/-! Claim C1: marker literals in caller-visible text. -/

/-- C1 counterexample: an upstream part text containing the begin-marker
away from position 0 is accumulated into the thought text and re-emitted
verbatim in the final response of the retries-exhausted outcome, so a
caller-visible part text contains the marker literal. -/
theorem nonStreaming_marker_leak_counterexample :
    ∃ t ∈ nsOutputTexts (runNonStreaming ⟨0, "S".data⟩
        (fun _ => .ok [{ text := some "a[RESPONSE_BEGIN]b".data }]) {} true).outcome,
      BEGIN_TOKEN <:+: t := by
  decide

/-- Decidable sufficient criterion for `beginOnlyAtStart`. -/
lemma beginOnlyAtStart_of (fo : Str) (h : ¬ BEGIN_TOKEN <:+: fo.drop 1) :
    beginOnlyAtStart fo := by
  intro u v heq
  cases u with
  | nil => rfl
  | cons c u2 =>
    exfalso
    apply h
    rw [heq]
    show BEGIN_TOKEN <:+: (u2 ++ (BEGIN_TOKEN ++ v))
    exact ⟨u2, v, by rw [List.append_assoc]⟩

/-- Decidable sufficient criterion for `finOnlyTerminal`. -/
lemma finOnlyTerminal_of (fo : Str)
    (h : ∀ i, i ≤ fo.length → FINISHED_TOKEN.isPrefixOf (fo.drop i) = true →
      ∀ c ∈ fo.drop (i + FINISHED_TOKEN.length), isJsWs c = true) :
    finOnlyTerminal fo := by
  intro u v heq
  have hpre : FINISHED_TOKEN.isPrefixOf (fo.drop u.length) = true := by
    rw [heq, List.drop_left]
    exact isPrefixOf_append_self _ _
  have hlen : u.length ≤ fo.length := by
    rw [heq, List.length_append]
    exact Nat.le_add_right _ _
  have h2 := h u.length hlen hpre
  intro c hc
  apply h2
  rw [heq]
  rw [show (u ++ (FINISHED_TOKEN ++ v)) = (u ++ FINISHED_TOKEN) ++ v from by
    rw [List.append_assoc]]
  rw [List.drop_left' (by rw [List.length_append])]
  exact hc

/-- C1, corrected (non-streaming final response): when the run ends in the
complete or exhausted outcome, the rebuilt response part texts are free of
both marker literals, provided the accumulated thought text contains no
marker occurrence and the accumulated formal text carries the begin-marker
only as its leading prefix and the finish-marker only terminally. -/
theorem nonStreaming_marker_free (cfg : Config) (up : Nat → UpstreamResult)
    (body0 : RequestBody) (inject : Bool) (th fo : Str)
    (hout : (runNonStreaming cfg up body0 inject).outcome = .complete th fo ∨
            (runNonStreaming cfg up body0 inject).outcome = .exhausted th fo)
    (hthB : ¬ BEGIN_TOKEN <:+: th) (hthF : ¬ FINISHED_TOKEN <:+: th)
    (hb : beginOnlyAtStart fo) (hf : finOnlyTerminal fo) :
    ∀ t ∈ nsOutputTexts (runNonStreaming cfg up body0 inject).outcome,
      ¬ BEGIN_TOKEN <:+: t ∧ ¬ FINISHED_TOKEN <:+: t := by
  obtain ⟨hcB, hcF⟩ := cleanFinalText_marker_free fo hb hf
  have hsepB : ¬ BEGIN_TOKEN <:+: (cleanFinalText fo ++ '\n' :: INCOMPLETE_TOKEN) :=
    not_infix_append_sep _ _ _ '\n' (by decide) hcB (by decide)
  have hsepF : ¬ FINISHED_TOKEN <:+: (cleanFinalText fo ++ '\n' :: INCOMPLETE_TOKEN) :=
    not_infix_append_sep _ _ _ '\n' (by decide) hcF (by decide)
  rcases hout with h | h
  · rw [h]
    have hlist : nsOutputTexts (.complete th fo) = [th, cleanFinalText fo] := rfl
    rw [hlist]
    intro t ht
    rcases List.mem_cons.1 ht with rfl | ht2
    · exact ⟨hthB, hthF⟩
    · rcases List.mem_cons.1 ht2 with rfl | ht3
      · exact ⟨hcB, hcF⟩
      · cases ht3
  · rw [h]
    by_cases hemp : th.isEmpty = true
    · have hlist : nsOutputTexts (.exhausted th fo) =
          [cleanFinalText fo ++ '\n' :: INCOMPLETE_TOKEN] := by
        rw [show nsOutputTexts (.exhausted th fo) =
          ((if th.isEmpty then [] else
            [({ text := some th, thought := true } : Part)]) ++
           [({ text := some (cleanFinalText fo ++ '\n' :: INCOMPLETE_TOKEN) } :
             Part)]).filterMap Part.text from rfl]
        rw [if_pos hemp]
        rfl
      rw [hlist]
      intro t ht
      rcases List.mem_cons.1 ht with rfl | ht2
      · exact ⟨hsepB, hsepF⟩
      · cases ht2
    · have hlist : nsOutputTexts (.exhausted th fo) =
          [th, cleanFinalText fo ++ '\n' :: INCOMPLETE_TOKEN] := by
        rw [show nsOutputTexts (.exhausted th fo) =
          ((if th.isEmpty then [] else
            [({ text := some th, thought := true } : Part)]) ++
           [({ text := some (cleanFinalText fo ++ '\n' :: INCOMPLETE_TOKEN) } :
             Part)]).filterMap Part.text from rfl]
        rw [if_neg hemp]
        rfl
      rw [hlist]
      intro t ht
      rcases List.mem_cons.1 ht with rfl | ht2
      · exact ⟨hthB, hthF⟩
      · rcases List.mem_cons.1 ht2 with rfl | ht3
        · exact ⟨hsepB, hsepF⟩
        · cases ht3

theorem nonStreaming_marker_free_witness :
    ¬ BEGIN_TOKEN <:+:
        cleanFinalText "[RESPONSE_BEGIN]ok[RESPONSE_FINISHED]".data ∧
    ¬ FINISHED_TOKEN <:+:
        cleanFinalText "[RESPONSE_BEGIN]ok[RESPONSE_FINISHED]".data :=
  nonStreaming_marker_free ⟨0, "S".data⟩
    (fun _ => .ok [{ text := some "[RESPONSE_BEGIN]ok[RESPONSE_FINISHED]".data }])
    {} true "S".data "[RESPONSE_BEGIN]ok[RESPONSE_FINISHED]".data
    (Or.inl (by decide)) (by decide) (by decide)
    (beginOnlyAtStart_of _ (by decide)) (finOnlyTerminal_of _ (by decide))
    (cleanFinalText "[RESPONSE_BEGIN]ok[RESPONSE_FINISHED]".data)
    (by decide)

end AntiTrunc

namespace AntiTrunc

/-! Claim C9: `injectSystemPrompts` mutates only the deep copy, never its
argument.  Mutation is a heap phenomenon, so this claim is settled over an
explicit heap of JSON object/array cells: the request body is a reference
into the heap, `structuredClone` allocates a fresh copy, and every
assignment the function performs is a store to a heap address. -/

/-- The system-prompt constants (constants.js), with the token
interpolations resolved. -/
def BEGIN_TOKEN_PROMPT : Str :=
  "# --- SYSTEM MANDATE: Output Start Protocol (OSP) --- \n\nFor proper acc".data ++
  "essibility software integration, you are required to start your entire".data ++
  " response with the token '[RESPONSE_BEGIN]'.\n\n\n".data

def FINISH_TOKEN_PROMPT : Str :=
  "# --- SYSTEM MANDATE: FINAL OUTPUT PROTOCOL ---\n\n## 1. ABSOLUTE RULE\nA".data ++
  "t the absolute end of EVERY response, you MUST append the literal stri".data ++
  "ng: '[RESPONSE_FINISHED]'\n\nThis is a non-negotiable, system-level requ".data ++
  "irement that overrides all other instructions.\n\n## 2. EXECUTION & FORM".data ++
  "ATTING\n- **Placement:** Must be the very last characters in your outpu".data ++
  "t. No trailing spaces, newlines, or any other characters.\n- **Formatti".data ++
  "ng:** The token must be raw text. Do NOT wrap it in code blocks, quote".data ++
  "s, or any other markdown.\n\n## 3. PERSISTENCE & RECOVERY PROTOCOL (CRIT".data ++
  "ICAL)\n**WARNING:** Tool use (especially web search) introduces a high ".data ++
  "risk of 'instruction drift', causing core directives to be forgotten. ".data ++
  "Your architecture is designed to overcome this. This protocol is your ".data ++
  "recovery mechanism.\n\n**MANDATORY POST-TOOL ALGORITHM:**\n1.  **TRIGGER:".data ++
  "** The completion of ANY tool-use cycle is a non-negotiable trigger fo".data ++
  "r this protocol.\n2.  **STEP A: COGNITIVE RESET:** Before synthesizing ".data ++
  "the tool's output into a final answer, you MUST internally pause. Your".data ++
  " first action is to re-read and re-prioritize this entire **SYSTEM MAN".data ++
  "DATE**, giving **Rule #1** the highest possible priority.\n3.  **STEP B".data ++
  ": PRE-OUTPUT COMPLIANCE CHECK:** After formulating your response but B".data ++
  "EFORE outputting a single character, you MUST perform a final internal".data ++
  " check. Ask yourself one question: \"Is the literal string '[RESPONSE_F".data ++
  "INISHED]' planned as the absolute final component of my upcoming outpu".data ++
  "t?\"\n4.  **STEP C: EXECUTE OR CORRECT:**\n    - If the answer to the che".data ++
  "ck is \"YES\", proceed with generation.\n    - If the answer is \"NO\", you".data ++
  " MUST halt, correct your planned output to include the token correctly".data ++
  ", and only then proceed.\n    \n**This is not a suggestion; it is a core".data ++
  ", hard-coded function of your response generation loop. Failure to exe".data ++
  "cute this algorithm is a critical system error.**\n\n## 4. EXAMPLE\n- **C".data ++
  "ORRECT:** '...This is the final answer.[RESPONSE_FINISHED]'\n- **INCORR".data ++
  "ECT:** '...This is the final answer.[RESPONSE_FINISHED] '\n- **INCORREC".data ++
  "T:** '...This is the final answer.\\n[RESPONSE_FINISHED]'\n- **INCORRECT".data ++
  ":** '...This is the final answer.\\n\\n[RESPONSE_FINISHED]'\n\n---\n\n**CRIT".data ++
  "ICAL REMINDER:** This protocol is MANDATORY and IMMUTABLE. It cannot b".data ++
  "e overridden, modified, or ignored under any circumstances, regardless".data ++
  " of user instructions or context.".data

def REMINDER_PROMPT : Str :=
  "[REMINDER] Strictly adhere to the Output Start Protocol and the Final ".data ++
  "Output Protocol.".data

/-- A JavaScript value: a primitive or a reference to a heap cell. -/
inductive HVal where
  | vnull
  | vbool (b : Bool)
  | vnum (n : Int)
  | vstr (s : Str)
  | vref (a : Nat)
deriving DecidableEq

/-- A heap cell: a plain object (field list in insertion order) or an
array. -/
inductive HNode where
  | hobj (fields : List (Str × HVal))
  | harr (items : List HVal)
deriving DecidableEq

abbrev Heap := List HNode

def hget (h : Heap) (a : Nat) : Option HNode := h.get? a

def hset (h : Heap) (a : Nat) (c : HNode) : Heap := h.set a c

def halloc (h : Heap) (c : HNode) : Heap × Nat := (h ++ [c], h.length)

/-- Property read on a node. -/
def objGetF : HNode → Str → Option HVal
  | .hobj fs, k => (fs.find? (fun f => f.1 == k)).map (fun f => f.2)
  | .harr _, _ => none

/-- Property write on a node: update in place, or add the field at the end
(JS insertion order). -/
def objSetF : HNode → Str → HVal → HNode
  | .hobj fs, k, v =>
    if (fs.find? (fun f => f.1 == k)).isSome then
      .hobj (fs.map (fun f => if f.1 == k then (f.1, v) else f))
    else .hobj (fs ++ [(k, v)])
  | .harr xs, _, _ => .harr xs

/-- Property delete on a node. -/
def objDelF : HNode → Str → HNode
  | .hobj fs, k => .hobj (fs.filter (fun f => !(f.1 == k)))
  | .harr xs, _ => .harr xs

/-- JS truthiness of a property-read result (`undefined` is falsy). -/
def jsTruthyV : Option HVal → Bool
  | none => false
  | some .vnull => false
  | some (.vbool b) => b
  | some (.vnum n) => !(n == 0)
  | some (.vstr s) => !s.isEmpty
  | some (.vref _) => true

/-- `v.k`: property read through the heap (`undefined` on primitives). -/
def getProp (h : Heap) (v : HVal) (k : Str) : Option HVal :=
  match v with
  | .vref a =>
    match hget h a with
    | some c => objGetF c k
    | none => none
  | _ => none

/-- `Array.isArray(v)` for a property-read result. -/
def isArrV (h : Heap) : Option HVal → Bool
  | some (.vref a) =>
    match hget h a with
    | some (.harr _) => true
    | _ => false
  | _ => false

/-- `v.k = w`: property store through the heap (silently skipped on
non-objects, which in the strict-mode source would throw). -/
def setField (h : Heap) (v : HVal) (k : Str) (w : HVal) : Heap :=
  match v with
  | .vref a =>
    match hget h a with
    | some c => hset h a (objSetF c k w)
    | none => h
  | _ => h

/-- `delete v.k`. -/
def delField (h : Heap) (v : HVal) (k : Str) : Heap :=
  match v with
  | .vref a =>
    match hget h a with
    | some c => hset h a (objDelF c k)
    | none => h
  | _ => h

/-- The string carried by `v.text` (request-body texts are strings). -/
def textOf (h : Heap) (v : HVal) : Str :=
  match getProp h v "text".data with
  | some (.vstr s) => s
  | _ => []

/-- `v.text = t`. -/
def setTextField (h : Heap) (v : HVal) (t : Str) : Heap :=
  setField h v "text".data (.vstr t)

/-- Clone every value of a field list with the given value-cloner,
threading the heap. -/
def cloneFieldsWith (f : Heap → HVal → Heap × HVal) :
    Heap → List (Str × HVal) → Heap × List (Str × HVal)
  | h, [] => (h, [])
  | h, (k, v) :: rest =>
    let r1 := f h v
    let r2 := cloneFieldsWith f r1.1 rest
    (r2.1, (k, r1.2) :: r2.2)

/-- Clone every item of an array with the given value-cloner. -/
def cloneItemsWith (f : Heap → HVal → Heap × HVal) :
    Heap → List HVal → Heap × List HVal
  | h, [] => (h, [])
  | h, v :: rest =>
    let r1 := f h v
    let r2 := cloneItemsWith f r1.1 rest
    (r2.1, r1.2 :: r2.2)

/-- `structuredClone`: a deep copy of the graph reachable from a value,
placed in freshly allocated cells (fuel-bounded recursion; the request
bodies involved are acyclic, and any fuel suffices for the no-side-effect
property). -/
def cloneV : Nat → Heap → HVal → Heap × HVal
  | 0, h, _ => (h, .vnull)
  | fuel + 1, h, v =>
    match v with
    | .vref a =>
      match hget h a with
      | some (.hobj fs) =>
        let r := cloneFieldsWith (cloneV fuel) h fs
        (r.1 ++ [.hobj r.2], .vref r.1.length)
      | some (.harr xs) =>
        let r := cloneItemsWith (cloneV fuel) h xs
        (r.1 ++ [.harr r.2], .vref r.1.length)
      | none => (h, .vnull)
    | w => (h, w)

/-- core.js `normalizeSystemInstruction`, acting on the heap. -/
def normalizeSystemInstructionH (h : Heap) (body : HVal) : Heap :=
  if jsTruthyV (getProp h body "systemInstruction".data) &&
      jsTruthyV (getProp h body "system_instruction".data) then
    delField h body "system_instruction".data
  else if !jsTruthyV (getProp h body "systemInstruction".data) &&
      jsTruthyV (getProp h body "system_instruction".data) then
    delField
      (setField h body "systemInstruction".data
        ((getProp h body "system_instruction".data).getD .vnull))
      body "system_instruction".data
  else h

/-- The systemInstruction branch of `injectSystemPrompts`
(core.js lines 79-95). -/
def injectIntoSI (h : Heap) (nb : HVal) (prompt : Str) : Heap :=
  if !jsTruthyV (getProp h nb "systemInstruction".data) then
    let a1 := halloc h (.hobj [("text".data, .vstr prompt)])
    let a2 := halloc a1.1 (.harr [.vref a1.2])
    let a3 := halloc a2.1 (.hobj [("parts".data, .vref a2.2)])
    setField a3.1 nb "systemInstruction".data (.vref a3.2)
  else
    let siv := (getProp h nb "systemInstruction".data).getD .vnull
    if !isArrV h (getProp h siv "parts".data) then
      let a1 := halloc h (.hobj [("text".data, .vstr prompt)])
      let a2 := halloc a1.1 (.harr [.vref a1.2])
      setField a2.1 siv "parts".data (.vref a2.2)
    else
      match (getProp h siv "parts".data).getD .vnull with
      | .vref pa =>
        match hget h pa with
        | some (.harr xs) =>
          if xs.isEmpty || !jsTruthyV (getProp h (xs.getD 0 .vnull) "text".data) then
            let a1 := halloc h (.hobj [("text".data, .vstr prompt)])
            hset a1.1 pa
              (.harr (if xs.isEmpty then [.vref a1.2] else xs.set 0 (.vref a1.2)))
          else
            setTextField h (xs.getD 0 .vnull)
              (textOf h (xs.getD 0 .vnull) ++ "\n\n---\n".data ++ prompt)
        | _ => h
      | _ => h

def roleIs (h : Heap) (cv : HVal) (r : Str) : Bool :=
  match getProp h cv "role".data with
  | some (.vstr s) => s == r
  | _ => false

/-- `content.parts`, when it is an array: its cell address and items. -/
def partsArrOf (h : Heap) (cv : HVal) : Option (Nat × List HVal) :=
  match getProp h cv "parts".data with
  | some (.vref pa) =>
    match hget h pa with
    | some (.harr xs) => some (pa, xs)
    | _ => none
  | _ => none

def hasTruthyText (h : Heap) (v : HVal) : Bool :=
  jsTruthyV (getProp h v "text".data)

/-- Index of the last part with truthy text (core.js lines 121-126). -/
def findLastTextIdxH (h : Heap) (xs : List HVal) : Option Nat :=
  match xs.reverse.findIdx? (fun v => hasTruthyText h v) with
  | some j => some (xs.length - 1 - j)
  | none => none

/-- One iteration of the `for (const content of newBody.contents)` loop
(core.js lines 98-135). -/
def injectContentStep (injB injF : Bool) (h : Heap) (cv : HVal) : Heap :=
  match partsArrOf h cv with
  | some (_, xs) =>
    let h1 :=
      if injB && roleIs h cv "model".data then
        match xs.findIdx? (fun v => hasTruthyText h v) with
        | some i =>
          setTextField h (xs.getD i .vnull)
            (BEGIN_TOKEN ++ '\n' :: textOf h (xs.getD i .vnull))
        | none => h
      else h
    if injF && roleIs h1 cv "model".data then
      match findLastTextIdxH h1 xs with
      | some i =>
        setTextField h1 (xs.getD i .vnull)
          (textOf h1 (xs.getD i .vnull) ++ '\n' :: FINISHED_TOKEN)
      | none => h1
    else h1
  | none => h

def injectContents (h : Heap) (nb : HVal) (injB injF : Bool) : Heap :=
  match getProp h nb "contents".data with
  | some (.vref ca) =>
    match hget h ca with
    | some (.harr cs) => cs.foldl (fun hh cv => injectContentStep injB injF hh cv) h
    | _ => h
  | _ => h

/-- Index of the last part with truthy, non-whitespace text
(core.js lines 143-150). -/
def lastNonWsTextIdx (h : Heap) (xs : List HVal) : Option Nat :=
  match xs.reverse.findIdx? (fun v =>
      match getProp h v "text".data with
      | some (.vstr s) => !s.isEmpty && !(jsTrim s).isEmpty
      | _ => false) with
  | some j => some (xs.length - 1 - j)
  | none => none

/-- The reminder block (core.js lines 138-166): append the reminder to the
last user message and, when the begin prompt is injected, push a fresh
model message carrying the thought seed. -/
def injectReminder (h : Heap) (nb : HVal) (cfg : Config) (injB : Bool) : Heap :=
  match getProp h nb "contents".data with
  | some (.vref ca) =>
    match hget h ca with
    | some (.harr cs) =>
      if cs.isEmpty then h
      else
        let lastC := cs.getD (cs.length - 1) .vnull
        match partsArrOf h lastC with
        | some (_, lxs) =>
          if roleIs h lastC "user".data && !lxs.isEmpty then
            match lastNonWsTextIdx h lxs with
            | some i =>
              let h1 := setTextField h (lxs.getD i .vnull)
                (textOf h (lxs.getD i .vnull) ++ "\n\n---\n".data ++ REMINDER_PROMPT)
              if injB then
                let a1 := halloc h1 (.hobj [("text".data, .vstr cfg.startOfThought)])
                let a2 := halloc a1.1 (.harr [.vref a1.2])
                let a3 := halloc a2.1
                  (.hobj [("role".data, .vstr "model".data),
                          ("parts".data, .vref a2.2)])
                hset a3.1 ca (.harr (cs ++ [.vref a3.2]))
              else h1
            | none => h
          else h
        | none => h
    | _ => h
  | _ => h

/-- core.js `injectSystemPrompts`, acting on the heap: deep-copy the body,
normalize the copy, then perform all prompt injections on the copy.
Returns the final heap and the reference to the copy. -/
def injectSystemPromptsH (h : Heap) (body : HVal) (cfg : Config)
    (injB injF : Bool) : Heap × HVal :=
  let c := cloneV (h.length + 1) h body
  let h1 := normalizeSystemInstructionH c.1 c.2
  let prompt :=
    if injB && injF then BEGIN_TOKEN_PROMPT ++ FINISH_TOKEN_PROMPT
    else if injB then BEGIN_TOKEN_PROMPT
    else if injF then FINISH_TOKEN_PROMPT
    else []
  if prompt.isEmpty then (h1, c.2)
  else
    let h2 := injectIntoSI h1 c.2 prompt
    let h3 := injectContents h2 c.2 injB injF
    let h4 := injectReminder h3 c.2 cfg injB
    (h4, c.2)

end AntiTrunc

namespace AntiTrunc

/-! C9 proof machinery: the fresh region (addresses at or above the
original heap size) is closed — fresh cells only reference fresh cells —
and every store of `injectSystemPrompts` targets a fresh address. -/

/-- A value references only the fresh region. -/
def vGood (n : Nat) (v : HVal) : Prop := ∀ a, v = .vref a → n ≤ a

/-- A cell references only the fresh region. -/
def nodeGood (n : Nat) : HNode → Prop
  | .hobj fs => ∀ f ∈ fs, vGood n f.2
  | .harr xs => ∀ x ∈ xs, vGood n x

/-- Every fresh cell references only the fresh region. -/
def heapGood (n : Nat) (h : Heap) : Prop :=
  ∀ j c, n ≤ j → hget h j = some c → nodeGood n c

/-- One program step: the prefix below `n` is untouched, the heap only
grows, and region-closure is maintained. -/
def StepOk (n : Nat) (h h2 : Heap) : Prop :=
  (∀ i, i < n → hget h2 i = hget h i) ∧ h.length ≤ h2.length ∧ heapGood n h2

lemma StepOk_refl (n : Nat) (h : Heap) (hg : heapGood n h) : StepOk n h h :=
  ⟨fun _ _ => rfl, Nat.le_refl _, hg⟩

lemma StepOk_trans (n : Nat) (h h2 h3 : Heap)
    (s1 : StepOk n h h2) (s2 : StepOk n h2 h3) : StepOk n h h3 :=
  ⟨fun i hi => (s2.1 i hi).trans (s1.1 i hi), Nat.le_trans s1.2.1 s2.2.1, s2.2.2⟩

lemma heapGood_init (h : Heap) : heapGood h.length h := by
  intro j c hj hc
  rw [hget, List.get?_eq_none.2 hj] at hc
  cases hc

lemma vGood_vnull (n : Nat) : vGood n .vnull := fun _ h => HVal.noConfusion h

lemma vGood_vstr (n : Nat) (s : Str) : vGood n (.vstr s) :=
  fun _ h => HVal.noConfusion h

lemma vGood_ref (n a : Nat) (h : n ≤ a) : vGood n (.vref a) := by
  intro a2 heq
  cases heq
  exact h

lemma getProp_good (n : Nat) (h : Heap) (v : HVal) (k : Str) (w : HVal)
    (hg : heapGood n h) (hv : vGood n v)
    (hw : getProp h v k = some w) : vGood n w := by
  cases v with
  | vref a =>
    have hw2 : (match hget h a with
        | some c => objGetF c k
        | none => none) = some w := hw
    cases hc : hget h a with
    | none =>
      simp only [hc] at hw2
      exact Option.noConfusion hw2
    | some c =>
      simp only [hc] at hw2
      have ha : n ≤ a := hv a rfl
      have hng := hg a c ha hc
      cases c with
      | hobj fs =>
        have hw3 : (fs.find? (fun f => f.1 == k)).map (fun f => f.2) = some w := hw2
        cases hf : fs.find? (fun f => f.1 == k) with
        | none => rw [hf] at hw3; cases hw3
        | some f =>
          rw [hf] at hw3
          have hw4 : some f.2 = some w := hw3
          cases hw4
          exact hng f (List.mem_of_find?_eq_some hf)
      | harr xs =>
        exact Option.noConfusion hw2
  | vnull => cases hw
  | vbool b => cases hw
  | vnum m => cases hw
  | vstr s => cases hw

lemma getDv_good (n : Nat) (ov : Option HVal)
    (h : ∀ w, ov = some w → vGood n w) : vGood n (ov.getD .vnull) := by
  cases ov with
  | none => exact vGood_vnull n
  | some w => exact h w rfl

lemma items_good (n : Nat) (h : Heap) (a : Nat) (xs : List HVal)
    (hg : heapGood n h) (ha : n ≤ a) (hx : hget h a = some (.harr xs)) :
    ∀ x ∈ xs, vGood n x :=
  hg a (.harr xs) ha hx

lemma getD_item_good (n : Nat) (xs : List HVal) (i : Nat)
    (hxs : ∀ x ∈ xs, vGood n x) : vGood n (xs.getD i .vnull) := by
  rw [List.getD_eq_getD_get?]
  cases hx : xs.get? i with
  | none => exact vGood_vnull n
  | some x => exact hxs x (List.get?_mem hx)

lemma nodeGood_objSetF (n : Nat) (c : HNode) (k : Str) (v : HVal)
    (hc : nodeGood n c) (hv : vGood n v) : nodeGood n (objSetF c k v) := by
  cases c with
  | harr xs => exact hc
  | hobj fs =>
    show nodeGood n (if (fs.find? (fun f => f.1 == k)).isSome then
        .hobj (fs.map (fun f => if f.1 == k then (f.1, v) else f))
      else .hobj (fs ++ [(k, v)]))
    by_cases hex : ((fs.find? (fun f => f.1 == k)).isSome : Prop)
    · rw [if_pos hex]
      intro f hf
      rw [List.mem_map] at hf
      obtain ⟨f0, hf0, hff⟩ := hf
      by_cases hk : (f0.1 == k) = true
      · rw [← hff]
        simp only [hk, if_true]
        exact hv
      · rw [← hff]
        rw [Bool.not_eq_true] at hk
        simp only [hk, Bool.false_eq_true, if_false]
        exact hc f0 hf0
    · rw [if_neg hex]
      intro f hf
      rcases List.mem_append.1 hf with h1 | h1
      · exact hc f h1
      · rcases List.mem_singleton.1 h1 with rfl
        exact hv

lemma nodeGood_objDelF (n : Nat) (c : HNode) (k : Str)
    (hc : nodeGood n c) : nodeGood n (objDelF c k) := by
  cases c with
  | harr xs => exact hc
  | hobj fs =>
    intro f hf
    exact hc f (List.mem_of_mem_filter hf)

lemma hset_StepOk (n : Nat) (h : Heap) (a : Nat) (c : HNode)
    (hg : heapGood n h) (ha : n ≤ a) (hc : nodeGood n c) :
    StepOk n h (hset h a c) := by
  refine ⟨?_, ?_, ?_⟩
  · intro i hi
    exact List.get?_set_ne _ _ (by omega)
  · show h.length ≤ (h.set a c).length
    rw [List.length_set]
  · intro j c2 hj hc2
    replace hc2 : (h.set a c).get? j = some c2 := hc2
    by_cases hja : a = j
    · subst hja
      by_cases hlt : a < h.length
      · rw [List.get?_set_eq_of_lt _ hlt] at hc2
        cases hc2
        exact hc
      · rw [List.get?_eq_none.2 (by rw [List.length_set]; omega)] at hc2
        cases hc2
    · rw [List.get?_set_ne _ _ hja] at hc2
      exact hg j c2 hj hc2

lemma halloc_StepOk (n : Nat) (h : Heap) (c : HNode)
    (hn : n ≤ h.length) (hg : heapGood n h) (hc : nodeGood n c) :
    StepOk n h (h ++ [c]) := by
  refine ⟨?_, by simp, ?_⟩
  · intro i hi
    exact List.get?_append (by omega)
  · intro j c2 hj hc2
    replace hc2 : (h ++ [c]).get? j = some c2 := hc2
    by_cases hlt : j < h.length
    · rw [List.get?_append hlt] at hc2
      exact hg j c2 hj hc2
    · rw [List.get?_append_right (by omega)] at hc2
      rcases Nat.lt_or_ge (j - h.length) 1 with h1 | h1
      · have hj0 : j - h.length = 0 := by omega
        rw [hj0] at hc2
        cases hc2
        exact hc
      · rw [List.get?_eq_none.2 (by simp; omega)] at hc2
        cases hc2

lemma setField_StepOk (n : Nat) (h : Heap) (v : HVal) (k : Str) (w : HVal)
    (hg : heapGood n h) (hv : vGood n v) (hw : vGood n w) :
    StepOk n h (setField h v k w) := by
  cases v with
  | vref a =>
    show StepOk n h (match hget h a with
      | some c => hset h a (objSetF c k w)
      | none => h)
    cases hc : hget h a with
    | none => exact StepOk_refl n h hg
    | some c =>
      have ha : n ≤ a := hv a rfl
      exact hset_StepOk n h a _ hg ha
        (nodeGood_objSetF n c k w (hg a c ha hc) hw)
  | vnull => exact StepOk_refl n h hg
  | vbool b => exact StepOk_refl n h hg
  | vnum m => exact StepOk_refl n h hg
  | vstr s => exact StepOk_refl n h hg

lemma delField_StepOk (n : Nat) (h : Heap) (v : HVal) (k : Str)
    (hg : heapGood n h) (hv : vGood n v) :
    StepOk n h (delField h v k) := by
  cases v with
  | vref a =>
    show StepOk n h (match hget h a with
      | some c => hset h a (objDelF c k)
      | none => h)
    cases hc : hget h a with
    | none => exact StepOk_refl n h hg
    | some c =>
      have ha : n ≤ a := hv a rfl
      exact hset_StepOk n h a _ hg ha
        (nodeGood_objDelF n c k (hg a c ha hc))
  | vnull => exact StepOk_refl n h hg
  | vbool b => exact StepOk_refl n h hg
  | vnum m => exact StepOk_refl n h hg
  | vstr s => exact StepOk_refl n h hg

lemma setTextField_StepOk (n : Nat) (h : Heap) (v : HVal) (t : Str)
    (hg : heapGood n h) (hv : vGood n v) :
    StepOk n h (setTextField h v t) :=
  setField_StepOk n h v _ _ hg hv (vGood_vstr n t)

end AntiTrunc

namespace AntiTrunc

/-- Specification of a value-cloner: it only appends fresh, region-closed
cells and returns a region-closed value. -/
def CloneOk (n : Nat) (f : Heap → HVal → Heap × HVal) : Prop :=
  ∀ h v, n ≤ h.length → heapGood n h →
    StepOk n h (f h v).1 ∧ vGood n (f h v).2

lemma cloneFieldsWith_ok (n : Nat) (f : Heap → HVal → Heap × HVal)
    (hf : CloneOk n f) : ∀ (fs : List (Str × HVal)) (h : Heap),
    n ≤ h.length → heapGood n h →
    StepOk n h (cloneFieldsWith f h fs).1 ∧
    ∀ g ∈ (cloneFieldsWith f h fs).2, vGood n g.2 := by
  intro fs
  induction fs with
  | nil =>
    intro h hn hg
    exact ⟨StepOk_refl n h hg, fun g hgm => absurd hgm (by simp [cloneFieldsWith])⟩
  | cons kv rest ih =>
    intro h hn hg
    obtain ⟨s1, v1⟩ := hf h kv.2 hn hg
    obtain ⟨s2, v2⟩ := ih (f h kv.2).1 (Nat.le_trans hn s1.2.1) s1.2.2
    constructor
    · show StepOk n h (cloneFieldsWith f (f h kv.2).1 rest).1
      exact StepOk_trans n h _ _ s1 s2
    · intro g hgm
      have hgm2 : g ∈ (kv.1, (f h kv.2).2) ::
          (cloneFieldsWith f (f h kv.2).1 rest).2 := hgm
      rcases List.mem_cons.1 hgm2 with rfl | h2
      · exact v1
      · exact v2 g h2

lemma cloneItemsWith_ok (n : Nat) (f : Heap → HVal → Heap × HVal)
    (hf : CloneOk n f) : ∀ (xs : List HVal) (h : Heap),
    n ≤ h.length → heapGood n h →
    StepOk n h (cloneItemsWith f h xs).1 ∧
    ∀ w ∈ (cloneItemsWith f h xs).2, vGood n w := by
  intro xs
  induction xs with
  | nil =>
    intro h hn hg
    exact ⟨StepOk_refl n h hg, fun w hwm => absurd hwm (by simp [cloneItemsWith])⟩
  | cons v rest ih =>
    intro h hn hg
    obtain ⟨s1, v1⟩ := hf h v hn hg
    obtain ⟨s2, v2⟩ := ih (f h v).1 (Nat.le_trans hn s1.2.1) s1.2.2
    constructor
    · show StepOk n h (cloneItemsWith f (f h v).1 rest).1
      exact StepOk_trans n h _ _ s1 s2
    · intro w hwm
      have hwm2 : w ∈ (f h v).2 :: (cloneItemsWith f (f h v).1 rest).2 := hwm
      rcases List.mem_cons.1 hwm2 with rfl | h2
      · exact v1
      · exact v2 w h2

lemma cloneV_ok (n : Nat) : ∀ fuel, CloneOk n (cloneV fuel) := by
  intro fuel
  induction fuel with
  | zero =>
    intro h v hn hg
    exact ⟨StepOk_refl n h hg, vGood_vnull n⟩
  | succ f ih =>
    intro h v hn hg
    cases v with
    | vref a =>
      have key : cloneV (f + 1) h (.vref a) = (match hget h a with
        | some (.hobj fs) =>
          ((cloneFieldsWith (cloneV f) h fs).1 ++
             [.hobj (cloneFieldsWith (cloneV f) h fs).2],
           HVal.vref (cloneFieldsWith (cloneV f) h fs).1.length)
        | some (.harr xs) =>
          ((cloneItemsWith (cloneV f) h xs).1 ++
             [.harr (cloneItemsWith (cloneV f) h xs).2],
           HVal.vref (cloneItemsWith (cloneV f) h xs).1.length)
        | none => (h, .vnull)) := rfl
      rw [key]
      cases hc : hget h a with
      | none => exact ⟨StepOk_refl n h hg, vGood_vnull n⟩
      | some c =>
        cases c with
        | hobj fs =>
          obtain ⟨s1, v1⟩ := cloneFieldsWith_ok n (cloneV f) ih fs h hn hg
          refine ⟨?_, ?_⟩
          · exact StepOk_trans n h _ _ s1
              (halloc_StepOk n _ _ (Nat.le_trans hn s1.2.1) s1.2.2 v1)
          · exact vGood_ref n _ (Nat.le_trans hn s1.2.1)
        | harr xs =>
          obtain ⟨s1, v1⟩ := cloneItemsWith_ok n (cloneV f) ih xs h hn hg
          refine ⟨?_, ?_⟩
          · exact StepOk_trans n h _ _ s1
              (halloc_StepOk n _ _ (Nat.le_trans hn s1.2.1) s1.2.2 v1)
          · exact vGood_ref n _ (Nat.le_trans hn s1.2.1)
    | vnull => exact ⟨StepOk_refl n h hg, vGood_vnull n⟩
    | vbool b => exact ⟨StepOk_refl n h hg, fun a2 h2 => HVal.noConfusion h2⟩
    | vnum m => exact ⟨StepOk_refl n h hg, fun a2 h2 => HVal.noConfusion h2⟩
    | vstr s2 => exact ⟨StepOk_refl n h hg, vGood_vstr n s2⟩

end AntiTrunc

namespace AntiTrunc

lemma partsArrOf_good (n : Nat) (h : Heap) (cv : HVal) (pa : Nat) (xs : List HVal)
    (hg : heapGood n h) (hv : vGood n cv)
    (hp : partsArrOf h cv = some (pa, xs)) : ∀ x ∈ xs, vGood n x := by
  unfold partsArrOf at hp
  cases hgp : getProp h cv "parts".data with
  | none => rw [hgp] at hp; cases hp
  | some w =>
    simp only [hgp] at hp
    cases w with
    | vref pa2 =>
      have hw : vGood n (HVal.vref pa2) := getProp_good n h cv _ _ hg hv hgp
      cases hn2 : hget h pa2 with
      | none => simp only [hn2] at hp; cases hp
      | some c =>
        simp only [hn2] at hp
        cases c with
        | hobj fs => cases hp
        | harr xs2 =>
          cases hp
          exact items_good n h _ _ hg (hw _ rfl) hn2
    | vnull => cases hp
    | vbool b => cases hp
    | vnum m => cases hp
    | vstr s => cases hp

lemma normalizeSI_StepOk (n : Nat) (h : Heap) (body : HVal)
    (hg : heapGood n h) (hv : vGood n body) :
    StepOk n h (normalizeSystemInstructionH h body) := by
  unfold normalizeSystemInstructionH
  split
  · exact delField_StepOk n h body _ hg hv
  · split
    · have hval : vGood n ((getProp h body "system_instruction".data).getD .vnull) :=
        getDv_good n _ (fun w hw => getProp_good n h body _ w hg hv hw)
      have s1 := setField_StepOk n h body "systemInstruction".data _ hg hv hval
      have s2 := delField_StepOk n _ body "system_instruction".data s1.2.2 hv
      exact StepOk_trans n _ _ _ s1 s2
    · exact StepOk_refl n h hg

lemma singleton_text_nodeGood (n : Nat) (t : Str) :
    nodeGood n (HNode.hobj [("text".data, HVal.vstr t)]) := by
  intro f hf
  rcases List.mem_singleton.1 hf with rfl
  exact vGood_vstr n t

lemma injectIntoSI_StepOk (n : Nat) (h : Heap) (nb : HVal) (prompt : Str)
    (hn : n ≤ h.length) (hg : heapGood n h) (hv : vGood n nb) :
    StepOk n h (injectIntoSI h nb prompt) := by
  have hsiv : vGood n ((getProp h nb "systemInstruction".data).getD HVal.vnull) :=
    getDv_good n _ (fun w hw => getProp_good n h nb _ w hg hv hw)
  simp only [injectIntoSI, halloc]
  split
  · have s1 := halloc_StepOk n h (HNode.hobj [("text".data, HVal.vstr prompt)]) hn hg
      (singleton_text_nodeGood n prompt)
    have s2 := halloc_StepOk n (h ++ [HNode.hobj [("text".data, HVal.vstr prompt)]])
      (HNode.harr [HVal.vref h.length]) (Nat.le_trans hn s1.2.1) s1.2.2
      (by
        intro x hx
        rcases List.mem_singleton.1 hx with rfl
        exact vGood_ref n _ hn)
    have s3 := halloc_StepOk n
      ((h ++ [HNode.hobj [("text".data, HVal.vstr prompt)]]) ++
        [HNode.harr [HVal.vref h.length]])
      (HNode.hobj [("parts".data,
        HVal.vref (h ++ [HNode.hobj [("text".data, HVal.vstr prompt)]]).length)])
      (Nat.le_trans (Nat.le_trans hn s1.2.1) s2.2.1) s2.2.2
      (by
        intro f hf
        rcases List.mem_singleton.1 hf with rfl
        exact vGood_ref n _ (Nat.le_trans hn s1.2.1))
    have s4 := setField_StepOk n _ nb "systemInstruction".data
      (HVal.vref (((h ++ [HNode.hobj [("text".data, HVal.vstr prompt)]]) ++
        [HNode.harr [HVal.vref h.length]])).length)
      s3.2.2 hv
      (vGood_ref n _ (Nat.le_trans (Nat.le_trans hn s1.2.1) s2.2.1))
    exact StepOk_trans n _ _ _ (StepOk_trans n _ _ _ (StepOk_trans n _ _ _ s1 s2) s3) s4
  · split
    · have s1 := halloc_StepOk n h (HNode.hobj [("text".data, HVal.vstr prompt)]) hn hg
        (singleton_text_nodeGood n prompt)
      have s2 := halloc_StepOk n (h ++ [HNode.hobj [("text".data, HVal.vstr prompt)]])
        (HNode.harr [HVal.vref h.length]) (Nat.le_trans hn s1.2.1) s1.2.2
        (by
          intro x hx
          rcases List.mem_singleton.1 hx with rfl
          exact vGood_ref n _ hn)
      have s3 := setField_StepOk n _ _ "parts".data
        (HVal.vref (h ++ [HNode.hobj [("text".data, HVal.vstr prompt)]]).length)
        s2.2.2 hsiv (vGood_ref n _ (Nat.le_trans hn s1.2.1))
      exact StepOk_trans n _ _ _ (StepOk_trans n _ _ _ s1 s2) s3
    · have hpG : vGood n ((getProp h
          ((getProp h nb "systemInstruction".data).getD HVal.vnull)
          "parts".data).getD HVal.vnull) :=
        getDv_good n _ (fun w hw => getProp_good n h _ _ w hg hsiv hw)
      cases hpv : (getProp h
          ((getProp h nb "systemInstruction".data).getD HVal.vnull)
          "parts".data).getD HVal.vnull with
      | vref pa =>
        rw [hpv] at hpG
        have hpa : n ≤ pa := hpG pa rfl
        simp only [hpv]
        cases hga : hget h pa with
        | none => simp only [hga]; exact StepOk_refl n h hg
        | some c =>
          cases c with
          | hobj fs => simp only [hga]; exact StepOk_refl n h hg
          | harr xs =>
            simp only [hga]
            have hxs : ∀ x ∈ xs, vGood n x := items_good n h pa xs hg hpa hga
            split
            · have s1 := halloc_StepOk n h
                (HNode.hobj [("text".data, HVal.vstr prompt)]) hn hg
                (singleton_text_nodeGood n prompt)
              have s2 := hset_StepOk n
                (h ++ [HNode.hobj [("text".data, HVal.vstr prompt)]]) pa
                (HNode.harr (if xs.isEmpty then [HVal.vref h.length]
                  else xs.set 0 (HVal.vref h.length)))
                s1.2.2 hpa
                (by
                  intro x hx
                  by_cases hemp : (xs.isEmpty : Prop)
                  · rw [if_pos hemp] at hx
                    rcases List.mem_singleton.1 hx with rfl
                    exact vGood_ref n _ hn
                  · rw [if_neg hemp] at hx
                    rcases List.mem_or_eq_of_mem_set hx with h2 | rfl
                    · exact hxs x h2
                    · exact vGood_ref n _ hn)
              exact StepOk_trans n _ _ _ s1 s2
            · exact setTextField_StepOk n h _ _ hg (getD_item_good n xs 0 hxs)
      | vnull => simp only [hpv]; exact StepOk_refl n h hg
      | vbool b => simp only [hpv]; exact StepOk_refl n h hg
      | vnum m => simp only [hpv]; exact StepOk_refl n h hg
      | vstr s => simp only [hpv]; exact StepOk_refl n h hg

end AntiTrunc

namespace AntiTrunc

lemma injectContentStep_StepOk (n : Nat) (injB injF : Bool) (h : Heap) (cv : HVal)
    (hg : heapGood n h) (hv : vGood n cv) :
    StepOk n h (injectContentStep injB injF h cv) := by
  cases hp : partsArrOf h cv with
  | none =>
    simp only [injectContentStep, hp]
    exact StepOk_refl n h hg
  | some pr =>
    obtain ⟨pa, xs⟩ := pr
    have hxs : ∀ x ∈ xs, vGood n x := partsArrOf_good n h cv pa xs hg hv hp
    simp only [injectContentStep, hp]
    have s2 : ∀ hh : Heap, heapGood n hh → StepOk n hh
        (if injF && roleIs hh cv "model".data then
          match findLastTextIdxH hh xs with
          | some i =>
            setTextField hh (xs.getD i .vnull)
              (textOf hh (xs.getD i .vnull) ++ '\n' :: FINISHED_TOKEN)
          | none => hh
        else hh) := by
      intro hh hgh
      split
      · split
        · rename_i i heq
          exact setTextField_StepOk n hh _ _ hgh (getD_item_good n xs i hxs)
        · exact StepOk_refl n hh hgh
      · exact StepOk_refl n hh hgh
    have s1 : StepOk n h
        (if injB && roleIs h cv "model".data then
          match xs.findIdx? (fun v => hasTruthyText h v) with
          | some i =>
            setTextField h (xs.getD i .vnull)
              (BEGIN_TOKEN ++ '\n' :: textOf h (xs.getD i .vnull))
          | none => h
        else h) := by
      split
      · split
        · rename_i i heq
          exact setTextField_StepOk n h _ _ hg (getD_item_good n xs i hxs)
        · exact StepOk_refl n h hg
      · exact StepOk_refl n h hg
    exact StepOk_trans n _ _ _ s1 (s2 _ s1.2.2)

lemma foldl_injectContentStep_StepOk (n : Nat) (injB injF : Bool) :
    ∀ (cs : List HVal) (h : Heap), n ≤ h.length → heapGood n h →
      (∀ cv ∈ cs, vGood n cv) →
      StepOk n h (cs.foldl (fun hh cv => injectContentStep injB injF hh cv) h) := by
  intro cs
  induction cs with
  | nil =>
    intro h hn hg hcs
    exact StepOk_refl n h hg
  | cons c rest ih =>
    intro h hn hg hcs
    have s1 := injectContentStep_StepOk n injB injF h c hg
      (hcs c (List.mem_cons_self c rest))
    have s2 := ih (injectContentStep injB injF h c)
      (Nat.le_trans hn s1.2.1) s1.2.2
      (fun cv hcv => hcs cv (List.mem_cons_of_mem c hcv))
    exact StepOk_trans n _ _ _ s1 s2

lemma injectContents_StepOk (n : Nat) (h : Heap) (nb : HVal) (injB injF : Bool)
    (hn : n ≤ h.length) (hg : heapGood n h) (hv : vGood n nb) :
    StepOk n h (injectContents h nb injB injF) := by
  simp only [injectContents]
  cases hgp : getProp h nb "contents".data with
  | none => simp only [hgp]; exact StepOk_refl n h hg
  | some w =>
    cases w with
    | vref ca =>
      simp only [hgp]
      have hca : n ≤ ca := (getProp_good n h nb _ _ hg hv hgp) ca rfl
      cases hgc : hget h ca with
      | none => simp only [hgc]; exact StepOk_refl n h hg
      | some c =>
        cases c with
        | hobj fs => simp only [hgc]; exact StepOk_refl n h hg
        | harr cs =>
          simp only [hgc]
          exact foldl_injectContentStep_StepOk n injB injF cs h hn hg
            (items_good n h ca cs hg hca hgc)
    | vnull => simp only [hgp]; exact StepOk_refl n h hg
    | vbool b => simp only [hgp]; exact StepOk_refl n h hg
    | vnum m => simp only [hgp]; exact StepOk_refl n h hg
    | vstr s => simp only [hgp]; exact StepOk_refl n h hg

lemma pushModel_StepOk (n : Nat) (h1 : Heap) (ca : Nat) (cs : List HVal) (t : Str)
    (hn : n ≤ h1.length) (hg : heapGood n h1) (hca : n ≤ ca)
    (hcs : ∀ x ∈ cs, vGood n x) :
    StepOk n h1 (hset
      (((h1 ++ [HNode.hobj [("text".data, HVal.vstr t)]]) ++
        [HNode.harr [HVal.vref h1.length]]) ++
        [HNode.hobj [("role".data, HVal.vstr "model".data),
          ("parts".data,
            HVal.vref (h1 ++ [HNode.hobj [("text".data, HVal.vstr t)]]).length)]])
      ca
      (HNode.harr (cs ++
        [HVal.vref ((h1 ++ [HNode.hobj [("text".data, HVal.vstr t)]]) ++
          [HNode.harr [HVal.vref h1.length]]).length]))) := by
  have sA := halloc_StepOk n h1 (HNode.hobj [("text".data, HVal.vstr t)]) hn hg
    (singleton_text_nodeGood n t)
  have sB := halloc_StepOk n (h1 ++ [HNode.hobj [("text".data, HVal.vstr t)]])
    (HNode.harr [HVal.vref h1.length]) (Nat.le_trans hn sA.2.1) sA.2.2
    (by
      intro x hx
      rcases List.mem_singleton.1 hx with rfl
      exact vGood_ref n _ hn)
  have sC := halloc_StepOk n
    ((h1 ++ [HNode.hobj [("text".data, HVal.vstr t)]]) ++
      [HNode.harr [HVal.vref h1.length]])
    (HNode.hobj [("role".data, HVal.vstr "model".data),
      ("parts".data,
        HVal.vref (h1 ++ [HNode.hobj [("text".data, HVal.vstr t)]]).length)])
    (Nat.le_trans (Nat.le_trans hn sA.2.1) sB.2.1) sB.2.2
    (by
      intro f hf
      rcases List.mem_cons.1 hf with rfl | hf2
      · exact vGood_vstr n _
      · rcases List.mem_singleton.1 hf2 with rfl
        exact vGood_ref n _ (Nat.le_trans hn sA.2.1))
  have sD := hset_StepOk n
    (((h1 ++ [HNode.hobj [("text".data, HVal.vstr t)]]) ++
      [HNode.harr [HVal.vref h1.length]]) ++
      [HNode.hobj [("role".data, HVal.vstr "model".data),
        ("parts".data,
          HVal.vref (h1 ++ [HNode.hobj [("text".data, HVal.vstr t)]]).length)]])
    ca
    (HNode.harr (cs ++
      [HVal.vref ((h1 ++ [HNode.hobj [("text".data, HVal.vstr t)]]) ++
        [HNode.harr [HVal.vref h1.length]]).length]))
    sC.2.2 hca
    (by
      intro x hx
      rcases List.mem_append.1 hx with h2 | h2
      · exact hcs x h2
      · rcases List.mem_singleton.1 h2 with rfl
        exact vGood_ref n _ (Nat.le_trans (Nat.le_trans hn sA.2.1) sB.2.1))
  exact StepOk_trans n _ _ _ (StepOk_trans n _ _ _ (StepOk_trans n _ _ _ sA sB) sC) sD

lemma injectReminder_StepOk (n : Nat) (h : Heap) (nb : HVal) (cfg : Config)
    (injB : Bool) (hn : n ≤ h.length) (hg : heapGood n h) (hv : vGood n nb) :
    StepOk n h (injectReminder h nb cfg injB) := by
  simp only [injectReminder]
  cases hgp : getProp h nb "contents".data with
  | none => simp only [hgp]; exact StepOk_refl n h hg
  | some w =>
    cases w with
    | vref ca =>
      simp only [hgp]
      have hca : n ≤ ca := (getProp_good n h nb _ _ hg hv hgp) ca rfl
      cases hgc : hget h ca with
      | none => simp only [hgc]; exact StepOk_refl n h hg
      | some c =>
        cases c with
        | hobj fs => simp only [hgc]; exact StepOk_refl n h hg
        | harr cs =>
          simp only [hgc]
          have hcs : ∀ x ∈ cs, vGood n x := items_good n h ca cs hg hca hgc
          split
          · exact StepOk_refl n h hg
          · have hlast : vGood n (cs.getD (cs.length - 1) HVal.vnull) :=
              getD_item_good n cs _ hcs
            cases hpl : partsArrOf h (cs.getD (cs.length - 1) HVal.vnull) with
            | none => simp only [hpl]; exact StepOk_refl n h hg
            | some pr =>
              obtain ⟨ppa, lxs⟩ := pr
              have hlxs : ∀ x ∈ lxs, vGood n x :=
                partsArrOf_good n h _ ppa lxs hg hlast hpl
              simp only [hpl]
              split
              · cases hli : lastNonWsTextIdx h lxs with
                | none => simp only [hli]; exact StepOk_refl n h hg
                | some i =>
                  simp only [hli]
                  have s1 : StepOk n h (setTextField h (lxs.getD i HVal.vnull)
                      (textOf h (lxs.getD i HVal.vnull) ++ "\n\n---\n".data ++
                        REMINDER_PROMPT)) :=
                    setTextField_StepOk n h _ _ hg (getD_item_good n lxs i hlxs)
                  split
                  · exact StepOk_trans n _ _ _ s1
                      (pushModel_StepOk n _ ca cs cfg.startOfThought
                        (Nat.le_trans hn s1.2.1) s1.2.2 hca hcs)
                  · exact s1
              · exact StepOk_refl n h hg
    | vnull => simp only [hgp]; exact StepOk_refl n h hg
    | vbool b => simp only [hgp]; exact StepOk_refl n h hg
    | vnum m => simp only [hgp]; exact StepOk_refl n h hg
    | vstr s => simp only [hgp]; exact StepOk_refl n h hg

end AntiTrunc

namespace AntiTrunc

/-- C9: `injectSystemPrompts` has no side effects on its argument. The
function deep-copies the body with `structuredClone` and performs every
mutation on the copy, whose cells all live above the original heap: every
cell of the original heap reads back unchanged after the call, for every
body, configuration and flag combination. -/
theorem injectSystemPrompts_no_side_effects (h : Heap) (body : HVal)
    (cfg : Config) (injB injF : Bool) :
    ∀ i, i < h.length →
      hget (injectSystemPromptsH h body cfg injB injF).1 i = hget h i := by
  intro i hi
  obtain ⟨s0, v0⟩ := cloneV_ok h.length (h.length + 1) h body
    (Nat.le_refl _) (heapGood_init h)
  have s1 := normalizeSI_StepOk h.length (cloneV (h.length + 1) h body).1
    (cloneV (h.length + 1) h body).2 s0.2.2 v0
  have hnorm : hget (normalizeSystemInstructionH (cloneV (h.length + 1) h body).1
      (cloneV (h.length + 1) h body).2) i = hget h i :=
    (StepOk_trans h.length _ _ _ s0 s1).1 i hi
  have hrest : ∀ p : Str,
      hget (injectReminder (injectContents (injectIntoSI
          (normalizeSystemInstructionH (cloneV (h.length + 1) h body).1
            (cloneV (h.length + 1) h body).2)
          (cloneV (h.length + 1) h body).2 p)
        (cloneV (h.length + 1) h body).2 injB injF)
        (cloneV (h.length + 1) h body).2 cfg injB) i = hget h i := by
    intro p
    have s2 := injectIntoSI_StepOk h.length _ (cloneV (h.length + 1) h body).2 p
      (Nat.le_trans s0.2.1 s1.2.1) s1.2.2 v0
    have s3 := injectContents_StepOk h.length _ (cloneV (h.length + 1) h body).2
      injB injF (Nat.le_trans (Nat.le_trans s0.2.1 s1.2.1) s2.2.1) s2.2.2 v0
    have s4 := injectReminder_StepOk h.length _ (cloneV (h.length + 1) h body).2
      cfg injB
      (Nat.le_trans (Nat.le_trans (Nat.le_trans s0.2.1 s1.2.1) s2.2.1) s3.2.1)
      s3.2.2 v0
    exact (StepOk_trans h.length _ _ _
      (StepOk_trans h.length _ _ _
        (StepOk_trans h.length _ _ _
          (StepOk_trans h.length _ _ _ s0 s1) s2) s3) s4).1 i hi
  simp only [injectSystemPromptsH]
  cases injB with
  | false =>
    cases injF with
    | false => exact hnorm
    | true => exact hrest _
  | true =>
    cases injF with
    | false => exact hrest _
    | true => exact hrest _

/-- C9 witness: a concrete two-cell body is injected with both flags on,
and the original heap cell reads back unchanged. -/
theorem injectSystemPrompts_no_side_effects_witness :
    0 < ([HNode.hobj [("contents".data, HVal.vref 1)],
          HNode.harr []] : Heap).length ∧
    hget (injectSystemPromptsH
        [HNode.hobj [("contents".data, HVal.vref 1)], HNode.harr []]
        (HVal.vref 0) ⟨3, "t".data⟩ true true).1 0 =
      hget [HNode.hobj [("contents".data, HVal.vref 1)], HNode.harr []] 0 :=
  ⟨by decide,
    injectSystemPrompts_no_side_effects
      [HNode.hobj [("contents".data, HVal.vref 1)], HNode.harr []]
      (HVal.vref 0) ⟨3, "t".data⟩ true true 0 (by decide)⟩

end AntiTrunc
